import Mathlib

/-!
# The dt assembler back end: instruction encoder and displacement resolver

A shallow embedding of `src/inst.c`, `src/inst.h`, `src/mem.c`, `src/mem.h`,
`src/symtab.c` and `src/riscvarch.h`.

Conventions of the embedding:

* a `uint32_t` or `uint64_t` value is a `Nat`; where the C operation can leave
  the range (a left shift, a subtraction) the result is reduced `% 2 ^ 32`
  or `% 2 ^ 64` explicitly;
* an `int32_t` or `int64_t` value is an `Int`; its conversion to the unsigned
  type of the same width is `toU32` / reduction modulo the width, its
  conversion from a wider unsigned value is `toI32` / `toI64`
  (two's complement wrap-around, as the compilers this program is built
  with implement it);
* a pointer that may be `NULL` is an `Option`; the intrusive linked lists
  (`next` links) are `List`s, and every entry owns its instruction record;
* `yyerror`, the error sink, does not return: a function that calls it
  yields `Except.error`; where a property speaks of the state at that moment,
  the function returns it next to the outcome (`symtab_new`).
-/

namespace DT

/-! ## Machine arithmetic -/

/-- Conversion of a signed integer to `uint32_t` (two's complement). -/
def toU32 (i : Int) : Nat := (i % 2 ^ 32).toNat

/-- Conversion of an integer to `int32_t`: the low 32 bits, read as signed. -/
def toI32 (i : Int) : Int :=
  let m := i % 2 ^ 32
  if m < 2 ^ 31 then m else m - 2 ^ 32

/-- Conversion of an integer to `int64_t`: the low 64 bits, read as signed. -/
def toI64 (i : Int) : Int :=
  let m := i % 2 ^ 64
  if m < 2 ^ 63 then m else m - 2 ^ 64

/-- Left shift of a `uint32_t`: bits shifted past bit 31 are lost. -/
def shl32 (a n : Nat) : Nat := (a <<< n) % 2 ^ 32

/-- The bit slice `[hi:lo]` of a word, as a number. -/
def bits (w hi lo : Nat) : Nat := (w >>> lo) % 2 ^ (hi + 1 - lo)

/-- Sign extension of the low `n` bits of `v`. -/
def signExtend (n v : Nat) : Int :=
  if v % 2 ^ n < 2 ^ (n - 1) then ((v % 2 ^ n : Nat) : Int)
  else ((v % 2 ^ n : Nat) : Int) - 2 ^ n

/-! ## `riscvarch.h`: the flattened instruction numbering -/

def RISCV_LUI : Int := 0
def RISCV_AUIPC : Int := 1
def RISCV_JAL : Int := 2
def RISCV_JALR : Int := 3
def RISCV_BEQ : Int := 4
def RISCV_BNE : Int := 5
def RISCV_BLT : Int := 6
def RISCV_BGE : Int := 7
def RISCV_BLTU : Int := 8
def RISCV_BGEU : Int := 9
def RISCV_LB : Int := 10
def RISCV_LH : Int := 11
def RISCV_LW : Int := 12
def RISCV_LBU : Int := 13
def RISCV_LHU : Int := 14
def RISCV_SB : Int := 15
def RISCV_SH : Int := 16
def RISCV_SW : Int := 17
def RISCV_ADDI : Int := 18
def RISCV_SLTI : Int := 19
def RISCV_SLTIU : Int := 20
def RISCV_XORI : Int := 21
def RISCV_ORI : Int := 22
def RISCV_ANDI : Int := 23
def RISCV_SLLI : Int := 24
def RISCV_SRLI : Int := 25
def RISCV_SRAI : Int := 26
def RISCV_ADD : Int := 27
def RISCV_SUB : Int := 28
def RISCV_SLL : Int := 29
def RISCV_SLT : Int := 30
def RISCV_SLTU : Int := 31
def RISCV_XOR : Int := 32
def RISCV_SRL : Int := 33
def RISCV_SRA : Int := 34
def RISCV_OR : Int := 35
def RISCV_AND : Int := 36
def RISCV_FENCE : Int := 37
def RISCV_FENCE_I : Int := 38
def RISCV_ECALL : Int := 39
def RISCV_EBREAK : Int := 40
def RISCV_CSRRW : Int := 41
def RISCV_CSRRS : Int := 42
def RISCV_CSRRC : Int := 43
def RISCV_CSRRWI : Int := 44
def RISCV_CSRRSI : Int := 45
def RISCV_CSRRCI : Int := 46
def RISCV_J : Int := 47
def RISCV_JR : Int := 48
def RISCV_RET : Int := 50
def RISCV_MUL : Int := 51
def RISCV_DIV : Int := 52

/-! ## `inst.h`: the instruction record -/

/-- The record `instruction_t`. The C record keeps `imm`, `shamt` and
`target_address` in one 8-byte union: `imm` is the 32-bit value the encoders
read, and `target_address_hi` is the upper half of the union's storage, which
no encoder reads. `target_name` is `none` for a `NULL` pointer. -/
structure instruction_t where
  inst_id : Int
  opcode : Nat
  funct3 : Nat
  funct7 : Nat
  rdst : Nat
  rsrc1 : Nat
  rsrc2 : Nat
  imm : Int
  target_address_hi : Nat := 0
  target_name : Option String
deriving DecidableEq, Repr

/-! ## `inst.c`: the six format encoders -/

/-- The function `encode_r_type`. -/
def encode_r_type (inst : instruction_t) : Nat :=
  let encoding := 0
  let encoding := encoding ||| inst.opcode
  let encoding := encoding ||| shl32 inst.rdst 7
  let encoding := encoding ||| shl32 inst.funct3 12
  let encoding := encoding ||| shl32 inst.rsrc1 15
  let encoding := encoding ||| shl32 inst.rsrc2 20
  let encoding := encoding ||| shl32 inst.funct7 25
  encoding

/-- The function `encode_i_type`. -/
def encode_i_type (inst : instruction_t) : Nat :=
  let encoding := 0
  let encoding := encoding ||| inst.opcode
  let encoding := encoding ||| shl32 inst.rdst 7
  let encoding := encoding ||| shl32 inst.funct3 12
  let encoding := encoding ||| shl32 inst.rsrc1 15
  let encoding := encoding ||| shl32 (toU32 inst.imm) 20
  encoding

/-- The function `encode_s_type`. -/
def encode_s_type (inst : instruction_t) : Nat :=
  let encoding := 0
  let lower_mask := 0x1f
  let higher_mask := 0xfe0
  let temp_imm_high := toU32 inst.imm &&& higher_mask
  let temp_imm_low := toU32 inst.imm &&& lower_mask
  let encoding := encoding ||| inst.opcode
  let encoding := encoding ||| shl32 inst.funct3 12
  let encoding := encoding ||| shl32 inst.rsrc1 15
  let encoding := encoding ||| shl32 inst.rsrc2 20
  let encoding := encoding ||| shl32 temp_imm_high 20
  let encoding := encoding ||| shl32 temp_imm_low 7
  encoding

/-- The function `encode_b_type`. -/
def encode_b_type (inst : instruction_t) : Nat :=
  let encoding := 0
  let mask := 0x800
  let temp_imm := (mask &&& toU32 inst.imm) >>> 4
  let encoding := encoding ||| temp_imm
  let mask := 0x1E
  let temp_imm := shl32 (mask &&& toU32 inst.imm) 7
  let encoding := encoding ||| temp_imm
  let mask := 0x7E0
  let temp_imm := shl32 (toU32 inst.imm &&& mask) 20
  let encoding := encoding ||| temp_imm
  let mask := 0x1000
  let temp_imm := shl32 (toU32 inst.imm &&& mask) 19
  let encoding := encoding ||| temp_imm
  let encoding := encoding ||| inst.opcode
  let encoding := encoding ||| shl32 inst.funct3 12
  let encoding := encoding ||| shl32 inst.rsrc1 15
  let encoding := encoding ||| shl32 inst.rsrc2 20
  encoding

/-- The function `encode_u_type`. -/
def encode_u_type (inst : instruction_t) : Nat :=
  let encoding := 0
  let encoding := encoding ||| inst.opcode
  let encoding := encoding ||| shl32 inst.rdst 7
  let encoding := encoding ||| shl32 (toU32 inst.imm) 12
  encoding

/-- The function `encode_j_type`. -/
def encode_j_type (inst : instruction_t) : Nat :=
  let encoding := 0
  let calculated_imm := toU32 inst.imm
  let mask := 0xff000
  let temp_imm := calculated_imm &&& mask
  let encoding := encoding ||| temp_imm
  let mask := 0x800
  let temp_imm := shl32 (calculated_imm &&& mask) 9
  let encoding := encoding ||| temp_imm
  let mask := 0x7fe
  let temp_imm := shl32 (calculated_imm &&& mask) 20
  let encoding := encoding ||| temp_imm
  let mask := 0x100000
  let temp_imm := shl32 (calculated_imm &&& mask) 11
  let encoding := encoding ||| temp_imm
  let encoding := encoding ||| inst.opcode
  let encoding := encoding ||| shl32 inst.rdst 7
  encoding

/-- The function `encode_instruction`: the `switch` on `inst_id`. An id without a
`case` leaves `encoding` at its initial value 0. -/
def encode_instruction (inst : instruction_t) : Nat :=
  if inst.inst_id = RISCV_LUI then encode_u_type inst
  else if inst.inst_id = RISCV_AUIPC then encode_u_type inst
  else if inst.inst_id = RISCV_JAL then encode_j_type inst
  else if inst.inst_id = RISCV_JALR then encode_i_type inst
  else if inst.inst_id = RISCV_BEQ then encode_b_type inst
  else if inst.inst_id = RISCV_BNE then encode_b_type inst
  else if inst.inst_id = RISCV_BLT then encode_b_type inst
  else if inst.inst_id = RISCV_BGE then encode_b_type inst
  else if inst.inst_id = RISCV_BLTU then encode_b_type inst
  else if inst.inst_id = RISCV_BGEU then encode_b_type inst
  else if inst.inst_id = RISCV_LB then encode_i_type inst
  else if inst.inst_id = RISCV_LH then encode_i_type inst
  else if inst.inst_id = RISCV_LW then encode_i_type inst
  else if inst.inst_id = RISCV_LBU then encode_i_type inst
  else if inst.inst_id = RISCV_LHU then encode_i_type inst
  else if inst.inst_id = RISCV_SB then encode_s_type inst
  else if inst.inst_id = RISCV_SH then encode_s_type inst
  else if inst.inst_id = RISCV_SW then encode_s_type inst
  else if inst.inst_id = RISCV_ADDI then encode_i_type inst
  else if inst.inst_id = RISCV_SLTI then encode_i_type inst
  else if inst.inst_id = RISCV_SLTIU then encode_i_type inst
  else if inst.inst_id = RISCV_XORI then encode_i_type inst
  else if inst.inst_id = RISCV_ORI then encode_i_type inst
  else if inst.inst_id = RISCV_ANDI then encode_i_type inst
  else if inst.inst_id = RISCV_SLLI then encode_r_type inst
  else if inst.inst_id = RISCV_SRLI then encode_r_type inst
  else if inst.inst_id = RISCV_SRAI then encode_r_type inst
  else if inst.inst_id = RISCV_ADD then encode_r_type inst
  else if inst.inst_id = RISCV_SUB then encode_r_type inst
  else if inst.inst_id = RISCV_MUL then encode_r_type inst
  else if inst.inst_id = RISCV_DIV then encode_r_type inst
  else if inst.inst_id = RISCV_SLL then encode_r_type inst
  else if inst.inst_id = RISCV_SLT then encode_r_type inst
  else if inst.inst_id = RISCV_SLTU then encode_r_type inst
  else if inst.inst_id = RISCV_XOR then encode_r_type inst
  else if inst.inst_id = RISCV_SRL then encode_r_type inst
  else if inst.inst_id = RISCV_SRA then encode_r_type inst
  else if inst.inst_id = RISCV_OR then encode_r_type inst
  else if inst.inst_id = RISCV_AND then encode_r_type inst
  else if inst.inst_id = RISCV_ECALL then encode_i_type inst
  else if inst.inst_id = RISCV_EBREAK then encode_i_type inst
  else if inst.inst_id = RISCV_J then encode_j_type inst
  else if inst.inst_id = RISCV_JR then encode_i_type inst
  else if inst.inst_id = RISCV_RET then encode_i_type inst
  else 0

/-! ## `symtab.h`, `symtab.c`: the symbol table -/

/-- The enumeration `symtab_type_t`. -/
inductive symtab_type_t where
  | SYMTAB_IREG
  | SYMTAB_FREG
  | SYMTAB_MEM
deriving DecidableEq, Repr

/-- The record `symtab_entry_t`; the `next` link is the tail of the list. -/
structure symtab_entry_t where
  name : String
  type : symtab_type_t
  value : Nat
deriving DecidableEq, Repr

/-- The search loop shared by `symtab_update`, `symtab_lookup` and `symtab_type`:
the first entry, from `symtab_head` on, whose name compares equal with `strcmp`. -/
def symtab_find : List symtab_entry_t → String → Option symtab_entry_t
  | [], _ => none
  | working :: next, name =>
    if name = working.name then some working else symtab_find next name

/-- The function `symtab_lookup`: the stored `uint64_t` value returned as `int64_t`,
or -1 when no entry has the name. -/
def symtab_lookup (symtab_head : List symtab_entry_t) (name : String) : Int :=
  match symtab_find symtab_head name with
  | none => -1
  | some entry => toI64 entry.value

/-- The function `symtab_type`; `none` stands for the value -1 returned when no
entry has the name, which is none of the three kinds. -/
def symtab_type (symtab_head : List symtab_entry_t) (name : String) : Option symtab_type_t :=
  match symtab_find symtab_head name with
  | none => none
  | some entry => some entry.type

/-! ## `mem.h`: memory entries and blocks -/

/-- The enumeration `status_t`. -/
inductive status_t where
  | ENTRY_INCOMPLETE
  | ENTRY_COMPLETE
deriving DecidableEq, Repr

/-- The enumeration `type_t`. -/
inductive type_t where
  | ENTRY_DEFINITION
  | ENTRY_JOIN_NODE
  | ENTRY_INSTRUCTION
  | ENTRY_BDATA
  | ENTRY_HDATA
  | ENTRY_WDATA
  | ENTRY_LDATA
  | ENTRY_FDATA
  | ENTRY_DDATA
  | ENTRY_SDATA
deriving DecidableEq, Repr

/-- The record `mem_entry_t`, without its `next` link. `inst` is `none` for a `NULL`
pointer; `ivalue` is the integer reading of the value union. -/
structure mem_entry_t where
  status : status_t
  type : type_t
  name : Option String := none
  address : Nat
  size : Nat
  inst : Option instruction_t
  ivalue : Nat := 0
deriving DecidableEq, Repr

/-- The record `memblock_list_t`, without its `next` link; `head` is the entry list. -/
structure memblock_list_t where
  min_address : Nat
  max_address : Nat
  head : List mem_entry_t
deriving DecidableEq, Repr

/-! ## `inst.c`: the displacement resolver -/

/-- How a run ends when it does not return: `fatal msg` is a call `yyerror(msg)`,
`null_deref` is the dereference of a `NULL` pointer, and `undefined` is a write past the
end of an array, after which the C standard promises nothing. -/
inductive failure where
  | fatal (msg : String)
  | null_deref
  | undefined
deriving DecidableEq, Repr

/-- The value of `strlen` for a string: the number of its bytes, the terminating NUL not
counted. -/
def strlen (s : String) : Nat := (s.data.map fun c => c.utf8Size).sum

/-- The pair `sprintf(buff, ...); yyerror(buff);` with `char buff[size]`, where `msg` is
the text `sprintf` builds: the text and its NUL take `strlen msg + 1` bytes, and `sprintf`
checks no length, so a longer text is written past the end of `buff` before `yyerror` is
reached. -/
def sprintf_yyerror (size : Nat) (msg : String) : failure :=
  if strlen msg + 1 ≤ size then failure.fatal msg else failure.undefined

/-- Conversion of an integer to `uint64_t`. -/
def toU64 (i : Int) : Nat := (i % 2 ^ 64).toNat

/-- The value of `sizeof(Elf64_Ehdr)` from `<elf.h>`. -/
def sizeof_Elf64_Ehdr : Nat := 64

/-- The value of `sizeof(Elf64_Phdr)` from `<elf.h>`. -/
def sizeof_Elf64_Phdr : Nat := 56

/-- The text printed by `%x` with a minimal width, padded on the left with `fill`. -/
def fmt_hex (fill : Char) (width n : Nat) : String :=
  let digits := Nat.toDigits 16 n
  String.mk (List.replicate (width - digits.length) fill ++ digits)

/-- The body of the inner loop of `calculate_offsets`, for one entry `working`: the
entry after the step, or the way the run ends there. The step reads `working->inst` and
passes `target_name` to `strcmp`, so a `NULL` in either place is `null_deref`. The message
of a fatal end is the text `sprintf` is asked to build in `char buff[100]`; the two
messages that carry the label overrun it for long labels, the third one has at most 80
characters and fits. The narrowing assignment to the
`int32_t` field `imm` is `toI32`; the subtraction and the additions are carried out in
`uint64_t`, as the usual arithmetic conversions make them. -/
def calculate_offsets_entry (symtab_head : List symtab_entry_t) (working : mem_entry_t) :
    Except failure mem_entry_t :=
  if working.type = type_t.ENTRY_INSTRUCTION ∧ working.status = status_t.ENTRY_INCOMPLETE then
    match working.inst with
    | none => Except.error failure.null_deref
    | some inst =>
      match inst.target_name with
      | none => Except.error failure.null_deref
      | some target_name =>
        let target_address := symtab_lookup symtab_head target_name
        if target_address < 0 then
          Except.error (sprintf_yyerror 100
            ("Symbol table lookup failed on label \"" ++ target_name ++ "\" -- name not found."))
        else if symtab_type symtab_head target_name ≠ some symtab_type_t.SYMTAB_MEM then
          Except.error (sprintf_yyerror 100
            ("Symbol table lookup failed on label \"" ++ target_name ++
              "\" -- label refers to a register."))
        else if inst.inst_id = RISCV_JAL ∨ inst.inst_id = RISCV_J then
          Except.ok { working with
            inst := some { inst with
              imm := toI32 ((toU64 (target_address - working.address) : Nat) : Int) }
            status := status_t.ENTRY_COMPLETE }
        else if inst.inst_id = RISCV_BEQ ∨ inst.inst_id = RISCV_BNE ∨
            inst.inst_id = RISCV_BLT ∨ inst.inst_id = RISCV_BGE ∨
            inst.inst_id = RISCV_BLTU ∨ inst.inst_id = RISCV_BGEU then
          Except.ok { working with
            inst := some { inst with
              imm := toI32 ((toU64 (target_address - working.address) &&& 0x1fff : Nat) : Int) }
            status := status_t.ENTRY_COMPLETE }
        else if inst.inst_id = RISCV_LUI then
          Except.ok { working with
            inst := some { inst with
              imm := toI32 (((toU64 (target_address + sizeof_Elf64_Ehdr + sizeof_Elf64_Phdr)
                >>> 12) &&& 0xfffff : Nat) : Int) }
            status := status_t.ENTRY_COMPLETE }
        else if inst.inst_id = RISCV_ORI then
          Except.ok { working with
            inst := some { inst with
              imm := toI32 ((toU64 (target_address + sizeof_Elf64_Ehdr + sizeof_Elf64_Phdr)
                &&& 0xfff : Nat) : Int) }
            status := status_t.ENTRY_COMPLETE }
        else
          Except.error (failure.fatal
            ("Unexpected incomplete instruction at address 0x" ++
              fmt_hex ' ' 12 working.address ++ ", id: " ++ toString inst.inst_id))
  else
    Except.ok working

/-- The inner loop of `calculate_offsets`: the entries of one block, head to tail. -/
def calculate_offsets_block (symtab_head : List symtab_entry_t) :
    List mem_entry_t → Except failure (List mem_entry_t)
  | [] => Except.ok []
  | working :: next =>
    match calculate_offsets_entry symtab_head working with
    | Except.error f => Except.error f
    | Except.ok working' =>
      match calculate_offsets_block symtab_head next with
      | Except.error f => Except.error f
      | Except.ok next' => Except.ok (working' :: next')

/-- The function `calculate_offsets`: the outer loop over `block_list`. The result is
the block list after the pass, or the way the run ended. -/
def calculate_offsets (symtab_head : List symtab_entry_t) :
    List memblock_list_t → Except failure (List memblock_list_t)
  | [] => Except.ok []
  | list :: next =>
    match calculate_offsets_block symtab_head list.head with
    | Except.error f => Except.error f
    | Except.ok head' =>
      match calculate_offsets symtab_head next with
      | Except.error f => Except.error f
      | Except.ok next' => Except.ok ({ list with head := head' } :: next')

/-! ## Reference decoders of the RISC-V base ISA, used to state the properties -/

/-- The B-type immediate of a word: bits 31, 7, 30:25, 11:8, with bit 0 = 0. -/
def decode_b_imm (w : Nat) : Nat :=
  bits w 31 31 * 2 ^ 12 + bits w 7 7 * 2 ^ 11 + bits w 30 25 * 2 ^ 5 + bits w 11 8 * 2

/-- The J-type immediate of a word: bits 31, 19:12, 20, 30:21, with bit 0 = 0. -/
def decode_j_imm (w : Nat) : Nat :=
  bits w 31 31 * 2 ^ 20 + bits w 19 12 * 2 ^ 12 + bits w 20 20 * 2 ^ 11 + bits w 30 21 * 2

/-- The S-type immediate of a word: bits 31:25 and 11:7 reassembled. -/
def decode_s_imm (w : Nat) : Nat :=
  bits w 31 25 * 2 ^ 5 + bits w 11 7

/-! ## Concrete records and states -/

/-- The record of `SUB x1, x2, x3`. -/
def ex_sub : instruction_t :=
  { inst_id := RISCV_SUB, opcode := 0x33, funct3 := 0, funct7 := 0x20, rdst := 1, rsrc1 := 2,
    rsrc2 := 3, imm := 0, target_name := none }

/-- The record of `ADDI x5, x6, -3`. -/
def ex_addi : instruction_t :=
  { inst_id := RISCV_ADDI, opcode := 0x13, funct3 := 0, funct7 := 0, rdst := 5, rsrc1 := 6,
    rsrc2 := 0, imm := -3, target_name := none }

/-- The record of `SW x7, -20(x8)`. -/
def ex_sw : instruction_t :=
  { inst_id := RISCV_SW, opcode := 0x23, funct3 := 2, funct7 := 0, rdst := 0, rsrc1 := 8,
    rsrc2 := 7, imm := -20, target_name := none }

/-- The record of `BEQ x1, x2` with displacement 8. -/
def ex_beq : instruction_t :=
  { inst_id := RISCV_BEQ, opcode := 0x63, funct3 := 0, funct7 := 0, rdst := 0, rsrc1 := 1,
    rsrc2 := 2, imm := 8, target_name := none }

/-- The record of `LUI x5` with payload 1. -/
def ex_lui : instruction_t :=
  { inst_id := RISCV_LUI, opcode := 0x37, funct3 := 0, funct7 := 0, rdst := 5, rsrc1 := 0,
    rsrc2 := 0, imm := 1, target_name := none }

/-- The record of `JAL x1` with displacement -256. -/
def ex_jal : instruction_t :=
  { inst_id := RISCV_JAL, opcode := 0x6f, funct3 := 0, funct7 := 0, rdst := 1, rsrc1 := 0,
    rsrc2 := 0, imm := -256, target_name := none }

/-- The record of `RET`, as the front end leaves it. -/
def ex_ret : instruction_t :=
  { inst_id := RISCV_RET, opcode := 0x67, funct3 := 0, funct7 := 0, rdst := 0, rsrc1 := 1,
    rsrc2 := 0, imm := 0, target_name := none }

/-- A symbol table with one label at 0x1008 and one at 0x2100. -/
def ex_symtab : List symtab_entry_t :=
  [ { name := "done", type := symtab_type_t.SYMTAB_MEM, value := 0x1008 },
    { name := "far", type := symtab_type_t.SYMTAB_MEM, value := 0x2100 } ]

/-- An incomplete `BEQ x1, x2, done` at address 0x1000. -/
def ex_branch_entry : mem_entry_t :=
  { status := status_t.ENTRY_INCOMPLETE, type := type_t.ENTRY_INSTRUCTION, address := 0x1000,
    size := 4, inst := some { ex_beq with imm := 0, target_name := some "done" } }

/-- An incomplete `JAL x1, far` at address 0x2000. -/
def ex_jump_entry : mem_entry_t :=
  { status := status_t.ENTRY_INCOMPLETE, type := type_t.ENTRY_INSTRUCTION, address := 0x2000,
    size := 4, inst := some { ex_jal with imm := 0, target_name := some "far" } }

/-- A block list with the two entries above, one per block. -/
def ex_block_list : List memblock_list_t :=
  [ { min_address := 0x1000, max_address := 0x1003, head := [ex_branch_entry] },
    { min_address := 0x2000, max_address := 0x2003, head := [ex_jump_entry] } ]

/-- The block list above after the displacement pass. -/
def ex_block_list_resolved : List memblock_list_t :=
  [ { min_address := 0x1000, max_address := 0x1003,
      head := [ { ex_branch_entry with
                  status := status_t.ENTRY_COMPLETE
                  inst := some { ex_beq with imm := 8, target_name := some "done" } } ] },
    { min_address := 0x2000, max_address := 0x2003,
      head := [ { ex_jump_entry with
                  status := status_t.ENTRY_COMPLETE
                  inst := some { ex_jal with imm := 0x100, target_name := some "far" } } ] } ]

/-- The field `target_address` of `instruction_t`. It is a member of the same union as
`imm`: on the little-endian hosts the program runs on, its low 32 bits are the storage of
`imm` and its upper 32 bits are `target_address_hi`. -/
def instruction_t.target_address (inst : instruction_t) : Nat :=
  inst.target_address_hi * 2 ^ 32 + toU32 inst.imm

/-- A symbol table with the label of scenario E6 and a label at 2^32. -/
def ex_symtab_abs : List symtab_entry_t :=
  [ { name := "msg", type := symtab_type_t.SYMTAB_MEM, value := 0x1000 },
    { name := "high", type := symtab_type_t.SYMTAB_MEM, value := 0x100000000 } ]

/-- An incomplete `LUI x5` with the given label. -/
def ex_lui_entry (label : String) : mem_entry_t :=
  { status := status_t.ENTRY_INCOMPLETE, type := type_t.ENTRY_INSTRUCTION, address := 0x2000,
    size := 4, inst := some { ex_lui with imm := 0, target_name := some label } }

/-- The record of `ORI x5, x5, 0`. -/
def ex_ori : instruction_t :=
  { inst_id := RISCV_ORI, opcode := 0x13, funct3 := 6, funct7 := 0, rdst := 5, rsrc1 := 5,
    rsrc2 := 0, imm := 0, target_name := none }

/-- An incomplete `ORI x5, x5` with the given label. -/
def ex_ori_entry (label : String) : mem_entry_t :=
  { status := status_t.ENTRY_INCOMPLETE, type := type_t.ENTRY_INSTRUCTION, address := 0x2004,
    size := 4, inst := some { ex_ori with target_name := some label } }

/-- A block with the `LUI`/`ORI` pair for the given label. -/
def ex_abs_block_list (label : String) : List memblock_list_t :=
  [ { min_address := 0x2000, max_address := 0x2007,
      head := [ex_lui_entry label, ex_ori_entry label] } ]

/-- The pair for the given label after the displacement pass, with the two immediates. -/
def ex_abs_block_list_resolved (label : String) (hi lo : Int) : List memblock_list_t :=
  [ { min_address := 0x2000, max_address := 0x2007,
      head := [ { ex_lui_entry label with
                  status := status_t.ENTRY_COMPLETE
                  inst := some { ex_lui with imm := hi, target_name := some label } },
                { ex_ori_entry label with
                  status := status_t.ENTRY_COMPLETE
                  inst := some { ex_ori with imm := lo, target_name := some label } } ] } ]

/-! ## Predicates used to state the properties -/

/-- An incomplete `ADDI` that names the label `done`. -/
def ex_addi_entry : mem_entry_t :=
  { status := status_t.ENTRY_INCOMPLETE, type := type_t.ENTRY_INSTRUCTION, address := 0x3000,
    size := 4, inst := some { ex_addi with target_name := some "done" } }

/-- A data word, which the displacement pass does not look at. -/
def ex_data_entry : mem_entry_t :=
  { status := status_t.ENTRY_INCOMPLETE, type := type_t.ENTRY_WDATA, address := 0x0ff8,
    size := 4, inst := none, ivalue := 0xdeadbeef }

/-- A complete instruction whose record still names a label that no table holds. -/
def ex_complete_entry : mem_entry_t :=
  { status := status_t.ENTRY_COMPLETE, type := type_t.ENTRY_INSTRUCTION, address := 0x0ffc,
    size := 4, inst := some { ex_addi with target_name := some "nowhere" } }

/-- A block list with a data word, a complete instruction and an incomplete branch. -/
def ex_mixed_block_list : List memblock_list_t :=
  [ { min_address := 0x0ff8, max_address := 0x1003,
      head := [ex_data_entry, ex_complete_entry, ex_branch_entry] } ]

/-- The block list above after the displacement pass. -/
def ex_mixed_block_list_resolved : List memblock_list_t :=
  [ { min_address := 0x0ff8, max_address := 0x1003,
      head := [ ex_data_entry, ex_complete_entry,
                { ex_branch_entry with
                  status := status_t.ENTRY_COMPLETE
                  inst := some { ex_beq with imm := 8, target_name := some "done" } } ] } ]

/-! ## `mem.c`: building the block list and checking its bounds -/

/-- Addition of two `uint64_t` values. -/
def u64_add (a b : Nat) : Nat := (a + b) % 2 ^ 64

/-- Subtraction of two `uint64_t` values. -/
def u64_sub (a b : Nat) : Nat := (a % 2 ^ 64 + (2 ^ 64 - b % 2 ^ 64)) % 2 ^ 64

/-- The loop of `add_memblock` that walks from `working` along the `next` links to the
entry whose `next` is `NULL`. -/
def add_memblock_last : mem_entry_t → List mem_entry_t → mem_entry_t
  | working, [] => working
  | _, next :: rest => add_memblock_last next rest

/-- The function `add_memblock`: the block list after the call, with the new node linked
behind the last one, or the way the call ends. -/
def add_memblock (block_list : List memblock_list_t) (list : List mem_entry_t) :
    Except failure (List memblock_list_t) :=
  match list with
  | first :: rest =>
    let working := add_memblock_last first rest
    if first.address < working.address then
      Except.ok (block_list ++
        [{ min_address := first.address
           max_address := u64_sub (u64_add working.address working.size) 1
           head := list }])
    else if first.address = working.address then
      Except.ok (block_list ++
        [{ min_address := first.address, max_address := working.address, head := list }])
    else
      Except.error (failure.fatal "mem() block addresses are corrupt")
  | [] =>
    Except.ok (block_list ++ [{ min_address := 0, max_address := 0, head := list }])

/-- The body of the inner loop of `check_mem_bounds` for the pair `check`, `working`;
`same_node` tells whether the two pointers are equal. -/
def check_mem_bounds_pair (check working : memblock_list_t) (same_node : Bool) :
    Except failure Unit :=
  if same_node = false ∧ check.min_address ≠ check.max_address ∧
      working.min_address ≠ working.max_address then
    if check.min_address ≤ working.min_address then
      if check.max_address ≥ working.min_address then
        Except.error (failure.fatal
          ("The memory block starting at address 0x" ++ fmt_hex '0' 12 check.min_address ++
            " overlaps the memory block starting at address 0x" ++
            fmt_hex '0' 12 working.min_address))
      else Except.ok ()
    else Except.ok ()
  else Except.ok ()

/-- The inner loop of `check_mem_bounds`: `working` runs over the whole block list;
`check_pos` and `working_pos` are the places of the two nodes in the list. -/
def check_mem_bounds_inner (check : memblock_list_t) (check_pos : Nat) :
    List memblock_list_t → Nat → Except failure Unit
  | [], _ => Except.ok ()
  | working :: next, working_pos =>
    match check_mem_bounds_pair check working (check_pos == working_pos) with
    | Except.error f => Except.error f
    | Except.ok _ => check_mem_bounds_inner check check_pos next (working_pos + 1)

/-- The outer loop of `check_mem_bounds`: `check` runs over the block list. -/
def check_mem_bounds_outer (block_list : List memblock_list_t) :
    List memblock_list_t → Nat → Except failure Unit
  | [], _ => Except.ok ()
  | check :: next, check_pos =>
    match check_mem_bounds_inner check check_pos block_list 0 with
    | Except.error f => Except.error f
    | Except.ok _ => check_mem_bounds_outer block_list next (check_pos + 1)

/-- The function `check_mem_bounds`. -/
def check_mem_bounds (block_list : List memblock_list_t) : Except failure Unit :=
  check_mem_bounds_outer block_list block_list 0

/-! ## `symtab.c`: declaring a symbol -/

/-- The search loop of `symtab_new`, which sets `found` and does not stop at a match. -/
def symtab_new_found : List symtab_entry_t → String → Bool → Bool
  | [], _, found => found
  | working :: next, name, found =>
    symtab_new_found next name (if name = working.name then true else found)

/-- The function `symtab_new`: how the call ends, and the table at that moment (after
`undefined` the table says nothing). The message for a duplicate is built in
`char buff[100]`. The new entry's `value` is not assigned by the function; `uninit` is
what the allocated memory holds. -/
def symtab_new (symtab_head : List symtab_entry_t) (name : String)
    (entry_type : symtab_type_t) (uninit : Nat) :
    Except failure Unit × List symtab_entry_t :=
  let found := symtab_new_found symtab_head name false
  if found then
    (Except.error (sprintf_yyerror 100 ("Duplicate label declaration: " ++ name ++ ".")),
      symtab_head)
  else
    (Except.ok (), { name := name, type := entry_type, value := uninit } :: symtab_head)

/-- A complete `SUB` at 0x1000. -/
def ex_sub_entry : mem_entry_t :=
  { status := status_t.ENTRY_COMPLETE, type := type_t.ENTRY_INSTRUCTION, address := 0x1000,
    size := 4, inst := some ex_sub }

/-- A complete `RET` at 0x1004. -/
def ex_ret_entry : mem_entry_t :=
  { status := status_t.ENTRY_COMPLETE, type := type_t.ENTRY_INSTRUCTION, address := 0x1004,
    size := 4, inst := some ex_ret }

/-- Two instructions at 0x1000 and 0x1004. -/
def ex_code_list : List mem_entry_t := [ex_sub_entry, ex_ret_entry]

/-- A definition marker, of size 0, at 0x1004. -/
def ex_def_entry : mem_entry_t :=
  { status := status_t.ENTRY_COMPLETE, type := type_t.ENTRY_DEFINITION, address := 0x1004,
    size := 0, inst := none }

/-- The block of `ex_code_list` and the block of the `LUI`/`ORI` pair at 0x2000. -/
def ex_two_blocks : List memblock_list_t :=
  [ { min_address := 0x1000, max_address := 0x1007, head := ex_code_list },
    { min_address := 0x2000, max_address := 0x2007,
      head := [ex_lui_entry "msg", ex_ori_entry "msg"] } ]

/-! ## `symtab.c`: updating a symbol, and sequences of calls -/

/-- The assignment `entry->value = value` of `symtab_update`, where `entry` is the first
entry whose name compares equal: the table with that entry's value replaced. -/
def symtab_update_set : List symtab_entry_t → String → Nat → List symtab_entry_t
  | [], _, _ => []
  | working :: next, name, value =>
    if name = working.name then { working with value := value } :: next
    else working :: symtab_update_set next name value

/-- The function `symtab_update`: how the call ends, and the table at that moment (after
`undefined` the table says nothing). The message for an unknown name is built in
`char buff[100]`. -/
def symtab_update (symtab_head : List symtab_entry_t) (name : String) (value : Nat) :
    Except failure Unit × List symtab_entry_t :=
  match symtab_find symtab_head name with
  | none =>
    (Except.error (sprintf_yyerror 100 ("Label not declared: " ++ name)), symtab_head)
  | some _ => (Except.ok (), symtab_update_set symtab_head name value)

/-- A call of one of the two functions that write the symbol table. -/
inductive symtab_call where
  | new (name : String) (entry_type : symtab_type_t) (uninit : Nat)
  | update (name : String) (value : Nat)
deriving DecidableEq, Repr

/-- The table after one call; a call that does not succeed is passed over with the table
it found. -/
def symtab_call.run (symtab_head : List symtab_entry_t) : symtab_call → List symtab_entry_t
  | symtab_call.new name entry_type uninit => (symtab_new symtab_head name entry_type uninit).2
  | symtab_call.update name value => (symtab_update symtab_head name value).2

/-- The table after a sequence of calls, made in order. -/
def symtab_run : List symtab_call → List symtab_entry_t → List symtab_entry_t
  | [], symtab_head => symtab_head
  | call :: rest, symtab_head => symtab_run rest (symtab_call.run symtab_head call)

/-! ## `mem.h`, `inst.c`: the encoding member of the value union, `encode_instructions` -/

/-- The member `encoding` of the value union of `mem_entry_t`: the low 32 bits of the
storage that `ivalue` reads as 64 bits (little-endian host). -/
def mem_entry_t.encoding (working : mem_entry_t) : Nat := working.ivalue % 2 ^ 32

/-- The assignment `working->encoding = encoding`: the low 32 bits of the union are
replaced, the upper 32 bits stay. -/
def mem_entry_t.set_encoding (working : mem_entry_t) (encoding : Nat) : mem_entry_t :=
  { working with ivalue := working.ivalue / 2 ^ 32 * 2 ^ 32 + encoding % 2 ^ 32 }

/-- The body of the inner loop of `encode_instructions`, for one entry `working`;
`encode_instruction` reads the record behind `working->inst`. -/
def encode_instructions_entry (working : mem_entry_t) : Except failure mem_entry_t :=
  if working.type = type_t.ENTRY_INSTRUCTION then
    match working.inst with
    | none => Except.error failure.null_deref
    | some inst => Except.ok (working.set_encoding (encode_instruction inst))
  else
    Except.ok working

/-- The inner loop of `encode_instructions`: the entries of one block, head to tail. -/
def encode_instructions_block : List mem_entry_t → Except failure (List mem_entry_t)
  | [] => Except.ok []
  | working :: next =>
    match encode_instructions_entry working with
    | Except.error f => Except.error f
    | Except.ok working' =>
      match encode_instructions_block next with
      | Except.error f => Except.error f
      | Except.ok next' => Except.ok (working' :: next')

/-- The function `encode_instructions`: the outer loop over `block_list`. -/
def encode_instructions : List memblock_list_t → Except failure (List memblock_list_t)
  | [] => Except.ok []
  | list :: next =>
    match encode_instructions_block list.head with
    | Except.error f => Except.error f
    | Except.ok head' =>
      match encode_instructions next with
      | Except.error f => Except.error f
      | Except.ok next' => Except.ok ({ list with head := head' } :: next')

/-- A `RET` record as `new_instruction(0x67)` leaves it, with only the id filled in. -/
def ex_ret_bare : instruction_t :=
  { inst_id := RISCV_RET, opcode := 0x67, funct3 := 0, funct7 := 0, rdst := 0, rsrc1 := 0,
    rsrc2 := 0, imm := 0, target_name := none }

/-! ## `output.c`: the flat text writer and the flat binary writer -/

/-- The ways the building or the dumping of a block's buffer ends early: `fatal msg` is a
call of `yyerror`, which prints `msg` and exits; `undefined` stands for an assignment
outside the allocated array or an overflow of an `int`, after which the C standard
promises nothing. -/
inductive emit_failure where
  | fatal (msg : String)
  | undefined
deriving DecidableEq, Repr

/-- The integer value of an enumerator of `type_t`, in the order of `mem.h`. -/
def type_t.toNat : type_t → Nat
  | type_t.ENTRY_DEFINITION => 0
  | type_t.ENTRY_JOIN_NODE => 1
  | type_t.ENTRY_INSTRUCTION => 2
  | type_t.ENTRY_BDATA => 3
  | type_t.ENTRY_HDATA => 4
  | type_t.ENTRY_WDATA => 5
  | type_t.ENTRY_LDATA => 6
  | type_t.ENTRY_FDATA => 7
  | type_t.ENTRY_DDATA => 8
  | type_t.ENTRY_SDATA => 9

/-- The assignment `buff[idx+k] = value` to the `unsigned char` array `buff`, with `idx`
an `int`. -/
def buff_store (buff : List Nat) (idx : Int) (k : Nat) (value : Nat) :
    Except emit_failure (List Nat) :=
  if 0 ≤ idx + k ∧ idx + k < 2 ^ 31 ∧ idx + k < buff.length then
    Except.ok (buff.set (idx + k).toNat (value % 256))
  else Except.error emit_failure.undefined

/-- The value `min_address & ~((uint64_t)0xf)` of `adj_start_addr`. -/
def adj_start_addr (list : memblock_list_t) : Nat :=
  list.min_address &&& 0xFFFFFFFFFFFFFFF0

/-- The value `(max_address + 16) & ~((uint64_t)0xf)` of `adj_end_addr`. -/
def adj_end_addr (list : memblock_list_t) : Nat :=
  u64_add list.max_address 16 &&& 0xFFFFFFFFFFFFFFF0

/-- The body of the entry loop of `write_text` for the entry `working`, whose `type`
member holds the integer `type`: the buffer after the step, or the way the step ends.
`int idx = working->address - adj_start_addr` narrows the `uint64_t` difference to
`int`. -/
def write_text_entry_typed (type : Nat) (adj_start_addr : Nat) (buff : List Nat)
    (working : mem_entry_t) : Except emit_failure (List Nat) :=
  if type = type_t.ENTRY_INSTRUCTION.toNat then
    if working.address &&& 0x3 ≠ 0 then
      Except.error (emit_failure.fatal "unaligned instruction encoding")
    else
      let idx := toI32 ((u64_sub working.address adj_start_addr : Nat) : Int)
      (buff_store buff idx 0 ((working.encoding >>> 0) &&& 0xff)).bind fun buff =>
      (buff_store buff idx 1 ((working.encoding >>> 8) &&& 0xff)).bind fun buff =>
      (buff_store buff idx 2 ((working.encoding >>> 16) &&& 0xff)).bind fun buff =>
      buff_store buff idx 3 ((working.encoding >>> 24) &&& 0xff)
  else if type = type_t.ENTRY_BDATA.toNat then
    let idx := toI32 ((u64_sub working.address adj_start_addr : Nat) : Int)
    buff_store buff idx 0 ((working.ivalue >>> 0) &&& 0xff)
  else if type = type_t.ENTRY_HDATA.toNat then
    if working.address &&& 0x1 ≠ 0 then
      Except.error (emit_failure.fatal "unaligned half word")
    else
      let idx := toI32 ((u64_sub working.address adj_start_addr : Nat) : Int)
      (buff_store buff idx 0 ((working.ivalue >>> 0) &&& 0xff)).bind fun buff =>
      buff_store buff idx 1 ((working.ivalue >>> 8) &&& 0xff)
  else if type = type_t.ENTRY_WDATA.toNat then
    if working.address &&& 0x3 ≠ 0 then
      Except.error (emit_failure.fatal "unaligned word")
    else
      let idx := toI32 ((u64_sub working.address adj_start_addr : Nat) : Int)
      (buff_store buff idx 0 ((working.ivalue >>> 0) &&& 0xff)).bind fun buff =>
      (buff_store buff idx 1 ((working.ivalue >>> 8) &&& 0xff)).bind fun buff =>
      (buff_store buff idx 2 ((working.ivalue >>> 16) &&& 0xff)).bind fun buff =>
      buff_store buff idx 3 ((working.ivalue >>> 24) &&& 0xff)
  else if type = type_t.ENTRY_LDATA.toNat then
    Except.error (emit_failure.fatal "Writing long data to flat text files not yet supported.")
  else if type = type_t.ENTRY_FDATA.toNat then
    Except.error (emit_failure.fatal "Writing fp data to flat text files not yet supported.")
  else if type = type_t.ENTRY_DDATA.toNat then
    Except.error (emit_failure.fatal "Writing fp data to flat text files not yet supported.")
  else if type = type_t.ENTRY_SDATA.toNat then
    Except.error
      (emit_failure.fatal "Writing string data to flat text files not yet supported.")
  else if type = type_t.ENTRY_DEFINITION.toNat ∨ type = type_t.ENTRY_JOIN_NODE.toNat then
    Except.ok buff
  else
    Except.error (emit_failure.fatal "Invalid entry type when emitting text memory image")

/-- The body of the entry loop of `write_text` for an entry of the block list. -/
def write_text_entry (adj_start_addr : Nat) (buff : List Nat) (working : mem_entry_t) :
    Except emit_failure (List Nat) :=
  write_text_entry_typed working.type.toNat adj_start_addr buff working

/-- The entry loop of `write_text` over the entries from `working` on. -/
def write_text_entries (adj_start_addr : Nat) :
    List Nat → List mem_entry_t → Except emit_failure (List Nat)
  | buff, [] => Except.ok buff
  | buff, working :: rest =>
    match write_text_entry adj_start_addr buff working with
    | Except.error e => Except.error e
    | Except.ok buff' => write_text_entries adj_start_addr buff' rest

/-- The buffer `write_text` builds for the block `list`: allocated with
`adj_end_addr - adj_start_addr` bytes (the allocation is taken to succeed), cleared by
`bzero`, then filled by the entry loop. -/
def write_text_buffer (list : memblock_list_t) : Except emit_failure (List Nat) :=
  write_text_entries (adj_start_addr list)
    (List.replicate (u64_sub (adj_end_addr list) (adj_start_addr list)) 0) list.head

/-- The dump loop of `write_text` from index `i` on, over the bytes of the buffer that
are left; `out` is the text printed so far. -/
def write_text_dump_loop (adj_start_addr : Nat) : Nat → List Nat → String → String
  | _, [], out => out
  | i, b :: rest, out =>
    let out := if i &&& 0xf = 0 then
                 out ++ fmt_hex '0' 12 (u64_add adj_start_addr i) ++ "  "
               else out
    let out := out ++ fmt_hex '0' 2 b ++ " "
    let out := if i &&& 0xf = 15 then out ++ "\n" else out
    write_text_dump_loop adj_start_addr (i + 1) rest out

/-- The text `write_text` prints for a buffer: the dump loop, then one newline. The
counter `i` is an `int`, so a buffer of 2^31 bytes or more overflows it. -/
def write_text_dump (adj_start_addr : Nat) (buff : List Nat) : Except emit_failure String :=
  if buff.length < 2 ^ 31 then
    Except.ok (write_text_dump_loop adj_start_addr 0 buff "" ++ "\n")
  else Except.error emit_failure.undefined

/-- The text `write_text` prints for the block `list`. -/
def write_text_block (list : memblock_list_t) : Except emit_failure String :=
  (write_text_buffer list).bind (write_text_dump (adj_start_addr list))

/-- The block loop of `write_text`: the text of the file, the file being taken to open. -/
def write_text : List memblock_list_t → Except emit_failure String
  | [] => Except.ok ""
  | list :: rest =>
    match write_text_block list with
    | Except.error e => Except.error e
    | Except.ok text =>
      match write_text rest with
      | Except.error e => Except.error e
      | Except.ok more => Except.ok (text ++ more)

/-- The body of the entry loop of `write_bin` for the entry `working`, whose `type`
member holds the integer `type`. -/
def write_bin_entry_typed (type : Nat) (adj_start_addr : Nat) (buff : List Nat)
    (working : mem_entry_t) : Except emit_failure (List Nat) :=
  if type = type_t.ENTRY_INSTRUCTION.toNat then
    if working.address &&& 0x3 ≠ 0 then
      Except.error (emit_failure.fatal "unaligned instruction encoding")
    else
      let idx := toI32 ((u64_sub working.address adj_start_addr : Nat) : Int)
      (buff_store buff idx 0 ((working.encoding >>> 0) &&& 0xff)).bind fun buff =>
      (buff_store buff idx 1 ((working.encoding >>> 8) &&& 0xff)).bind fun buff =>
      (buff_store buff idx 2 ((working.encoding >>> 16) &&& 0xff)).bind fun buff =>
      buff_store buff idx 3 ((working.encoding >>> 24) &&& 0xff)
  else if type = type_t.ENTRY_BDATA.toNat then
    let idx := toI32 ((u64_sub working.address adj_start_addr : Nat) : Int)
    buff_store buff idx 0 ((working.ivalue >>> 0) &&& 0xff)
  else if type = type_t.ENTRY_HDATA.toNat then
    if working.address &&& 0x1 ≠ 0 then
      Except.error (emit_failure.fatal "unaligned half word")
    else
      let idx := toI32 ((u64_sub working.address adj_start_addr : Nat) : Int)
      (buff_store buff idx 0 ((working.ivalue >>> 0) &&& 0xff)).bind fun buff =>
      buff_store buff idx 1 ((working.ivalue >>> 8) &&& 0xff)
  else if type = type_t.ENTRY_WDATA.toNat then
    if working.address &&& 0x3 ≠ 0 then
      Except.error (emit_failure.fatal "unaligned word")
    else
      let idx := toI32 ((u64_sub working.address adj_start_addr : Nat) : Int)
      (buff_store buff idx 0 ((working.ivalue >>> 0) &&& 0xff)).bind fun buff =>
      (buff_store buff idx 1 ((working.ivalue >>> 8) &&& 0xff)).bind fun buff =>
      (buff_store buff idx 2 ((working.ivalue >>> 16) &&& 0xff)).bind fun buff =>
      buff_store buff idx 3 ((working.ivalue >>> 24) &&& 0xff)
  else if type = type_t.ENTRY_LDATA.toNat then
    Except.error (emit_failure.fatal "Writing long data to flat text files not yet supported.")
  else if type = type_t.ENTRY_FDATA.toNat then
    Except.error (emit_failure.fatal "Writing fp data to flat text files not yet supported.")
  else if type = type_t.ENTRY_DDATA.toNat then
    Except.error (emit_failure.fatal "Writing fp data to flat text files not yet supported.")
  else if type = type_t.ENTRY_SDATA.toNat then
    Except.error
      (emit_failure.fatal "Writing string data to flat text files not yet supported.")
  else if type = type_t.ENTRY_DEFINITION.toNat ∨ type = type_t.ENTRY_JOIN_NODE.toNat then
    Except.ok buff
  else
    Except.error (emit_failure.fatal "Invalid entry type when emitting text memory image")

/-- The body of the entry loop of `write_bin` for an entry of the block list. -/
def write_bin_entry (adj_start_addr : Nat) (buff : List Nat) (working : mem_entry_t) :
    Except emit_failure (List Nat) :=
  write_bin_entry_typed working.type.toNat adj_start_addr buff working

/-- The entry loop of `write_bin` over the entries from `working` on. -/
def write_bin_entries (adj_start_addr : Nat) :
    List Nat → List mem_entry_t → Except emit_failure (List Nat)
  | buff, [] => Except.ok buff
  | buff, working :: rest =>
    match write_bin_entry adj_start_addr buff working with
    | Except.error e => Except.error e
    | Except.ok buff' => write_bin_entries adj_start_addr buff' rest

/-- The buffer `write_bin` builds for the block `list`. -/
def write_bin_buffer (list : memblock_list_t) : Except emit_failure (List Nat) :=
  write_bin_entries (adj_start_addr list)
    (List.replicate (u64_sub (adj_end_addr list) (adj_start_addr list)) 0) list.head

/-- The eight bytes of a `uint64_t` in memory, lowest byte first. -/
def u64_bytes (v : Nat) : List Nat :=
  (List.range 8).map fun k => (v >>> (8 * k)) &&& 0xff

/-- The bytes `write_bin` writes to the file of the block `list`, the file being taken to
open: the eight bytes of `adj_start_addr`, then the buffer. -/
def write_bin_block (list : memblock_list_t) : Except emit_failure (List Nat) :=
  (write_bin_buffer list).bind fun buff => Except.ok (u64_bytes (adj_start_addr list) ++ buff)

/-- The entries at which the entry loop of the writers calls `yyerror`, in the words of
the specification: an instruction or word misplaced on the 4-byte grid, a half word at an
odd address, or a datum of an unsupported type. -/
def writer_rejects (working : mem_entry_t) : Prop :=
  ((working.type = type_t.ENTRY_INSTRUCTION ∨ working.type = type_t.ENTRY_WDATA) ∧
      working.address % 4 ≠ 0) ∨
  (working.type = type_t.ENTRY_HDATA ∧ working.address % 2 ≠ 0) ∨
  working.type = type_t.ENTRY_LDATA ∨ working.type = type_t.ENTRY_FDATA ∨
  working.type = type_t.ENTRY_DDATA ∨ working.type = type_t.ENTRY_SDATA

instance writer_rejects_decidable (working : mem_entry_t) :
    Decidable (writer_rejects working) := by
  unfold writer_rejects
  infer_instance

/-- One line of the dump as `write_text` prints it: the address with at least twelve
hexadecimal digits, two spaces, every byte as two hexadecimal digits followed by one
space, and a newline. -/
def text_line (addr : Nat) (bytes : List Nat) : String :=
  fmt_hex '0' 12 addr ++ "  " ++ String.join (bytes.map fun b => fmt_hex '0' 2 b ++ " ")
    ++ "\n"

/-- One line of the dump in the words of the claim: the bytes separated by single spaces
and the newline right behind the last byte. -/
def text_line_claimed (addr : Nat) (bytes : List Nat) : String :=
  fmt_hex '0' 12 addr ++ "  " ++ " ".intercalate (bytes.map fun b => fmt_hex '0' 2 b)
    ++ "\n"

/-- The number of bytes the entry loop of the writers stores for an entry of a type. -/
def written_width : type_t → Nat
  | type_t.ENTRY_INSTRUCTION => 4
  | type_t.ENTRY_BDATA => 1
  | type_t.ENTRY_HDATA => 2
  | type_t.ENTRY_WDATA => 4
  | _ => 0

/-- The member whose bytes the entry loop of the writers stores for an entry. -/
def written_value (working : mem_entry_t) : Nat :=
  if working.type = type_t.ENTRY_INSTRUCTION then working.encoding else working.ivalue

/-- The entries for which the entry loop of the writers stores bytes. -/
def writer_stores (working : mem_entry_t) : Prop :=
  working.type = type_t.ENTRY_INSTRUCTION ∨ working.type = type_t.ENTRY_BDATA ∨
  working.type = type_t.ENTRY_HDATA ∨ working.type = type_t.ENTRY_WDATA

instance writer_stores_decidable (working : mem_entry_t) :
    Decidable (writer_stores working) := by
  unfold writer_stores
  infer_instance

/-- The buffer with the `n` low bytes of `v` stored from position `p` on, lowest byte
first. -/
def store_bytes (buff : List Nat) (p v : Nat) : Nat → List Nat
  | 0 => buff
  | n + 1 => (store_bytes buff p v n).set (p + n) (v / 256 ^ n % 256)

/-- A block with an instruction, a marker, a word, a half word and a byte, whose encoding
and values are set. -/
def ex_image_block : memblock_list_t :=
  { min_address := 0x1000, max_address := 0x100a,
    head := [{ ex_sub_entry with ivalue := 0x403100b3 },
             ex_def_entry,
             { status := status_t.ENTRY_COMPLETE, type := type_t.ENTRY_WDATA,
               address := 0x1004, size := 4, inst := none, ivalue := 0xdeadbeef },
             { status := status_t.ENTRY_COMPLETE, type := type_t.ENTRY_HDATA,
               address := 0x1008, size := 2, inst := none, ivalue := 0x1234 },
             { status := status_t.ENTRY_COMPLETE, type := type_t.ENTRY_BDATA,
               address := 0x100a, size := 1, inst := none, ivalue := 0x56 }] }

/-- Three instructions whose `next` links do not follow the addresses. -/
def ex_scattered_list : List mem_entry_t :=
  [ex_sub_entry, { ex_sub_entry with address := 0x3000 }, ex_ret_entry]

/-- The block `add_memblock` makes of `ex_scattered_list`. -/
def ex_scattered_block : memblock_list_t :=
  { min_address := 0x1000, max_address := 0x1007, head := ex_scattered_list }

/-- Two instructions 2 GiB apart, in the order of their addresses. -/
def ex_wide_list : List mem_entry_t :=
  [{ ex_sub_entry with address := 0 }, { ex_sub_entry with address := 0x80000000 }]

/-- The block `add_memblock` makes of `ex_wide_list`. -/
def ex_wide_block : memblock_list_t :=
  { min_address := 0, max_address := 0x80000003, head := ex_wide_list }

/-- The block `add_memblock` makes of the empty entry list. -/
def ex_empty_block : memblock_list_t := { min_address := 0, max_address := 0, head := [] }

/-! ## `mem.c`: making and chaining entries -/

/-- The function `new_instruction`: the entry it returns, with its instruction record.
Of the value union only `encoding` is assigned; `uninit` is what the allocated memory
holds in the other four bytes of the union. -/
def new_instruction (opcode : Nat) (uninit : Nat) : mem_entry_t :=
  { status := status_t.ENTRY_INCOMPLETE
    type := type_t.ENTRY_INSTRUCTION
    name := none
    address := 0
    size := 4
    inst := some { inst_id := -1, opcode := opcode, funct3 := 0, funct7 := 0, rdst := 0,
                   rsrc1 := 0, rsrc2 := 0, imm := 0, target_name := none }
    ivalue := uninit % 2 ^ 32 * 2 ^ 32 }

/-- The loop of `append_inst`, entered with a non-`NULL` `working`: it walks to the entry
whose `next` is `NULL` and sets that `next` to `inst`. The list is the chain from
`working` on, `inst` the chain from the entry `inst` points to on (empty for `NULL`). -/
def append_inst_loop (inst : List mem_entry_t) : List mem_entry_t → List mem_entry_t
  | [] => []
  | [working] => working :: inst
  | working :: next :: rest => working :: append_inst_loop inst (next :: rest)

/-- The function `append_inst`: the chain from the returned pointer on. -/
def append_inst (list inst : List mem_entry_t) : List mem_entry_t :=
  match list with
  | [] => inst
  | _ :: _ => append_inst_loop inst list

/-- The character `str[i]` of a C string, given by its characters before the terminating
NUL; the character codes are those of ASCII. -/
def str_at (str : List Nat) (i : Nat) : Nat := str.getD i 0

/-- The loop of `parse_string` from the counter value `i` on, with `idx` and the array
`ret` as they are at that moment; `fuel` bounds the iterations that are left. The codes
92, 110, 116, 34 and 39 are the backslash, `n`, `t`, the double and the single quote; 10
and 9 are the newline and the tab. -/
def parse_string_loop (str : List Nat) : Nat → Nat → Nat → List Nat → List Nat
  | 0, _, _, ret => ret
  | fuel + 1, i, idx, ret =>
    if i < str.length then
      if str_at str i = 92 ∧ i < str.length then
        if str_at str (i + 1) = 110 then
          parse_string_loop str fuel (i + 1 + 1) (idx + 1) (ret.set idx 10)
        else if str_at str (i + 1) = 116 then
          parse_string_loop str fuel (i + 1 + 1) (idx + 1) (ret.set idx 9)
        else if str_at str (i + 1) = 92 then
          parse_string_loop str fuel (i + 1 + 1) (idx + 1) (ret.set idx 92)
        else if str_at str (i + 1) = 34 then
          parse_string_loop str fuel (i + 1 + 1) (idx + 1) (ret.set idx 34)
        else if str_at str (i + 1) = 39 then
          parse_string_loop str fuel (i + 1 + 1) (idx + 1) (ret.set idx 39)
        else
          parse_string_loop str fuel (i + 1) (idx + 1) (ret.set idx (str_at str i))
      else
        parse_string_loop str fuel (i + 1) (idx + 1) (ret.set idx (str_at str i))
    else ret

/-- The C string held by an array: its characters before the first NUL. -/
def c_string (buff : List Nat) : List Nat := buff.takeWhile fun c => decide (c ≠ 0)

/-- The function `parse_string`: the string it returns, the allocation being taken to
succeed. The array `ret` has `strlen(str) + 1` bytes, cleared by `bzero`; the loop runs at
most `strlen(str)` times. The counters are `int`, so a string of 2^31 characters or more
overflows them, for which the result is `none`. -/
def parse_string (str : List Nat) : Option (List Nat) :=
  if str.length < 2 ^ 31 then
    some (c_string
      (parse_string_loop str str.length 0 0 (List.replicate (str.length + 1) 0)))
  else none

/-- The character an escape letter stands for: newline for `n`, tab for `t`, and the
character itself for the backslash, the double quote and the single quote. -/
def escape_code (d : Nat) : Option Nat :=
  if d = 110 then some 10
  else if d = 116 then some 9
  else if d = 92 then some 92
  else if d = 34 then some 34
  else if d = 39 then some 39
  else none

/-- The scan the specification describes: left to right, a backslash immediately followed
by an escape letter is replaced, together with the letter, by the character the letter
stands for; every other character is copied. -/
def unescape : List Nat → List Nat
  | [] => []
  | [c] => [c]
  | c :: d :: rest =>
    match (if c = 92 then escape_code d else none) with
    | some x => x :: unescape rest
    | none => c :: unescape (d :: rest)

/-- The block `add_memblock` makes of the single instruction `ex_sub_entry`. -/
def ex_single_block : memblock_list_t :=
  { min_address := 0x1000, max_address := 0x1000, head := [ex_sub_entry] }

/-- The index `int idx = working->address - adj_start_addr` of the writers. -/
def writer_idx (adj_start_addr : Nat) (working : mem_entry_t) : Int :=
  toI32 ((u64_sub working.address adj_start_addr : Nat) : Int)

/-! ## `output.c`: the ELF writer -/

/-- The `n` bytes an object with the value `v` has in memory, lowest byte first. -/
def le_bytes (n v : Nat) : List Nat :=
  (List.range n).map fun k => (v >>> (8 * k)) &&& 0xff

/-- What `write_elf` takes from the platform: the C string stored at an address, if the
address points to one, and the bits of the `double` that the conversion `(double)` makes
of a `float` given by its bits. -/
structure elf_platform where
  string_at : Nat → Option (List Nat)
  double_of_float : Nat → Nat

/-- The padding loop of `elf_alignment` from `addr` on: one zero byte per round while
`addr < working->next->address`; `fuel` bounds the rounds that are left. -/
def elf_alignment_loop (limit : Nat) : Nat → Nat → List Nat
  | 0, _ => []
  | fuel + 1, addr =>
    if addr < limit then 0 :: elf_alignment_loop limit fuel (u64_add addr 1) else []

/-- The function `elf_alignment`: the bytes it writes, every `write` being taken to
succeed; `next` is the entry `working->next` points to. The loop is given as many rounds
as there are addresses from `addr` up to the limit. -/
def elf_alignment (working : mem_entry_t) (next : Option mem_entry_t) : List Nat :=
  match next with
  | none => []
  | some next =>
    if u64_add working.address working.size ≠ next.address then
      let addr := u64_add working.address working.size
      elf_alignment_loop next.address (next.address - addr) addr
    else []

/-- The body of the entry loop of `write_elf` for the entry `working`: the bytes the step
appends to the file, or the way it ends. Every `write` is taken to write all its bytes, so
that its result is the byte count, which the code compares with `working->size`. -/
def write_elf_entry (env : elf_platform) (working : mem_entry_t)
    (next : Option mem_entry_t) : Except failure (List Nat) :=
  if working.type = type_t.ENTRY_INSTRUCTION then
    if 4 ≠ working.size then
      Except.error (failure.fatal "Error in writing instruction to output file")
    else Except.ok (le_bytes 4 working.encoding ++ elf_alignment working next)
  else if working.type = type_t.ENTRY_BDATA then
    let data := working.ivalue % 2 ^ 8
    if 1 ≠ working.size then
      Except.error (failure.fatal "Error in writing integer byte data to output file")
    else Except.ok (le_bytes 1 data ++ elf_alignment working next)
  else if working.type = type_t.ENTRY_HDATA then
    let data := working.ivalue % 2 ^ 16
    if 2 ≠ working.size then
      Except.error (failure.fatal "Error in writing integer half data to output file")
    else Except.ok (le_bytes 2 data ++ elf_alignment working next)
  else if working.type = type_t.ENTRY_WDATA then
    let data := working.ivalue % 2 ^ 32
    if 4 ≠ working.size then
      Except.error (failure.fatal "Error in writing integer word data to output file")
    else Except.ok (le_bytes 4 data ++ elf_alignment working next)
  else if working.type = type_t.ENTRY_LDATA then
    let data := working.ivalue % 2 ^ 64
    if 8 ≠ working.size then
      Except.error (failure.fatal "Error in writing integer long data to output file")
    else Except.ok (le_bytes 8 data ++ elf_alignment working next)
  else if working.type = type_t.ENTRY_FDATA then
    let data := working.ivalue % 2 ^ 32
    if 4 ≠ working.size then
      Except.error
        (failure.fatal "Error in writing floating point single data to output file")
    else Except.ok (le_bytes 4 data ++ elf_alignment working next)
  else if working.type = type_t.ENTRY_DDATA then
    let data := env.double_of_float (working.ivalue % 2 ^ 32)
    if 8 ≠ working.size then
      Except.error
        (failure.fatal "Error in writing floating point double data to output file")
    else Except.ok (le_bytes 8 data ++ elf_alignment working next)
  else if working.type = type_t.ENTRY_SDATA then
    match env.string_at working.ivalue with
    | none => Except.error failure.null_deref
    | some svalue =>
      if svalue.length + 1 ≠ working.size then
        Except.error (failure.fatal "Error in writing string data to output file")
      else Except.ok (svalue ++ [0] ++ elf_alignment working next)
  else if working.type = type_t.ENTRY_DEFINITION ∨ working.type = type_t.ENTRY_JOIN_NODE then
    Except.ok []
  else
    Except.error (failure.fatal "Invalid entry type when emitting instructions")

/-- The entry loop of `write_elf` over the entries from `working` on: the bytes it appends
to the file. -/
def write_elf_entries (env : elf_platform) : List mem_entry_t → Except failure (List Nat)
  | [] => Except.ok []
  | working :: rest =>
    match write_elf_entry env working rest.head? with
    | Except.error f => Except.error f
    | Except.ok bytes =>
      match write_elf_entries env rest with
      | Except.error f => Except.error f
      | Except.ok more => Except.ok (bytes ++ more)

/-- The entries for which the entry loop of `write_elf` writes bytes: all but the
definition and the join-node entries. -/
def elf_emits (working : mem_entry_t) : Prop :=
  working.type ≠ type_t.ENTRY_DEFINITION ∧ working.type ≠ type_t.ENTRY_JOIN_NODE

instance elf_emits_decidable (working : mem_entry_t) : Decidable (elf_emits working) := by
  unfold elf_emits
  infer_instance

/-- The bytes of an entry in the ELF image: the encoding of an instruction, the low 1, 2,
4 or 8 bytes of an integer datum, the four bytes of a `float`, the eight bytes of the
`double` made of it, the characters of a string with the terminating NUL, each lowest byte
first; none for a definition or a join node. -/
def elf_bytes (env : elf_platform) (working : mem_entry_t) : List Nat :=
  match working.type with
  | type_t.ENTRY_INSTRUCTION => le_bytes 4 working.encoding
  | type_t.ENTRY_BDATA => le_bytes 1 (working.ivalue % 2 ^ 8)
  | type_t.ENTRY_HDATA => le_bytes 2 (working.ivalue % 2 ^ 16)
  | type_t.ENTRY_WDATA => le_bytes 4 (working.ivalue % 2 ^ 32)
  | type_t.ENTRY_LDATA => le_bytes 8 (working.ivalue % 2 ^ 64)
  | type_t.ENTRY_FDATA => le_bytes 4 (working.ivalue % 2 ^ 32)
  | type_t.ENTRY_DDATA => le_bytes 8 (env.double_of_float (working.ivalue % 2 ^ 32))
  | type_t.ENTRY_SDATA => (env.string_at working.ivalue).getD [] ++ [0]
  | type_t.ENTRY_DEFINITION => []
  | type_t.ENTRY_JOIN_NODE => []

/-- The size of an entry is the number of bytes `write_elf` writes for its type: 4 for an
instruction, 1, 2, 4, 8 for B-, H-, W-, L-data, 4 and 8 for F- and D-data, and the length
of the string with its NUL for S-data, whose pointer has to point to a string. -/
def elf_size_ok (env : elf_platform) (working : mem_entry_t) : Prop :=
  (working.type = type_t.ENTRY_INSTRUCTION → working.size = 4) ∧
  (working.type = type_t.ENTRY_BDATA → working.size = 1) ∧
  (working.type = type_t.ENTRY_HDATA → working.size = 2) ∧
  (working.type = type_t.ENTRY_WDATA → working.size = 4) ∧
  (working.type = type_t.ENTRY_LDATA → working.size = 8) ∧
  (working.type = type_t.ENTRY_FDATA → working.size = 4) ∧
  (working.type = type_t.ENTRY_DDATA → working.size = 8) ∧
  (working.type = type_t.ENTRY_SDATA →
    (env.string_at working.ivalue).map (fun s => s.length + 1) = some working.size)

instance elf_size_ok_decidable (env : elf_platform) (working : mem_entry_t) :
    Decidable (elf_size_ok env working) := by
  unfold elf_size_ok
  infer_instance

/-- The address at which the image of an entry list ends: the end of its last entry, or
the address of that entry if it is a definition or a join node. -/
def elf_end (first : mem_entry_t) (rest : List mem_entry_t) : Nat :=
  (add_memblock_last first rest).address +
    if elf_emits (add_memblock_last first rest) then (add_memblock_last first rest).size
    else 0

/-- The order of the entries of a block that the ELF image relies on: an entry starts at
or after the end of the one before it, and a definition or join node has the address of
the entry behind it. -/
def elf_follows (a b : mem_entry_t) : Prop :=
  a.address + a.size ≤ b.address ∧ (¬ elf_emits a → a.address = b.address)

instance elf_follows_decidable (a b : mem_entry_t) : Decidable (elf_follows a b) := by
  unfold elf_follows
  infer_instance

/-- A platform without strings, whose conversion is not looked at. -/
def ex_platform : elf_platform := { string_at := fun _ => none, double_of_float := fun f => f }

/-- An instruction, a marker behind it and, 12 bytes behind the marker, an instruction. -/
def ex_gap_list : List mem_entry_t :=
  [{ ex_sub_entry with ivalue := 0x403100b3 }, ex_def_entry,
   { ex_ret_entry with address := 0x1010, ivalue := 0x8067 }]

/-- An instruction, 4 bytes behind its end a marker, and a word at the marker. -/
def ex_padded_list : List mem_entry_t :=
  [{ ex_sub_entry with ivalue := 0x403100b3 },
   { ex_def_entry with address := 0x1008 },
   { status := status_t.ENTRY_COMPLETE, type := type_t.ENTRY_WDATA, address := 0x1008,
     size := 4, inst := none, ivalue := 0xdeadbeef }]

/-- A symbol table that holds the name `top` with the value 0. -/
def ex_symtab_top : List symtab_entry_t :=
  [ { name := "top", type := symtab_type_t.SYMTAB_MEM, value := 0 } ]

/-! ## Auxiliary facts about bit operations on `Nat` -/

/-- Masking with `k` ones placed at bit `l` selects the slice `[l+k-1:l]` in place. -/
theorem and_mask_eq (u l k : Nat) :
    u &&& ((2 ^ k - 1) * 2 ^ l) = ((u / 2 ^ l) % 2 ^ k) * 2 ^ l := by
  apply Nat.eq_of_testBit_eq
  intro j
  rw [Nat.mul_comm _ (2 ^ l), Nat.mul_comm _ (2 ^ l), Nat.testBit_and,
    Nat.testBit_mul_pow_two, Nat.testBit_mul_pow_two, Nat.testBit_mod_two_pow,
    Nat.testBit_two_pow_sub_one, ← Nat.shiftRight_eq_div_pow, Nat.testBit_shiftRight]
  by_cases h : l ≤ j
  · have : l + (j - l) = j := by omega
    simp [h, this, Bool.and_comm]
  · simp [h]

/-- When `y` lives in the slice `[i+k-1:i]` and that slice of `x` is empty, or-ing `y`
into `x` adds it. -/
theorem lor_disj (i k x y : Nat) (hx : (x / 2 ^ i) % 2 ^ k = 0) (hy0 : y % 2 ^ i = 0)
    (hy1 : y < 2 ^ (i + k)) : x ||| y = x + y := by
  have hlo : x % 2 ^ i < 2 ^ i := Nat.mod_lt _ (by positivity)
  have hxm : x % 2 ^ (i + k) = x % 2 ^ i := by
    rw [Nat.pow_add, Nat.mod_mul, hx, Nat.mul_zero, Nat.add_zero]
  have hxd : x = 2 ^ (i + k) * (x / 2 ^ (i + k)) + x % 2 ^ i := by
    rw [← hxm]; exact (Nat.div_add_mod x _).symm
  have hyd : y = 2 ^ i * (y / 2 ^ i) := by
    have := Nat.div_add_mod y (2 ^ i)
    omega
  have hle : 2 ^ i ≤ 2 ^ (i + k) := Nat.pow_le_pow_right (by decide) (by omega)
  have h1 : 2 ^ i * (y / 2 ^ i) + x % 2 ^ i = 2 ^ i * (y / 2 ^ i) ||| x % 2 ^ i :=
    Nat.mul_add_lt_is_or hlo _
  have hsum : y + x % 2 ^ i < 2 ^ (i + k) := by
    have hdvd : 2 ^ i ∣ 2 ^ (i + k) := pow_dvd_pow 2 (by omega)
    obtain ⟨c, hc⟩ := hdvd
    have hyc : y / 2 ^ i < c := by
      by_contra hcon
      have : c ≤ y / 2 ^ i := by omega
      have := Nat.mul_le_mul_left (2 ^ i) this
      omega
    have : 2 ^ i * (y / 2 ^ i + 1) ≤ 2 ^ i * c := Nat.mul_le_mul_left _ hyc
    rw [Nat.mul_add] at this
    omega
  have h2 := Nat.mul_add_lt_is_or hsum (x / 2 ^ (i + k))
  have h3 := Nat.mul_add_lt_is_or (lt_of_lt_of_le hlo hle) (x / 2 ^ (i + k))
  calc x ||| y
      = (2 ^ (i + k) * (x / 2 ^ (i + k)) ||| x % 2 ^ i) ||| y := by rw [← h3, ← hxd]
    _ = 2 ^ (i + k) * (x / 2 ^ (i + k)) ||| (y ||| x % 2 ^ i) := by
        rw [Nat.or_assoc, Nat.or_comm (x % 2 ^ i) y]
    _ = 2 ^ (i + k) * (x / 2 ^ (i + k)) ||| (y + x % 2 ^ i) := by
        rw [← hyd] at h1
        rw [h1]
    _ = x + y := by rw [← h2]; omega

theorem and_0x1f (u : Nat) : u &&& 0x1f = u % 32 := by
  simpa using and_mask_eq u 0 5

theorem and_0xfe0 (u : Nat) : u &&& 0xfe0 = (u / 32 % 128) * 32 := by
  simpa using and_mask_eq u 5 7

theorem and_0x800 (u : Nat) : u &&& 0x800 = (u / 2048 % 2) * 2048 := by
  simpa using and_mask_eq u 11 1

theorem and_0x1E (u : Nat) : u &&& 0x1E = (u / 2 % 16) * 2 := by
  simpa using and_mask_eq u 1 4

theorem and_0x7E0 (u : Nat) : u &&& 0x7E0 = (u / 32 % 64) * 32 := by
  simpa using and_mask_eq u 5 6

theorem and_0x1000 (u : Nat) : u &&& 0x1000 = (u / 4096 % 2) * 4096 := by
  simpa using and_mask_eq u 12 1

theorem and_0xff000 (u : Nat) : u &&& 0xff000 = (u / 4096 % 256) * 4096 := by
  simpa using and_mask_eq u 12 8

theorem and_0x7fe (u : Nat) : u &&& 0x7fe = (u / 2 % 1024) * 2 := by
  simpa using and_mask_eq u 1 10

theorem and_0x100000 (u : Nat) : u &&& 0x100000 = (u / 1048576 % 2) * 1048576 := by
  simpa using and_mask_eq u 20 1

theorem and_0x1fff (u : Nat) : u &&& 0x1fff = u % 8192 := by
  simpa using and_mask_eq u 0 13

theorem toU32_lt (i : Int) : toU32 i < 2 ^ 32 := by
  unfold toU32
  omega

/-! ## Arithmetic form of the encoders -/

theorem encode_r_type_eq (inst : instruction_t)
    (hop : inst.opcode < 128) (hf3 : inst.funct3 < 8) (hf7 : inst.funct7 < 128)
    (hrd : inst.rdst < 32) (hr1 : inst.rsrc1 < 32) (hr2 : inst.rsrc2 < 32) :
    encode_r_type inst = inst.opcode + inst.rdst * 2 ^ 7 + inst.funct3 * 2 ^ 12
      + inst.rsrc1 * 2 ^ 15 + inst.rsrc2 * 2 ^ 20 + inst.funct7 * 2 ^ 25 := by
  simp (disch := omega) only [encode_r_type, shl32, Nat.zero_or, Nat.shiftLeft_eq,
    lor_disj 7 5, lor_disj 12 3, lor_disj 15 5, lor_disj 20 5, lor_disj 25 7]
  omega

theorem encode_i_type_eq (inst : instruction_t)
    (hop : inst.opcode < 128) (hf3 : inst.funct3 < 8)
    (hrd : inst.rdst < 32) (hr1 : inst.rsrc1 < 32) :
    encode_i_type inst = inst.opcode + inst.rdst * 2 ^ 7 + inst.funct3 * 2 ^ 12
      + inst.rsrc1 * 2 ^ 15 + (toU32 inst.imm % 2 ^ 12) * 2 ^ 20 := by
  have hu := toU32_lt inst.imm
  simp (disch := omega) only [encode_i_type, shl32, Nat.zero_or, Nat.shiftLeft_eq,
    lor_disj 7 5, lor_disj 12 3, lor_disj 15 5, lor_disj 20 12]
  omega

theorem encode_s_type_eq (inst : instruction_t)
    (hop : inst.opcode < 128) (hf3 : inst.funct3 < 8)
    (hr1 : inst.rsrc1 < 32) (hr2 : inst.rsrc2 < 32) :
    encode_s_type inst = inst.opcode + (toU32 inst.imm % 2 ^ 5) * 2 ^ 7
      + inst.funct3 * 2 ^ 12 + inst.rsrc1 * 2 ^ 15 + inst.rsrc2 * 2 ^ 20
      + (toU32 inst.imm / 2 ^ 5 % 2 ^ 7) * 2 ^ 25 := by
  have hu := toU32_lt inst.imm
  simp (disch := omega) only [encode_s_type, shl32, Nat.zero_or, Nat.shiftLeft_eq,
    and_0x1f, and_0xfe0,
    lor_disj 12 3, lor_disj 15 5, lor_disj 20 5, lor_disj 25 7, lor_disj 7 5]
  omega

theorem encode_b_type_eq (inst : instruction_t)
    (hop : inst.opcode < 128) (hf3 : inst.funct3 < 8)
    (hr1 : inst.rsrc1 < 32) (hr2 : inst.rsrc2 < 32) :
    encode_b_type inst = inst.opcode + (toU32 inst.imm / 2 ^ 11 % 2) * 2 ^ 7
      + (toU32 inst.imm / 2 % 2 ^ 4) * 2 ^ 8
      + inst.funct3 * 2 ^ 12 + inst.rsrc1 * 2 ^ 15 + inst.rsrc2 * 2 ^ 20
      + (toU32 inst.imm / 2 ^ 5 % 2 ^ 6) * 2 ^ 25
      + (toU32 inst.imm / 2 ^ 12 % 2) * 2 ^ 31 := by
  simp only [encode_b_type, shl32, Nat.zero_or, Nat.shiftLeft_eq,
    Nat.shiftRight_eq_div_pow, Nat.and_comm 0x800, Nat.and_comm 0x1E,
    and_0x800, and_0x1E, and_0x7E0, and_0x1000]
  have ha : toU32 inst.imm / 2048 % 2 < 2 := Nat.mod_lt _ (by decide)
  have hb : toU32 inst.imm / 2 % 16 < 16 := Nat.mod_lt _ (by decide)
  have hc : toU32 inst.imm / 32 % 64 < 64 := Nat.mod_lt _ (by decide)
  have hd : toU32 inst.imm / 4096 % 2 < 2 := Nat.mod_lt _ (by decide)
  norm_num only
  generalize toU32 inst.imm / 2048 % 2 = a at *
  generalize toU32 inst.imm / 2 % 16 = b at *
  generalize toU32 inst.imm / 32 % 64 = c at *
  generalize toU32 inst.imm / 4096 % 2 = d at *
  simp (disch := omega) only [
    lor_disj 8 4, lor_disj 25 6, lor_disj 31 1, lor_disj 0 7, lor_disj 12 3, lor_disj 15 5,
    lor_disj 20 5]
  omega

theorem encode_u_type_eq (inst : instruction_t)
    (hop : inst.opcode < 128) (hrd : inst.rdst < 32) :
    encode_u_type inst = inst.opcode + inst.rdst * 2 ^ 7
      + (toU32 inst.imm % 2 ^ 20) * 2 ^ 12 := by
  have hu := toU32_lt inst.imm
  simp (disch := omega) only [encode_u_type, shl32, Nat.zero_or, Nat.shiftLeft_eq,
    lor_disj 7 5, lor_disj 12 20]
  omega

theorem encode_j_type_eq (inst : instruction_t)
    (hop : inst.opcode < 128) (hrd : inst.rdst < 32) :
    encode_j_type inst = inst.opcode + inst.rdst * 2 ^ 7
      + (toU32 inst.imm / 2 ^ 12 % 2 ^ 8) * 2 ^ 12
      + (toU32 inst.imm / 2 ^ 11 % 2) * 2 ^ 20
      + (toU32 inst.imm / 2 % 2 ^ 10) * 2 ^ 21
      + (toU32 inst.imm / 2 ^ 20 % 2) * 2 ^ 31 := by
  simp only [encode_j_type, shl32, Nat.zero_or, Nat.shiftLeft_eq,
    and_0xff000, and_0x800, and_0x7fe, and_0x100000]
  have ha : toU32 inst.imm / 4096 % 256 < 256 := Nat.mod_lt _ (by decide)
  have hb : toU32 inst.imm / 2048 % 2 < 2 := Nat.mod_lt _ (by decide)
  have hc : toU32 inst.imm / 2 % 1024 < 1024 := Nat.mod_lt _ (by decide)
  have hd : toU32 inst.imm / 1048576 % 2 < 2 := Nat.mod_lt _ (by decide)
  norm_num only
  generalize toU32 inst.imm / 4096 % 256 = a at *
  generalize toU32 inst.imm / 2048 % 2 = b at *
  generalize toU32 inst.imm / 2 % 1024 = c at *
  generalize toU32 inst.imm / 1048576 % 2 = d at *
  simp (disch := omega) only [
    lor_disj 20 1, lor_disj 21 10, lor_disj 31 1, lor_disj 0 7, lor_disj 7 5]
  omega

/-! ## The format encoders place every field in its slice -/

/-- C1: for opcode < 128, funct3 < 8, funct7 < 128 and register indices < 32,
`encode_r_type` returns the 32-bit word with opcode in bits [6:0], rdst in [11:7],
funct3 in [14:12], rsrc1 in [19:15], rsrc2 in [24:20] and funct7 in [31:25]. -/
theorem encode_r_type_layout (inst : instruction_t)
    (hop : inst.opcode < 128) (hf3 : inst.funct3 < 8) (hf7 : inst.funct7 < 128)
    (hrd : inst.rdst < 32) (hr1 : inst.rsrc1 < 32) (hr2 : inst.rsrc2 < 32) :
    encode_r_type inst < 2 ^ 32 ∧
    bits (encode_r_type inst) 6 0 = inst.opcode ∧
    bits (encode_r_type inst) 11 7 = inst.rdst ∧
    bits (encode_r_type inst) 14 12 = inst.funct3 ∧
    bits (encode_r_type inst) 19 15 = inst.rsrc1 ∧
    bits (encode_r_type inst) 24 20 = inst.rsrc2 ∧
    bits (encode_r_type inst) 31 25 = inst.funct7 := by
  rw [encode_r_type_eq inst hop hf3 hf7 hrd hr1 hr2]
  simp only [bits, Nat.shiftRight_eq_div_pow]
  norm_num only
  omega

theorem encode_r_type_layout_witness :
    bits (encode_r_type ex_sub) 31 25 = 0x20 :=
  (encode_r_type_layout ex_sub
    (by decide) (by decide) (by decide) (by decide) (by decide) (by decide)).2.2.2.2.2.2

/-- C2: for opcode < 128, funct3 < 8, rdst, rsrc1 < 32 and -2048 <= imm <= 2047, the word
of `encode_i_type` has opcode in bits [6:0], rdst in [11:7], funct3 in [14:12], rsrc1 in
[19:15], and bits [31:20] that sign-extended from 12 bits equal imm. -/
theorem encode_i_type_layout (inst : instruction_t)
    (hop : inst.opcode < 128) (hf3 : inst.funct3 < 8)
    (hrd : inst.rdst < 32) (hr1 : inst.rsrc1 < 32)
    (hlo : -2048 ≤ inst.imm) (hhi : inst.imm ≤ 2047) :
    encode_i_type inst < 2 ^ 32 ∧
    bits (encode_i_type inst) 6 0 = inst.opcode ∧
    bits (encode_i_type inst) 11 7 = inst.rdst ∧
    bits (encode_i_type inst) 14 12 = inst.funct3 ∧
    bits (encode_i_type inst) 19 15 = inst.rsrc1 ∧
    signExtend 12 (bits (encode_i_type inst) 31 20) = inst.imm := by
  rw [encode_i_type_eq inst hop hf3 hrd hr1]
  have hu : (toU32 inst.imm : Int) = inst.imm % 2 ^ 32 := by
    unfold toU32; omega
  simp only [bits, signExtend, Nat.shiftRight_eq_div_pow]
  norm_num only
  refine ⟨by omega, by omega, by omega, by omega, by omega, ?_⟩
  split <;> omega

theorem encode_i_type_layout_witness :
    signExtend 12 (bits (encode_i_type ex_addi) 31 20) = -3 :=
  (encode_i_type_layout ex_addi (by decide) (by decide) (by decide) (by decide)
    (by decide) (by decide)).2.2.2.2.2

/-! ## Slices of a sum of disjoint fields -/

theorem s_fields (op lo f3 r1 r2 hi : Nat) (h1 : op < 128) (h2 : lo < 32) (h3 : f3 < 8)
    (h4 : r1 < 32) (h5 : r2 < 32) (h6 : hi < 128) :
    op + lo * 128 + f3 * 4096 + r1 * 32768 + r2 * 1048576 + hi * 33554432 < 4294967296 ∧
    (op + lo * 128 + f3 * 4096 + r1 * 32768 + r2 * 1048576 + hi * 33554432) % 128 = op ∧
    (op + lo * 128 + f3 * 4096 + r1 * 32768 + r2 * 1048576 + hi * 33554432) / 128 % 32 = lo ∧
    (op + lo * 128 + f3 * 4096 + r1 * 32768 + r2 * 1048576 + hi * 33554432) / 4096 % 8 = f3 ∧
    (op + lo * 128 + f3 * 4096 + r1 * 32768 + r2 * 1048576 + hi * 33554432) / 32768 % 32 = r1 ∧
    (op + lo * 128 + f3 * 4096 + r1 * 32768 + r2 * 1048576 + hi * 33554432) / 1048576 % 32
      = r2 ∧
    (op + lo * 128 + f3 * 4096 + r1 * 32768 + r2 * 1048576 + hi * 33554432) / 33554432 % 128
      = hi := by
  omega

theorem b_fields (op a b f3 r1 r2 c d : Nat) (h1 : op < 128) (h2 : a < 2) (h3 : b < 16)
    (h4 : f3 < 8) (h5 : r1 < 32) (h6 : r2 < 32) (h7 : c < 64) (h8 : d < 2) :
    op + a * 128 + b * 256 + f3 * 4096 + r1 * 32768 + r2 * 1048576 + c * 33554432
      + d * 2147483648 < 4294967296 ∧
    (op + a * 128 + b * 256 + f3 * 4096 + r1 * 32768 + r2 * 1048576 + c * 33554432
      + d * 2147483648) % 128 = op ∧
    (op + a * 128 + b * 256 + f3 * 4096 + r1 * 32768 + r2 * 1048576 + c * 33554432
      + d * 2147483648) / 128 % 2 = a ∧
    (op + a * 128 + b * 256 + f3 * 4096 + r1 * 32768 + r2 * 1048576 + c * 33554432
      + d * 2147483648) / 256 % 16 = b ∧
    (op + a * 128 + b * 256 + f3 * 4096 + r1 * 32768 + r2 * 1048576 + c * 33554432
      + d * 2147483648) / 4096 % 8 = f3 ∧
    (op + a * 128 + b * 256 + f3 * 4096 + r1 * 32768 + r2 * 1048576 + c * 33554432
      + d * 2147483648) / 32768 % 32 = r1 ∧
    (op + a * 128 + b * 256 + f3 * 4096 + r1 * 32768 + r2 * 1048576 + c * 33554432
      + d * 2147483648) / 1048576 % 32 = r2 ∧
    (op + a * 128 + b * 256 + f3 * 4096 + r1 * 32768 + r2 * 1048576 + c * 33554432
      + d * 2147483648) / 33554432 % 64 = c ∧
    (op + a * 128 + b * 256 + f3 * 4096 + r1 * 32768 + r2 * 1048576 + c * 33554432
      + d * 2147483648) / 2147483648 % 2 = d := by
  omega

theorem j_fields (op rd a b c d : Nat) (h1 : op < 128) (h2 : rd < 32) (h3 : a < 256)
    (h4 : b < 2) (h5 : c < 1024) (h6 : d < 2) :
    op + rd * 128 + a * 4096 + b * 1048576 + c * 2097152 + d * 2147483648 < 4294967296 ∧
    (op + rd * 128 + a * 4096 + b * 1048576 + c * 2097152 + d * 2147483648) % 128 = op ∧
    (op + rd * 128 + a * 4096 + b * 1048576 + c * 2097152 + d * 2147483648) / 128 % 32
      = rd ∧
    (op + rd * 128 + a * 4096 + b * 1048576 + c * 2097152 + d * 2147483648) / 4096 % 256
      = a ∧
    (op + rd * 128 + a * 4096 + b * 1048576 + c * 2097152 + d * 2147483648) / 1048576 % 2
      = b ∧
    (op + rd * 128 + a * 4096 + b * 1048576 + c * 2097152 + d * 2147483648) / 2097152 % 1024
      = c ∧
    (op + rd * 128 + a * 4096 + b * 1048576 + c * 2097152 + d * 2147483648) / 2147483648 % 2
      = d := by
  omega

theorem signExtend_12 (m : Nat) (imm : Int) (h : (m : Int) = imm % 4096)
    (hlo : -2048 ≤ imm) (hhi : imm ≤ 2047) : signExtend 12 m = imm := by
  unfold signExtend
  norm_num only
  split <;> omega

theorem signExtend_13 (m : Nat) (d : Int) (h : (m : Int) = d % 8192)
    (hlo : -4096 ≤ d) (hhi : d ≤ 4095) : signExtend 13 m = d := by
  unfold signExtend
  norm_num only
  split <;> omega

theorem signExtend_21 (m : Nat) (d : Int) (h : (m : Int) = d % 2097152)
    (hlo : -1048576 ≤ d) (hhi : d < 1048576) : signExtend 21 m = d := by
  unfold signExtend
  norm_num only
  split <;> omega

/-- C3: for opcode < 128, funct3 < 8, rsrc1, rsrc2 < 32 and -2048 <= imm <= 2047, the word
of `encode_s_type` has opcode in bits [6:0], funct3 in [14:12], rsrc1 in [19:15], rsrc2 in
[24:20], imm[4:0] in bits [11:7] and imm[11:5] in bits [31:25]; bits [31:25] and [11:7]
reassembled and sign-extended from 12 bits give back imm. -/
theorem encode_s_type_layout (inst : instruction_t)
    (hop : inst.opcode < 128) (hf3 : inst.funct3 < 8)
    (hr1 : inst.rsrc1 < 32) (hr2 : inst.rsrc2 < 32)
    (hlo : -2048 ≤ inst.imm) (hhi : inst.imm ≤ 2047) :
    encode_s_type inst < 2 ^ 32 ∧
    bits (encode_s_type inst) 6 0 = inst.opcode ∧
    bits (encode_s_type inst) 14 12 = inst.funct3 ∧
    bits (encode_s_type inst) 19 15 = inst.rsrc1 ∧
    bits (encode_s_type inst) 24 20 = inst.rsrc2 ∧
    bits (encode_s_type inst) 11 7 = bits (toU32 inst.imm) 4 0 ∧
    bits (encode_s_type inst) 31 25 = bits (toU32 inst.imm) 11 5 ∧
    signExtend 12 (decode_s_imm (encode_s_type inst)) = inst.imm := by
  rw [encode_s_type_eq inst hop hf3 hr1 hr2]
  have hlow : toU32 inst.imm % 32 < 32 := Nat.mod_lt _ (by decide)
  have hhigh : toU32 inst.imm / 32 % 128 < 128 := Nat.mod_lt _ (by decide)
  have hrel : ((toU32 inst.imm / 32 % 128 * 32 + toU32 inst.imm % 32 : Nat) : Int)
      = inst.imm % 4096 := by
    unfold toU32; omega
  obtain ⟨f0, f1, f2, f3, f4, f5, f6⟩ := s_fields inst.opcode (toU32 inst.imm % 32)
    inst.funct3 inst.rsrc1 inst.rsrc2 (toU32 inst.imm / 32 % 128) hop hlow hf3 hr1 hr2 hhigh
  simp only [bits, decode_s_imm, Nat.shiftRight_eq_div_pow, Nat.pow_zero, Nat.div_one]
  norm_num only
  refine ⟨f0, f1, f3, f4, f5, f2, f6, ?_⟩
  rw [f2, f6]
  exact signExtend_12 _ _ hrel hlo hhi

theorem encode_s_type_layout_witness :
    signExtend 12 (decode_s_imm (encode_s_type ex_sw)) = -20 :=
  (encode_s_type_layout ex_sw (by decide) (by decide) (by decide) (by decide)
    (by decide) (by decide)).2.2.2.2.2.2.2

/-- C4: for opcode < 128, funct3 < 8, rsrc1, rsrc2 < 32 and every imm (`toU32` is its
32-bit two's complement pattern), the word of
`encode_b_type` has bit 31 = imm bit 12, bits [30:25] = imm[10:5], bits [11:8] = imm[4:1],
bit 7 = imm bit 11, rsrc2 in [24:20], rsrc1 in [19:15], funct3 in [14:12] and opcode in
[6:0]. -/
theorem encode_b_type_layout (inst : instruction_t)
    (hop : inst.opcode < 128) (hf3 : inst.funct3 < 8)
    (hr1 : inst.rsrc1 < 32) (hr2 : inst.rsrc2 < 32) :
    encode_b_type inst < 2 ^ 32 ∧
    bits (encode_b_type inst) 31 31 = bits (toU32 inst.imm) 12 12 ∧
    bits (encode_b_type inst) 30 25 = bits (toU32 inst.imm) 10 5 ∧
    bits (encode_b_type inst) 11 8 = bits (toU32 inst.imm) 4 1 ∧
    bits (encode_b_type inst) 7 7 = bits (toU32 inst.imm) 11 11 ∧
    bits (encode_b_type inst) 24 20 = inst.rsrc2 ∧
    bits (encode_b_type inst) 19 15 = inst.rsrc1 ∧
    bits (encode_b_type inst) 14 12 = inst.funct3 ∧
    bits (encode_b_type inst) 6 0 = inst.opcode := by
  rw [encode_b_type_eq inst hop hf3 hr1 hr2]
  obtain ⟨f0, f1, f2, f3, f4, f5, f6, f7, f8⟩ := b_fields inst.opcode
    (toU32 inst.imm / 2048 % 2) (toU32 inst.imm / 2 % 16) inst.funct3 inst.rsrc1 inst.rsrc2
    (toU32 inst.imm / 32 % 64) (toU32 inst.imm / 4096 % 2) hop (Nat.mod_lt _ (by decide))
    (Nat.mod_lt _ (by decide)) hf3 hr1 hr2 (Nat.mod_lt _ (by decide)) (Nat.mod_lt _ (by decide))
  simp only [bits, Nat.shiftRight_eq_div_pow, Nat.pow_zero, Nat.div_one]
  norm_num only
  exact ⟨f0, f8, f7, f3, f2, f6, f5, f4, f1⟩

theorem encode_b_type_layout_witness :
    bits (encode_b_type ex_beq) 11 8 = bits (toU32 8) 4 1 :=
  (encode_b_type_layout ex_beq (by decide) (by decide) (by decide) (by decide)).2.2.2.1

/-- C5: for opcode < 128, rdst < 32 and 0 <= imm < 2^20, the word of `encode_u_type` has
opcode in bits [6:0], rdst in [11:7] and imm in bits [31:12]. -/
theorem encode_u_type_layout (inst : instruction_t)
    (hop : inst.opcode < 128) (hrd : inst.rdst < 32)
    (hlo : 0 ≤ inst.imm) (hhi : inst.imm < 2 ^ 20) :
    encode_u_type inst < 2 ^ 32 ∧
    bits (encode_u_type inst) 6 0 = inst.opcode ∧
    bits (encode_u_type inst) 11 7 = inst.rdst ∧
    (bits (encode_u_type inst) 31 12 : Int) = inst.imm := by
  rw [encode_u_type_eq inst hop hrd]
  have hu : (toU32 inst.imm : Int) = inst.imm % 2 ^ 32 := by
    unfold toU32; omega
  simp only [bits, Nat.shiftRight_eq_div_pow]
  norm_num only
  omega

theorem encode_u_type_layout_witness :
    (bits (encode_u_type ex_lui) 31 12 : Int) = 1 :=
  (encode_u_type_layout ex_lui (by decide) (by decide) (by decide) (by decide)).2.2.2

/-- C6: for opcode < 128, rdst < 32 and every imm (`toU32` is its 32-bit two's
complement pattern), the word of `encode_j_type` has
bit 31 = imm bit 20, bits [30:21] = imm[10:1], bit 20 = imm bit 11, bits [19:12] =
imm[19:12], rdst in [11:7] and opcode in [6:0]; hence for every even imm with
-2^20 <= imm < 2^20 the J-immediate decoded from the word, sign-extended from 21 bits,
equals imm. -/
theorem encode_j_type_layout (inst : instruction_t)
    (hop : inst.opcode < 128) (hrd : inst.rdst < 32) :
    encode_j_type inst < 2 ^ 32 ∧
    bits (encode_j_type inst) 31 31 = bits (toU32 inst.imm) 20 20 ∧
    bits (encode_j_type inst) 30 21 = bits (toU32 inst.imm) 10 1 ∧
    bits (encode_j_type inst) 20 20 = bits (toU32 inst.imm) 11 11 ∧
    bits (encode_j_type inst) 19 12 = bits (toU32 inst.imm) 19 12 ∧
    bits (encode_j_type inst) 11 7 = inst.rdst ∧
    bits (encode_j_type inst) 6 0 = inst.opcode ∧
    (inst.imm % 2 = 0 → -2 ^ 20 ≤ inst.imm → inst.imm < 2 ^ 20 →
      signExtend 21 (decode_j_imm (encode_j_type inst)) = inst.imm) := by
  rw [encode_j_type_eq inst hop hrd]
  have hrel : inst.imm % 2 = 0 →
      ((toU32 inst.imm / 1048576 % 2 * 1048576 + toU32 inst.imm / 4096 % 256 * 4096
        + toU32 inst.imm / 2048 % 2 * 2048 + toU32 inst.imm / 2 % 1024 * 2 : Nat) : Int)
      = inst.imm % 2097152 := by
    unfold toU32; omega
  obtain ⟨f0, f1, f2, f3, f4, f5, f6⟩ := j_fields inst.opcode inst.rdst
    (toU32 inst.imm / 4096 % 256) (toU32 inst.imm / 2048 % 2) (toU32 inst.imm / 2 % 1024)
    (toU32 inst.imm / 1048576 % 2) hop hrd (Nat.mod_lt _ (by decide))
    (Nat.mod_lt _ (by decide)) (Nat.mod_lt _ (by decide)) (Nat.mod_lt _ (by decide))
  simp only [bits, decode_j_imm, Nat.shiftRight_eq_div_pow, Nat.pow_zero, Nat.div_one]
  norm_num only
  refine ⟨f0, f6, f5, f4, f3, f2, f1, ?_⟩
  intro hev h1 h2
  rw [f3, f4, f5, f6]
  exact signExtend_21 _ _ (hrel hev) h1 h2

theorem encode_j_type_layout_witness :
    signExtend 21 (decode_j_imm (encode_j_type ex_jal)) = -256 :=
  (encode_j_type_layout ex_jal (by decide) (by decide)).2.2.2.2.2.2.2
    (by decide) (by decide) (by decide)

/-! ## The dispatch of `encode_instruction` -/

theorem encode_instruction_of_id (inst : instruction_t) (ids : List Int)
    (f : instruction_t → Nat) (h : inst.inst_id ∈ ids)
    (hall : ∀ id ∈ ids, ∀ i : instruction_t, i.inst_id = id → encode_instruction i = f i) :
    encode_instruction inst = f inst :=
  hall _ h inst rfl

/-- C7: `encode_instruction` equals `encode_r_type` for ADD, SUB, MUL, DIV, SLL, SLT, SLTU,
XOR, SRL, SRA, OR, AND, SLLI, SRLI, SRAI; `encode_i_type` for JALR, LB, LH, LW, LBU, LHU,
ADDI, SLTI, SLTIU, XORI, ORI, ANDI, ECALL, EBREAK, JR, RET; `encode_s_type` for SB, SH,
SW; `encode_b_type` for BEQ, BNE, BLT, BGE, BLTU, BGEU; `encode_u_type` for LUI, AUIPC;
and `encode_j_type` for JAL, J. -/
theorem encode_instruction_dispatch (inst : instruction_t) :
    (inst.inst_id ∈ [RISCV_ADD, RISCV_SUB, RISCV_MUL, RISCV_DIV, RISCV_SLL, RISCV_SLT,
        RISCV_SLTU, RISCV_XOR, RISCV_SRL, RISCV_SRA, RISCV_OR, RISCV_AND, RISCV_SLLI,
        RISCV_SRLI, RISCV_SRAI] →
      encode_instruction inst = encode_r_type inst) ∧
    (inst.inst_id ∈ [RISCV_JALR, RISCV_LB, RISCV_LH, RISCV_LW, RISCV_LBU, RISCV_LHU,
        RISCV_ADDI, RISCV_SLTI, RISCV_SLTIU, RISCV_XORI, RISCV_ORI, RISCV_ANDI, RISCV_ECALL,
        RISCV_EBREAK, RISCV_JR, RISCV_RET] →
      encode_instruction inst = encode_i_type inst) ∧
    (inst.inst_id ∈ [RISCV_SB, RISCV_SH, RISCV_SW] →
      encode_instruction inst = encode_s_type inst) ∧
    (inst.inst_id ∈ [RISCV_BEQ, RISCV_BNE, RISCV_BLT, RISCV_BGE, RISCV_BLTU, RISCV_BGEU] →
      encode_instruction inst = encode_b_type inst) ∧
    (inst.inst_id ∈ [RISCV_LUI, RISCV_AUIPC] →
      encode_instruction inst = encode_u_type inst) ∧
    (inst.inst_id ∈ [RISCV_JAL, RISCV_J] →
      encode_instruction inst = encode_j_type inst) := by
  refine ⟨?_, ?_, ?_, ?_, ?_, ?_⟩ <;> intro h <;>
    refine encode_instruction_of_id inst _ _ h ?_ <;>
    simp only [List.mem_cons, List.mem_singleton, List.not_mem_nil, or_false, forall_eq_or_imp,
      forall_eq] <;>
    (repeat' apply And.intro) <;>
    (intro i hi
     unfold encode_instruction
     rw [hi]
     simp [
      RISCV_LUI, RISCV_AUIPC, RISCV_JAL, RISCV_JALR, RISCV_BEQ, RISCV_BNE, RISCV_BLT,
      RISCV_BGE, RISCV_BLTU, RISCV_BGEU, RISCV_LB, RISCV_LH, RISCV_LW, RISCV_LBU,
      RISCV_LHU, RISCV_SB, RISCV_SH, RISCV_SW, RISCV_ADDI, RISCV_SLTI, RISCV_SLTIU,
      RISCV_XORI, RISCV_ORI, RISCV_ANDI, RISCV_SLLI, RISCV_SRLI, RISCV_SRAI, RISCV_ADD,
      RISCV_SUB, RISCV_SLL, RISCV_SLT, RISCV_SLTU, RISCV_XOR, RISCV_SRL, RISCV_SRA,
      RISCV_OR, RISCV_AND, RISCV_ECALL, RISCV_EBREAK, RISCV_J, RISCV_JR, RISCV_RET,
      RISCV_MUL, RISCV_DIV])

theorem encode_instruction_dispatch_witness :
    encode_instruction ex_ret = encode_i_type ex_ret :=
  (encode_instruction_dispatch ex_ret).2.1 (by decide)

/-! ## Bits outside the immediate slice do not depend on the immediate -/

theorem testBit_mask_out (u l k j : Nat) (h : j < l ∨ l + k ≤ j) :
    (u &&& ((2 ^ k - 1) * 2 ^ l)).testBit j = false := by
  rw [and_mask_eq, Nat.mul_comm, Nat.testBit_mul_pow_two, Nat.testBit_mod_two_pow]
  rcases h with h | h
  · have : ¬ (j ≥ l) := by omega
    simp [this]
  · have : ¬ (j - l < k) := by omega
    simp [this]

theorem testBit_shl32_out (u n j : Nat) (h : j < n ∨ 32 ≤ j) :
    (shl32 u n).testBit j = false := by
  unfold shl32
  rw [Nat.testBit_mod_two_pow, Nat.testBit_shiftLeft]
  rcases h with h | h
  · have : ¬ (j ≥ n) := by omega
    simp [this]
  · have : ¬ (j < 32) := by omega
    simp [this]

theorem testBit_shl32_mask_out (u l k n j : Nat) (h : j < l + n ∨ l + k + n ≤ j) :
    (shl32 (u &&& ((2 ^ k - 1) * 2 ^ l)) n).testBit j = false := by
  unfold shl32
  rw [Nat.testBit_mod_two_pow, Nat.testBit_shiftLeft]
  by_cases hn : j ≥ n
  · rw [testBit_mask_out u l k (j - n) (by omega)]
    simp
  · simp [hn]

theorem testBit_shr_mask_out (u l k n j : Nat) (h : j + n < l ∨ l + k ≤ j + n) :
    ((u &&& ((2 ^ k - 1) * 2 ^ l)) >>> n).testBit j = false := by
  rw [Nat.testBit_shiftRight, testBit_mask_out u l k (n + j) (by omega)]

/-- C8: for each of the I, S, B, U and J encoders and two records that differ only in
imm (any two values), the two words agree on every bit outside the format's immediate
slice: [31:20] for I, [31:25] and [11:7] for S and B, [31:12] for U and J. -/
theorem encode_imm_outside_slice (inst : instruction_t) (a b : Int) (i : Nat) :
    ((i < 20 ∨ 31 < i) →
      (encode_i_type { inst with imm := a }).testBit i
        = (encode_i_type { inst with imm := b }).testBit i) ∧
    ((i < 7 ∨ (11 < i ∧ i < 25) ∨ 31 < i) →
      (encode_s_type { inst with imm := a }).testBit i
        = (encode_s_type { inst with imm := b }).testBit i) ∧
    ((i < 7 ∨ (11 < i ∧ i < 25) ∨ 31 < i) →
      (encode_b_type { inst with imm := a }).testBit i
        = (encode_b_type { inst with imm := b }).testBit i) ∧
    ((i < 12 ∨ 31 < i) →
      (encode_u_type { inst with imm := a }).testBit i
        = (encode_u_type { inst with imm := b }).testBit i) ∧
    ((i < 12 ∨ 31 < i) →
      (encode_j_type { inst with imm := a }).testBit i
        = (encode_j_type { inst with imm := b }).testBit i) := by
  refine ⟨?_, ?_, ?_, ?_, ?_⟩ <;> intro h
  · have p : ∀ u, (shl32 u 20).testBit i = false :=
      fun u => testBit_shl32_out u 20 i (by omega)
    simp only [encode_i_type, Nat.testBit_or, p]
  · have p1 : ∀ u, (shl32 (u &&& 0xfe0) 20).testBit i = false :=
      fun u => by simpa using testBit_shl32_mask_out u 5 7 20 i (by omega)
    have p2 : ∀ u, (shl32 (u &&& 0x1f) 7).testBit i = false :=
      fun u => by simpa using testBit_shl32_mask_out u 0 5 7 i (by omega)
    simp only [encode_s_type, Nat.testBit_or, p1, p2]
  · have p1 : ∀ u, ((0x800 &&& u) >>> 4).testBit i = false :=
      fun u => by
        rw [Nat.and_comm]; simpa using testBit_shr_mask_out u 11 1 4 i (by omega)
    have p2 : ∀ u, (shl32 (0x1E &&& u) 7).testBit i = false :=
      fun u => by
        rw [Nat.and_comm]; simpa using testBit_shl32_mask_out u 1 4 7 i (by omega)
    have p3 : ∀ u, (shl32 (u &&& 0x7E0) 20).testBit i = false :=
      fun u => by simpa using testBit_shl32_mask_out u 5 6 20 i (by omega)
    have p4 : ∀ u, (shl32 (u &&& 0x1000) 19).testBit i = false :=
      fun u => by simpa using testBit_shl32_mask_out u 12 1 19 i (by omega)
    simp only [encode_b_type, Nat.testBit_or, p1, p2, p3, p4]
  · have p : ∀ u, (shl32 u 12).testBit i = false :=
      fun u => testBit_shl32_out u 12 i (by omega)
    simp only [encode_u_type, Nat.testBit_or, p]
  · have p1 : ∀ u, (u &&& 0xff000).testBit i = false :=
      fun u => by simpa using testBit_mask_out u 12 8 i (by omega)
    have p2 : ∀ u, (shl32 (u &&& 0x800) 9).testBit i = false :=
      fun u => by simpa using testBit_shl32_mask_out u 11 1 9 i (by omega)
    have p3 : ∀ u, (shl32 (u &&& 0x7fe) 20).testBit i = false :=
      fun u => by simpa using testBit_shl32_mask_out u 1 10 20 i (by omega)
    have p4 : ∀ u, (shl32 (u &&& 0x100000) 11).testBit i = false :=
      fun u => by simpa using testBit_shl32_mask_out u 20 1 11 i (by omega)
    simp only [encode_j_type, Nat.testBit_or, p1, p2, p3, p4]

theorem encode_imm_outside_slice_witness :
    (encode_s_type { ex_sw with imm := 5 }).testBit 13
      = (encode_s_type { ex_sw with imm := -1 }).testBit 13 :=
  (encode_imm_outside_slice ex_sw 5 (-1) 13).2.1 (by decide)

/-! ## Decoding the displacement of an encoded branch or jump -/

theorem decode_b_imm_encode (inst : instruction_t)
    (hop : inst.opcode < 128) (hf3 : inst.funct3 < 8)
    (hr1 : inst.rsrc1 < 32) (hr2 : inst.rsrc2 < 32) :
    decode_b_imm (encode_b_type inst)
      = toU32 inst.imm / 4096 % 2 * 4096 + toU32 inst.imm / 2048 % 2 * 2048
        + toU32 inst.imm / 32 % 64 * 32 + toU32 inst.imm / 2 % 16 * 2 := by
  rw [encode_b_type_eq inst hop hf3 hr1 hr2]
  obtain ⟨-, -, f2, f3, -, -, -, f7, f8⟩ := b_fields inst.opcode
    (toU32 inst.imm / 2048 % 2) (toU32 inst.imm / 2 % 16) inst.funct3 inst.rsrc1 inst.rsrc2
    (toU32 inst.imm / 32 % 64) (toU32 inst.imm / 4096 % 2) hop (Nat.mod_lt _ (by decide))
    (Nat.mod_lt _ (by decide)) hf3 hr1 hr2 (Nat.mod_lt _ (by decide)) (Nat.mod_lt _ (by decide))
  simp only [bits, decode_b_imm, Nat.shiftRight_eq_div_pow]
  norm_num only
  rw [f2, f3, f7, f8]

theorem decode_j_imm_encode (inst : instruction_t)
    (hop : inst.opcode < 128) (hrd : inst.rdst < 32) :
    decode_j_imm (encode_j_type inst)
      = toU32 inst.imm / 1048576 % 2 * 1048576 + toU32 inst.imm / 4096 % 256 * 4096
        + toU32 inst.imm / 2048 % 2 * 2048 + toU32 inst.imm / 2 % 1024 * 2 := by
  rw [encode_j_type_eq inst hop hrd]
  obtain ⟨-, -, -, f3, f4, f5, f6⟩ := j_fields inst.opcode inst.rdst
    (toU32 inst.imm / 4096 % 256) (toU32 inst.imm / 2048 % 2) (toU32 inst.imm / 2 % 1024)
    (toU32 inst.imm / 1048576 % 2) hop hrd (Nat.mod_lt _ (by decide))
    (Nat.mod_lt _ (by decide)) (Nat.mod_lt _ (by decide)) (Nat.mod_lt _ (by decide))
  simp only [bits, decode_j_imm, Nat.shiftRight_eq_div_pow]
  norm_num only
  rw [f3, f4, f5, f6]

theorem toU64_cast (i : Int) : ((toU64 i : Nat) : Int) = i % 18446744073709551616 := by
  unfold toU64
  have : (2 : Int) ^ 64 = 18446744073709551616 := by norm_num
  rw [this]
  omega

theorem toU32_cast (i : Int) : ((toU32 i : Nat) : Int) = i % 4294967296 := by
  unfold toU32
  have : (2 : Int) ^ 32 = 4294967296 := by norm_num
  rw [this]
  omega

theorem toI32_eq (i : Int) :
    toI32 i = if i % 4294967296 < 2147483648 then i % 4294967296
      else i % 4294967296 - 4294967296 := by
  unfold toI32
  norm_num only

theorem toI64_eq (i : Int) :
    toI64 i = if i % 18446744073709551616 < 9223372036854775808 then i % 18446744073709551616
      else i % 18446744073709551616 - 18446744073709551616 := by
  unfold toI64
  norm_num only

/-- The displacement stored for a branch, `(T - A) & 0x1fff`, is decoded back to `T - A`
when that is even and fits 13 signed bits. -/
theorem branch_imm_roundtrip (T A : Nat) (imm : Int)
    (himm : imm = toI32 ((toU64 (toI64 T - A) &&& 0x1fff : Nat) : Int))
    (hev : ((T : Int) - A) % 2 = 0) (hlo : -4096 ≤ (T : Int) - A) (hhi : (T : Int) - A ≤ 4094) :
    signExtend 13 (toU32 imm / 4096 % 2 * 4096 + toU32 imm / 2048 % 2 * 2048
        + toU32 imm / 32 % 64 * 32 + toU32 imm / 2 % 16 * 2) = (T : Int) - A := by
  rw [and_0x1fff, toI32_eq] at himm
  have hx := toU64_cast (toI64 (T : Int) - (A : Int))
  have hT := toI64_eq (T : Int)
  have hx2 : ((toU64 (toI64 (T : Int) - (A : Int)) % 8192 : Nat) : Int)
      = ((T : Int) - A) % 8192 := by
    split at hT <;> omega
  have himm2 : imm = ((T : Int) - A) % 8192 := by
    rw [himm]
    split <;> omega
  have hu := toU32_cast imm
  have hu2 : (toU32 imm : Int) = ((T : Int) - A) % 8192 := by omega
  have hhi2 : (T : Int) - A ≤ 4095 := by omega
  refine signExtend_13 _ _ ?_ hlo hhi2
  clear himm hx hT hx2 himm2 hu
  omega

/-- The displacement stored for a jump, `T - A`, is decoded back to `T - A` when that is
even and fits 21 signed bits. -/
theorem jump_imm_roundtrip (T A : Nat) (imm : Int)
    (himm : imm = toI32 ((toU64 (toI64 T - A) : Nat) : Int))
    (hev : ((T : Int) - A) % 2 = 0) (hlo : -1048576 ≤ (T : Int) - A)
    (hhi : (T : Int) - A < 1048576) :
    signExtend 21 (toU32 imm / 1048576 % 2 * 1048576 + toU32 imm / 4096 % 256 * 4096
        + toU32 imm / 2048 % 2 * 2048 + toU32 imm / 2 % 1024 * 2) = (T : Int) - A := by
  rw [toI32_eq] at himm
  have hx := toU64_cast (toI64 (T : Int) - (A : Int))
  have hT := toI64_eq (T : Int)
  have hx2 : ((toU64 (toI64 (T : Int) - (A : Int)) : Nat) : Int) % 4294967296
      = ((T : Int) - A) % 4294967296 := by
    split at hT <;> omega
  have himm2 : imm = (T : Int) - A := by
    rw [himm]
    split <;> omega
  have hu := toU32_cast imm
  have hu2 : (toU32 imm : Int) = ((T : Int) - A) % 4294967296 := by omega
  refine signExtend_21 _ _ ?_ hlo hhi
  clear himm hx hT hx2 himm2 hu
  omega

/-! ## The displacement pass, entry by entry -/

theorem calculate_offsets_block_get (symtab_head : List symtab_entry_t) :
    ∀ (l l' : List mem_entry_t), calculate_offsets_block symtab_head l = Except.ok l' →
      ∀ (j : Nat) (working : mem_entry_t), l[j]? = some working →
        ∃ working', l'[j]? = some working' ∧
          calculate_offsets_entry symtab_head working = Except.ok working' := by
  intro l
  induction l with
  | nil => intro l' _ j working hj; simp at hj
  | cons w next ih =>
    intro l' h j working hj
    unfold calculate_offsets_block at h
    cases hw : calculate_offsets_entry symtab_head w with
    | error f => rw [hw] at h; cases h
    | ok w' =>
      rw [hw] at h
      cases hn : calculate_offsets_block symtab_head next with
      | error f => rw [hn] at h; cases h
      | ok next' =>
        rw [hn] at h
        cases h
        cases j with
        | zero =>
          simp only [List.getElem?_cons_zero, Option.some.injEq] at hj
          subst hj
          exact ⟨w', by simp, hw⟩
        | succ j =>
          simp only [List.getElem?_cons_succ] at hj
          obtain ⟨working', h1, h2⟩ := ih next' hn j working hj
          exact ⟨working', by simpa using h1, h2⟩

theorem calculate_offsets_get (symtab_head : List symtab_entry_t) :
    ∀ (bl bl' : List memblock_list_t), calculate_offsets symtab_head bl = Except.ok bl' →
      ∀ (i : Nat) (list : memblock_list_t), bl[i]? = some list →
        ∃ head', bl'[i]? = some { list with head := head' } ∧
          calculate_offsets_block symtab_head list.head = Except.ok head' := by
  intro bl
  induction bl with
  | nil => intro bl' _ i list hi; simp at hi
  | cons b next ih =>
    intro bl' h i list hi
    unfold calculate_offsets at h
    cases hb : calculate_offsets_block symtab_head b.head with
    | error f => rw [hb] at h; cases h
    | ok head' =>
      rw [hb] at h
      cases hn : calculate_offsets symtab_head next with
      | error f => rw [hn] at h; cases h
      | ok next' =>
        rw [hn] at h
        cases h
        cases i with
        | zero =>
          simp only [List.getElem?_cons_zero, Option.some.injEq] at hi
          subst hi
          exact ⟨head', by simp, hb⟩
        | succ i =>
          simp only [List.getElem?_cons_succ] at hi
          obtain ⟨head'', h1, h2⟩ := ih next' hn i list hi
          exact ⟨head'', by simpa using h1, h2⟩

/-- What the pass stores in a branch entry whose label is a memory symbol. -/
theorem calculate_offsets_entry_branch (symtab_head : List symtab_entry_t)
    (working working' : mem_entry_t) (inst : instruction_t) (name : String)
    (sym : symtab_entry_t)
    (h : calculate_offsets_entry symtab_head working = Except.ok working')
    (htype : working.type = type_t.ENTRY_INSTRUCTION)
    (hstat : working.status = status_t.ENTRY_INCOMPLETE)
    (hinst : working.inst = some inst) (hname : inst.target_name = some name)
    (hsym : symtab_find symtab_head name = some sym)
    (hid : inst.inst_id ∈ [RISCV_BEQ, RISCV_BNE, RISCV_BLT, RISCV_BGE, RISCV_BLTU,
      RISCV_BGEU]) :
    working' = { working with
      inst := some { inst with
        imm := toI32 ((toU64 (toI64 sym.value - working.address) &&& 0x1fff : Nat) : Int) }
      status := status_t.ENTRY_COMPLETE } := by
  have hnj : ¬ (inst.inst_id = RISCV_JAL ∨ inst.inst_id = RISCV_J) := by
    simp only [List.mem_cons, List.mem_singleton, List.not_mem_nil, or_false] at hid
    rcases hid with h | h | h | h | h | h <;> rw [h] <;> decide
  have hb : inst.inst_id = RISCV_BEQ ∨ inst.inst_id = RISCV_BNE ∨
      inst.inst_id = RISCV_BLT ∨ inst.inst_id = RISCV_BGE ∨
      inst.inst_id = RISCV_BLTU ∨ inst.inst_id = RISCV_BGEU := by
    simpa only [List.mem_cons, List.mem_singleton, List.not_mem_nil, or_false] using hid
  unfold calculate_offsets_entry at h
  simp only [htype, hstat, and_self, if_true, hinst, hname, symtab_lookup, symtab_type, hsym,
    if_neg hnj, if_pos hb] at h
  split at h
  · cases h
  · split at h
    · cases h
    · cases h
      simp [htype, hname]

/-- What the pass stores in a JAL or J entry whose label is a memory symbol. -/
theorem calculate_offsets_entry_jump (symtab_head : List symtab_entry_t)
    (working working' : mem_entry_t) (inst : instruction_t) (name : String)
    (sym : symtab_entry_t)
    (h : calculate_offsets_entry symtab_head working = Except.ok working')
    (htype : working.type = type_t.ENTRY_INSTRUCTION)
    (hstat : working.status = status_t.ENTRY_INCOMPLETE)
    (hinst : working.inst = some inst) (hname : inst.target_name = some name)
    (hsym : symtab_find symtab_head name = some sym)
    (hid : inst.inst_id ∈ [RISCV_JAL, RISCV_J]) :
    working' = { working with
      inst := some { inst with
        imm := toI32 ((toU64 (toI64 sym.value - working.address) : Nat) : Int) }
      status := status_t.ENTRY_COMPLETE } := by
  have hj : inst.inst_id = RISCV_JAL ∨ inst.inst_id = RISCV_J := by
    simpa only [List.mem_cons, List.mem_singleton, List.not_mem_nil, or_false] using hid
  unfold calculate_offsets_entry at h
  simp only [htype, hstat, and_self, if_true, hinst, hname, symtab_lookup, symtab_type, hsym,
    if_pos hj] at h
  split at h
  · cases h
  · split at h
    · cases h
    · cases h
      simp [htype, hname]

theorem encode_instruction_branch (inst : instruction_t)
    (hid : inst.inst_id ∈ [RISCV_BEQ, RISCV_BNE, RISCV_BLT, RISCV_BGE, RISCV_BLTU,
      RISCV_BGEU]) : encode_instruction inst = encode_b_type inst := by
  simp only [List.mem_cons, List.mem_singleton, List.not_mem_nil, or_false] at hid
  unfold encode_instruction
  rcases hid with h | h | h | h | h | h <;> rw [h] <;>
    simp [RISCV_LUI, RISCV_AUIPC, RISCV_JAL, RISCV_JALR, RISCV_BEQ, RISCV_BNE, RISCV_BLT,
      RISCV_BGE, RISCV_BLTU, RISCV_BGEU]

theorem encode_instruction_jump (inst : instruction_t)
    (hid : inst.inst_id ∈ [RISCV_JAL, RISCV_J]) :
    encode_instruction inst = encode_j_type inst := by
  simp only [List.mem_cons, List.mem_singleton, List.not_mem_nil, or_false] at hid
  unfold encode_instruction
  rcases hid with h | h <;> rw [h] <;>
    simp [RISCV_LUI, RISCV_AUIPC, RISCV_JAL, RISCV_JALR, RISCV_BEQ, RISCV_BNE, RISCV_BLT,
      RISCV_BGE, RISCV_BLTU, RISCV_BGEU, RISCV_LB, RISCV_LH, RISCV_LW, RISCV_LBU, RISCV_LHU,
      RISCV_SB, RISCV_SH, RISCV_SW, RISCV_ADDI, RISCV_SLTI, RISCV_SLTIU, RISCV_XORI,
      RISCV_ORI, RISCV_ANDI, RISCV_SLLI, RISCV_SRLI, RISCV_SRAI, RISCV_ADD, RISCV_SUB,
      RISCV_SLL, RISCV_SLT, RISCV_SLTU, RISCV_XOR, RISCV_SRL, RISCV_SRA, RISCV_OR, RISCV_AND,
      RISCV_ECALL, RISCV_EBREAK, RISCV_J, RISCV_JR, RISCV_RET, RISCV_MUL, RISCV_DIV]

/-! ## Branch and jump displacements recover the target -/

/-- C9: for an incomplete branch entry (BEQ, BNE, BLT, BGE, BLTU, BGEU) at address A whose
label is a memory symbol of value T, with T - A even and -4096 <= T - A <= 4094, and whose
record obeys the data model (7-bit opcode, 3-bit funct3, 5-bit register indices): after
`calculate_offsets` and `encode_instruction`, the B-type immediate decoded from the word,
sign-extended from 13 bits and added to A, equals T. -/
theorem branch_displacement_recovers_target
    (symtab_head : List symtab_entry_t) (block_list block_list' : List memblock_list_t)
    (i j : Nat) (list : memblock_list_t) (working : mem_entry_t) (inst : instruction_t)
    (name : String) (sym : symtab_entry_t)
    (hrun : calculate_offsets symtab_head block_list = Except.ok block_list')
    (hlist : block_list[i]? = some list) (hworking : list.head[j]? = some working)
    (htype : working.type = type_t.ENTRY_INSTRUCTION)
    (hstat : working.status = status_t.ENTRY_INCOMPLETE)
    (hinst : working.inst = some inst)
    (hid : inst.inst_id ∈ [RISCV_BEQ, RISCV_BNE, RISCV_BLT, RISCV_BGE, RISCV_BLTU,
      RISCV_BGEU])
    (hname : inst.target_name = some name)
    (hsym : symtab_find symtab_head name = some sym)
    (_hmem : sym.type = symtab_type_t.SYMTAB_MEM)
    (hop : inst.opcode < 128) (hf3 : inst.funct3 < 8)
    (hr1 : inst.rsrc1 < 32) (hr2 : inst.rsrc2 < 32)
    (hev : ((sym.value : Int) - working.address) % 2 = 0)
    (hlo : -4096 ≤ (sym.value : Int) - working.address)
    (hhi : (sym.value : Int) - working.address ≤ 4094) :
    ∃ list' working' inst', block_list'[i]? = some list' ∧
      list'.head[j]? = some working' ∧ working'.address = working.address ∧
      working'.inst = some inst' ∧
      (working.address : Int) + signExtend 13 (decode_b_imm (encode_instruction inst'))
        = sym.value := by
  obtain ⟨head', hl', hblock⟩ := calculate_offsets_get symtab_head _ _ hrun i list hlist
  obtain ⟨working', hw', hentry⟩ :=
    calculate_offsets_block_get symtab_head _ _ hblock j working hworking
  have hres := calculate_offsets_entry_branch symtab_head working working' inst name sym
    hentry htype hstat hinst hname hsym hid
  refine ⟨_, working', _, hl', hw', by rw [hres], by rw [hres], ?_⟩
  have e1 := encode_instruction_branch { inst with
    imm := toI32 ((toU64 (toI64 sym.value - working.address) &&& 0x1fff : Nat) : Int) } hid
  have e2 := decode_b_imm_encode { inst with
    imm := toI32 ((toU64 (toI64 sym.value - working.address) &&& 0x1fff : Nat) : Int) }
    hop hf3 hr1 hr2
  have e3 := branch_imm_roundtrip sym.value working.address _ rfl hev hlo hhi
  rw [e1, e2, e3]
  omega

theorem branch_displacement_recovers_target_witness :
    ∃ list' working' inst', ex_block_list_resolved[0]? = some list' ∧
      list'.head[0]? = some working' ∧ working'.address = ex_branch_entry.address ∧
      working'.inst = some inst' ∧
      (ex_branch_entry.address : Int)
        + signExtend 13 (decode_b_imm (encode_instruction inst')) = (0x1008 : Nat) :=
  branch_displacement_recovers_target ex_symtab ex_block_list ex_block_list_resolved 0 0
    { min_address := 0x1000, max_address := 0x1003, head := [ex_branch_entry] }
    ex_branch_entry { ex_beq with imm := 0, target_name := some "done" } "done"
    { name := "done", type := symtab_type_t.SYMTAB_MEM, value := 0x1008 }
    rfl (by decide) (by decide) (by decide) (by decide) (by decide) (by decide)
    (by decide) (by decide) (by decide) (by decide) (by decide) (by decide) (by decide)
    (by decide) (by decide) (by decide)

/-- C10: for an incomplete JAL or J entry at address A whose label is a memory symbol of
value T, with T - A even and -2^20 <= T - A < 2^20, and whose record obeys the data model
(7-bit opcode, 5-bit register index): after `calculate_offsets` and `encode_instruction`,
the J-type immediate decoded from the word, sign-extended from 21 bits and added to A,
equals T. -/
theorem jump_displacement_recovers_target
    (symtab_head : List symtab_entry_t) (block_list block_list' : List memblock_list_t)
    (i j : Nat) (list : memblock_list_t) (working : mem_entry_t) (inst : instruction_t)
    (name : String) (sym : symtab_entry_t)
    (hrun : calculate_offsets symtab_head block_list = Except.ok block_list')
    (hlist : block_list[i]? = some list) (hworking : list.head[j]? = some working)
    (htype : working.type = type_t.ENTRY_INSTRUCTION)
    (hstat : working.status = status_t.ENTRY_INCOMPLETE)
    (hinst : working.inst = some inst)
    (hid : inst.inst_id ∈ [RISCV_JAL, RISCV_J])
    (hname : inst.target_name = some name)
    (hsym : symtab_find symtab_head name = some sym)
    (_hmem : sym.type = symtab_type_t.SYMTAB_MEM)
    (hop : inst.opcode < 128) (hrd : inst.rdst < 32)
    (hev : ((sym.value : Int) - working.address) % 2 = 0)
    (hlo : -2 ^ 20 ≤ (sym.value : Int) - working.address)
    (hhi : (sym.value : Int) - working.address < 2 ^ 20) :
    ∃ list' working' inst', block_list'[i]? = some list' ∧
      list'.head[j]? = some working' ∧ working'.address = working.address ∧
      working'.inst = some inst' ∧
      (working.address : Int) + signExtend 21 (decode_j_imm (encode_instruction inst'))
        = sym.value := by
  obtain ⟨head', hl', hblock⟩ := calculate_offsets_get symtab_head _ _ hrun i list hlist
  obtain ⟨working', hw', hentry⟩ :=
    calculate_offsets_block_get symtab_head _ _ hblock j working hworking
  have hres := calculate_offsets_entry_jump symtab_head working working' inst name sym
    hentry htype hstat hinst hname hsym hid
  refine ⟨_, working', _, hl', hw', by rw [hres], by rw [hres], ?_⟩
  have e1 := encode_instruction_jump { inst with
    imm := toI32 ((toU64 (toI64 sym.value - working.address) : Nat) : Int) } hid
  have e2 := decode_j_imm_encode { inst with
    imm := toI32 ((toU64 (toI64 sym.value - working.address) : Nat) : Int) } hop hrd
  have e3 := jump_imm_roundtrip sym.value working.address _ rfl hev (by omega) (by omega)
  rw [e1, e2, e3]
  omega

theorem jump_displacement_recovers_target_witness :
    ∃ list' working' inst', ex_block_list_resolved[1]? = some list' ∧
      list'.head[0]? = some working' ∧ working'.address = ex_jump_entry.address ∧
      working'.inst = some inst' ∧
      (ex_jump_entry.address : Int)
        + signExtend 21 (decode_j_imm (encode_instruction inst')) = (0x2100 : Nat) :=
  jump_displacement_recovers_target ex_symtab ex_block_list ex_block_list_resolved 1 0
    { min_address := 0x2000, max_address := 0x2003, head := [ex_jump_entry] }
    ex_jump_entry { ex_jal with imm := 0, target_name := some "far" } "far"
    { name := "far", type := symtab_type_t.SYMTAB_MEM, value := 0x2100 }
    rfl (by decide) (by decide) (by decide) (by decide) (by decide) (by decide)
    (by decide) (by decide) (by decide) (by decide) (by decide) (by decide) (by decide)
    (by decide)

/-! ## The address-of pair `LUI`/`ORI` -/

theorem and_0xfffff (u : Nat) : u &&& 0xfffff = u % 1048576 := by
  simpa using and_mask_eq u 0 20

theorem and_0xfff (u : Nat) : u &&& 0xfff = u % 4096 := by
  simpa using and_mask_eq u 0 12

/-- What the pass stores in a LUI entry whose label is a memory symbol. -/
theorem calculate_offsets_entry_lui (symtab_head : List symtab_entry_t)
    (working working' : mem_entry_t) (inst : instruction_t) (name : String)
    (sym : symtab_entry_t)
    (h : calculate_offsets_entry symtab_head working = Except.ok working')
    (htype : working.type = type_t.ENTRY_INSTRUCTION)
    (hstat : working.status = status_t.ENTRY_INCOMPLETE)
    (hinst : working.inst = some inst) (hname : inst.target_name = some name)
    (hsym : symtab_find symtab_head name = some sym)
    (hid : inst.inst_id = RISCV_LUI) :
    0 ≤ toI64 sym.value ∧
    working' = { working with
      inst := some { inst with
        imm := toI32 (((toU64 (toI64 sym.value + sizeof_Elf64_Ehdr + sizeof_Elf64_Phdr)
          >>> 12) &&& 0xfffff : Nat) : Int) }
      status := status_t.ENTRY_COMPLETE } := by
  unfold calculate_offsets_entry at h
  simp only [htype, hstat, and_self, if_true, hinst, hname, symtab_lookup, symtab_type, hsym,
    hid] at h
  split at h
  · cases h
  · split at h
    · cases h
    · rename_i hpos _
      simp only [RISCV_LUI, RISCV_JAL, RISCV_J, RISCV_BEQ, RISCV_BNE, RISCV_BLT, RISCV_BGE,
        RISCV_BLTU, RISCV_BGEU] at h
      norm_num at h
      refine ⟨by omega, ?_⟩
      rw [← h]
      simp [htype, hname, hid, RISCV_LUI]

/-- What the pass stores in an ORI entry whose label is a memory symbol. -/
theorem calculate_offsets_entry_ori (symtab_head : List symtab_entry_t)
    (working working' : mem_entry_t) (inst : instruction_t) (name : String)
    (sym : symtab_entry_t)
    (h : calculate_offsets_entry symtab_head working = Except.ok working')
    (htype : working.type = type_t.ENTRY_INSTRUCTION)
    (hstat : working.status = status_t.ENTRY_INCOMPLETE)
    (hinst : working.inst = some inst) (hname : inst.target_name = some name)
    (hsym : symtab_find symtab_head name = some sym)
    (hid : inst.inst_id = RISCV_ORI) :
    0 ≤ toI64 sym.value ∧
    working' = { working with
      inst := some { inst with
        imm := toI32 ((toU64 (toI64 sym.value + sizeof_Elf64_Ehdr + sizeof_Elf64_Phdr)
          &&& 0xfff : Nat) : Int) }
      status := status_t.ENTRY_COMPLETE } := by
  unfold calculate_offsets_entry at h
  simp only [htype, hstat, and_self, if_true, hinst, hname, symtab_lookup, symtab_type, hsym,
    hid] at h
  split at h
  · cases h
  · split at h
    · cases h
    · rename_i hpos _
      simp only [RISCV_ORI, RISCV_LUI, RISCV_JAL, RISCV_J, RISCV_BEQ, RISCV_BNE, RISCV_BLT,
        RISCV_BGE, RISCV_BLTU, RISCV_BGEU] at h
      norm_num at h
      refine ⟨by omega, ?_⟩
      rw [← h]
      simp [htype, hname, hid, RISCV_ORI]

theorem encode_instruction_lui (inst : instruction_t) (hid : inst.inst_id = RISCV_LUI) :
    encode_instruction inst = encode_u_type inst := by
  unfold encode_instruction
  rw [hid]
  simp

theorem encode_instruction_ori (inst : instruction_t) (hid : inst.inst_id = RISCV_ORI) :
    encode_instruction inst = encode_i_type inst := by
  unfold encode_instruction
  rw [hid]
  simp [RISCV_LUI, RISCV_AUIPC, RISCV_JAL, RISCV_JALR, RISCV_BEQ, RISCV_BNE, RISCV_BLT,
    RISCV_BGE, RISCV_BLTU, RISCV_BGEU, RISCV_LB, RISCV_LH, RISCV_LW, RISCV_LBU, RISCV_LHU,
    RISCV_SB, RISCV_SH, RISCV_SW, RISCV_ADDI, RISCV_SLTI, RISCV_SLTIU, RISCV_XORI,
    RISCV_ORI]

theorem bits_encode_u_type_imm (inst : instruction_t)
    (hop : inst.opcode < 128) (hrd : inst.rdst < 32) :
    bits (encode_u_type inst) 31 12 = toU32 inst.imm % 1048576 := by
  rw [encode_u_type_eq inst hop hrd]
  have hm : toU32 inst.imm % 1048576 < 1048576 := Nat.mod_lt _ (by decide)
  simp only [bits, Nat.shiftRight_eq_div_pow]
  norm_num only
  generalize toU32 inst.imm % 1048576 = m at *
  omega

theorem bits_encode_i_type_imm (inst : instruction_t)
    (hop : inst.opcode < 128) (hf3 : inst.funct3 < 8)
    (hrd : inst.rdst < 32) (hr1 : inst.rsrc1 < 32) :
    bits (encode_i_type inst) 31 20 = toU32 inst.imm % 4096 := by
  rw [encode_i_type_eq inst hop hf3 hrd hr1]
  have hm : toU32 inst.imm % 4096 < 4096 := Nat.mod_lt _ (by decide)
  simp only [bits, Nat.shiftRight_eq_div_pow]
  norm_num only
  generalize toU32 inst.imm % 4096 = m at *
  omega

/-- The two immediates of the address-of pair, read as unsigned 32-bit values. -/
theorem lui_ori_imm (V : Nat) (hpos : 0 ≤ toI64 V) :
    toU32 (toI32 (((toU64 (toI64 V + sizeof_Elf64_Ehdr + sizeof_Elf64_Phdr) >>> 12)
        &&& 0xfffff : Nat) : Int)) = (V % 18446744073709551616 + 120) / 4096 % 1048576 ∧
    toU32 (toI32 ((toU64 (toI64 V + sizeof_Elf64_Ehdr + sizeof_Elf64_Phdr)
        &&& 0xfff : Nat) : Int)) = (V % 18446744073709551616 + 120) % 4096 := by
  have hT := toI64_eq (V : Int)
  have hx := toU64_cast (toI64 (V : Int) + (sizeof_Elf64_Ehdr : Int) + (sizeof_Elf64_Phdr : Int))
  have hX : toU64 (toI64 (V : Int) + (sizeof_Elf64_Ehdr : Int) + (sizeof_Elf64_Phdr : Int))
      = V % 18446744073709551616 + 120 := by
    simp only [sizeof_Elf64_Ehdr, sizeof_Elf64_Phdr] at hx ⊢
    split at hT <;> omega
  rw [hX, and_0xfffff, and_0xfff, Nat.shiftRight_eq_div_pow]
  norm_num only
  constructor
  · have h1 := toI32_eq (((V % 18446744073709551616 + 120) / 4096 % 1048576 : Nat) : Int)
    have h2 := toU32_cast
      (toI32 (((V % 18446744073709551616 + 120) / 4096 % 1048576 : Nat) : Int))
    have hb : (V % 18446744073709551616 + 120) / 4096 % 1048576 < 1048576 :=
      Nat.mod_lt _ (by decide)
    generalize (V % 18446744073709551616 + 120) / 4096 % 1048576 = m at *
    clear hT hx hX
    split at h1 <;> omega
  · have h1 := toI32_eq (((V % 18446744073709551616 + 120) % 4096 : Nat) : Int)
    have h2 := toU32_cast (toI32 (((V % 18446744073709551616 + 120) % 4096 : Nat) : Int))
    have hb : (V % 18446744073709551616 + 120) % 4096 < 4096 := Nat.mod_lt _ (by decide)
    generalize (V % 18446744073709551616 + 120) % 4096 = m at *
    clear hT hx hX
    split at h1 <;> omega

/-- C11, as amended: for a label of memory kind and value V, an incomplete LUI entry and
an incomplete ORI entry that both name it, with records within the data model (7-bit
opcode, 3-bit funct3, 5-bit register indices): after `calculate_offsets` and
`encode_instruction`, (bits [31:12] of the LUI word) * 2^12 + (bits [31:20] of the ORI
word) equals (V + 120) mod 2^32, which is V + 120 whenever V + 120 < 2^32. -/
theorem lui_ori_materialize
    (symtab_head : List symtab_entry_t) (block_list block_list' : List memblock_list_t)
    (i j k l : Nat) (list_u list_o : memblock_list_t) (working_u working_o : mem_entry_t)
    (inst_u inst_o : instruction_t) (name : String) (sym : symtab_entry_t)
    (hrun : calculate_offsets symtab_head block_list = Except.ok block_list')
    (hlist_u : block_list[i]? = some list_u) (hworking_u : list_u.head[j]? = some working_u)
    (hlist_o : block_list[k]? = some list_o) (hworking_o : list_o.head[l]? = some working_o)
    (htype_u : working_u.type = type_t.ENTRY_INSTRUCTION)
    (hstat_u : working_u.status = status_t.ENTRY_INCOMPLETE)
    (hinst_u : working_u.inst = some inst_u) (hid_u : inst_u.inst_id = RISCV_LUI)
    (hname_u : inst_u.target_name = some name)
    (htype_o : working_o.type = type_t.ENTRY_INSTRUCTION)
    (hstat_o : working_o.status = status_t.ENTRY_INCOMPLETE)
    (hinst_o : working_o.inst = some inst_o) (hid_o : inst_o.inst_id = RISCV_ORI)
    (hname_o : inst_o.target_name = some name)
    (hsym : symtab_find symtab_head name = some sym)
    (_hmem : sym.type = symtab_type_t.SYMTAB_MEM)
    (hop_u : inst_u.opcode < 128) (hrd_u : inst_u.rdst < 32)
    (hop_o : inst_o.opcode < 128) (hf3_o : inst_o.funct3 < 8)
    (hrd_o : inst_o.rdst < 32) (hr1_o : inst_o.rsrc1 < 32) :
    ∃ list_u' working_u' inst_u' list_o' working_o' inst_o',
      block_list'[i]? = some list_u' ∧ list_u'.head[j]? = some working_u' ∧
      working_u'.inst = some inst_u' ∧
      block_list'[k]? = some list_o' ∧ list_o'.head[l]? = some working_o' ∧
      working_o'.inst = some inst_o' ∧
      bits (encode_instruction inst_u') 31 12 * 2 ^ 12 + bits (encode_instruction inst_o') 31 20
        = (sym.value + 120) % 2 ^ 32 ∧
      (sym.value + 120 < 2 ^ 32 →
        bits (encode_instruction inst_u') 31 12 * 2 ^ 12
          + bits (encode_instruction inst_o') 31 20 = sym.value + 120) := by
  obtain ⟨head_u, hlu, hblock_u⟩ := calculate_offsets_get symtab_head _ _ hrun i list_u hlist_u
  obtain ⟨wu, hwu, hentry_u⟩ :=
    calculate_offsets_block_get symtab_head _ _ hblock_u j working_u hworking_u
  obtain ⟨head_o, hlo, hblock_o⟩ := calculate_offsets_get symtab_head _ _ hrun k list_o hlist_o
  obtain ⟨wo, hwo, hentry_o⟩ :=
    calculate_offsets_block_get symtab_head _ _ hblock_o l working_o hworking_o
  obtain ⟨hpos, hru⟩ := calculate_offsets_entry_lui symtab_head working_u wu inst_u name sym
    hentry_u htype_u hstat_u hinst_u hname_u hsym hid_u
  obtain ⟨-, hro⟩ := calculate_offsets_entry_ori symtab_head working_o wo inst_o name sym
    hentry_o htype_o hstat_o hinst_o hname_o hsym hid_o
  obtain ⟨hhi, hlow⟩ := lui_ori_imm sym.value hpos
  have eu1 := encode_instruction_lui { inst_u with
    imm := toI32 (((toU64 (toI64 sym.value + sizeof_Elf64_Ehdr + sizeof_Elf64_Phdr)
      >>> 12) &&& 0xfffff : Nat) : Int) } hid_u
  have eu2 := bits_encode_u_type_imm { inst_u with
    imm := toI32 (((toU64 (toI64 sym.value + sizeof_Elf64_Ehdr + sizeof_Elf64_Phdr)
      >>> 12) &&& 0xfffff : Nat) : Int) } hop_u hrd_u
  have eo1 := encode_instruction_ori { inst_o with
    imm := toI32 ((toU64 (toI64 sym.value + sizeof_Elf64_Ehdr + sizeof_Elf64_Phdr)
      &&& 0xfff : Nat) : Int) } hid_o
  have eo2 := bits_encode_i_type_imm { inst_o with
    imm := toI32 ((toU64 (toI64 sym.value + sizeof_Elf64_Ehdr + sizeof_Elf64_Phdr)
      &&& 0xfff : Nat) : Int) } hop_o hf3_o hrd_o hr1_o
  have hsum : bits (encode_instruction { inst_u with
      imm := toI32 (((toU64 (toI64 sym.value + sizeof_Elf64_Ehdr + sizeof_Elf64_Phdr)
        >>> 12) &&& 0xfffff : Nat) : Int) }) 31 12 * 2 ^ 12
      + bits (encode_instruction { inst_o with
      imm := toI32 ((toU64 (toI64 sym.value + sizeof_Elf64_Ehdr + sizeof_Elf64_Phdr)
        &&& 0xfff : Nat) : Int) }) 31 20 = (sym.value + 120) % 2 ^ 32 := by
    rw [eu1, eu2, eo1, eo2]
    simp only [hhi, hlow]
    clear eu1 eu2 eo1 eo2 hhi hlow hru hro
    omega
  refine ⟨_, wu, _, _, wo, _, hlu, hwu, by rw [hru], hlo, hwo, by rw [hro], hsum, ?_⟩
  intro hsmall
  rw [hsum]
  exact Nat.mod_eq_of_lt hsmall

theorem lui_ori_materialize_witness :
    ∃ list_u' working_u' inst_u' list_o' working_o' inst_o',
      (ex_abs_block_list_resolved "msg" 1 0x78)[0]? = some list_u' ∧
      list_u'.head[0]? = some working_u' ∧ working_u'.inst = some inst_u' ∧
      (ex_abs_block_list_resolved "msg" 1 0x78)[0]? = some list_o' ∧
      list_o'.head[1]? = some working_o' ∧ working_o'.inst = some inst_o' ∧
      bits (encode_instruction inst_u') 31 12 * 2 ^ 12 + bits (encode_instruction inst_o') 31 20
        = (0x1000 + 120) % 2 ^ 32 ∧
      (0x1000 + 120 < 2 ^ 32 →
        bits (encode_instruction inst_u') 31 12 * 2 ^ 12
          + bits (encode_instruction inst_o') 31 20 = 0x1000 + 120) :=
  lui_ori_materialize ex_symtab_abs (ex_abs_block_list "msg")
    (ex_abs_block_list_resolved "msg" 1 0x78) 0 0 0 1
    { min_address := 0x2000, max_address := 0x2007,
      head := [ex_lui_entry "msg", ex_ori_entry "msg"] }
    { min_address := 0x2000, max_address := 0x2007,
      head := [ex_lui_entry "msg", ex_ori_entry "msg"] }
    (ex_lui_entry "msg") (ex_ori_entry "msg")
    { ex_lui with imm := 0, target_name := some "msg" }
    { ex_ori with target_name := some "msg" } "msg"
    { name := "msg", type := symtab_type_t.SYMTAB_MEM, value := 0x1000 }
    rfl (by decide) (by decide) (by decide) (by decide) (by decide) (by decide) (by decide)
    (by decide) (by decide) (by decide) (by decide) (by decide) (by decide) (by decide)
    (by decide) (by decide) (by decide) (by decide) (by decide) (by decide) (by decide)
    (by decide)

/-- C11 fails as stated: for the label value V = 2^32 the pass succeeds, the LUI immediate is
0 and the ORI immediate is 0x78, and the sum of the two encoded fields is 0x78, not
V + 120. -/
theorem lui_ori_materialize_counterexample :
    symtab_find ex_symtab_abs "high"
      = some { name := "high", type := symtab_type_t.SYMTAB_MEM, value := 0x100000000 } ∧
    calculate_offsets ex_symtab_abs (ex_abs_block_list "high")
      = Except.ok (ex_abs_block_list_resolved "high" 0 0x78) ∧
    bits (encode_instruction { ex_lui with imm := 0, target_name := some "high" }) 31 12
        * 2 ^ 12
      + bits (encode_instruction { ex_ori with imm := 0x78, target_name := some "high" }) 31 20
      ≠ 0x100000000 + 120 :=
  ⟨rfl, rfl, by decide⟩

/-- C12: scenario E6. With a memory symbol of value 0x1000, an incomplete LUI record
(opcode 0x37, rdst 5) naming it resolves to imm = 1 and encodes to 0x000012B7, and an
incomplete ORI record (opcode 0x13, funct3 6, rdst 5, rsrc1 5) naming it resolves to
imm = 0x078 and encodes to 0x0782E293. -/
theorem scenario_E6 (symtab_head : List symtab_entry_t) (name : String)
    (sym : symtab_entry_t) (min max : Nat) (working_u working_o : mem_entry_t)
    (inst_u inst_o : instruction_t)
    (hsym : symtab_find symtab_head name = some sym)
    (hmem : sym.type = symtab_type_t.SYMTAB_MEM) (hval : sym.value = 0x1000)
    (htype_u : working_u.type = type_t.ENTRY_INSTRUCTION)
    (hstat_u : working_u.status = status_t.ENTRY_INCOMPLETE)
    (hinst_u : working_u.inst = some inst_u) (hid_u : inst_u.inst_id = RISCV_LUI)
    (hname_u : inst_u.target_name = some name)
    (hop_u : inst_u.opcode = 0x37) (hrd_u : inst_u.rdst = 5)
    (htype_o : working_o.type = type_t.ENTRY_INSTRUCTION)
    (hstat_o : working_o.status = status_t.ENTRY_INCOMPLETE)
    (hinst_o : working_o.inst = some inst_o) (hid_o : inst_o.inst_id = RISCV_ORI)
    (hname_o : inst_o.target_name = some name)
    (hop_o : inst_o.opcode = 0x13) (hf3_o : inst_o.funct3 = 6)
    (hrd_o : inst_o.rdst = 5) (hr1_o : inst_o.rsrc1 = 5) :
    calculate_offsets symtab_head
        [{ min_address := min, max_address := max, head := [working_u, working_o] }]
      = Except.ok
        [{ min_address := min, max_address := max,
           head := [ { working_u with
                       inst := some { inst_u with imm := 1 }
                       status := status_t.ENTRY_COMPLETE },
                     { working_o with
                       inst := some { inst_o with imm := 0x078 }
                       status := status_t.ENTRY_COMPLETE } ] }] ∧
    encode_instruction { inst_u with imm := 1 } = 0x000012B7 ∧
    encode_instruction { inst_o with imm := 0x078 } = 0x0782E293 := by
  have hT : toI64 (4096 : Int) = 4096 := by decide
  have hlui : toI32 (((toU64 ((4096 : Int) + sizeof_Elf64_Ehdr + sizeof_Elf64_Phdr) >>> 12)
      &&& 0xfffff : Nat) : Int) = 1 := by decide
  have hori : toI32 ((toU64 ((4096 : Int) + sizeof_Elf64_Ehdr + sizeof_Elf64_Phdr)
      &&& 0xfff : Nat) : Int) = 0x078 := by decide
  have hu : calculate_offsets_entry symtab_head working_u
      = Except.ok { working_u with
          inst := some { inst_u with imm := 1 }
          status := status_t.ENTRY_COMPLETE } := by
    unfold calculate_offsets_entry
    simp only [htype_u, hstat_u, and_self, if_true, hinst_u, hname_u, symtab_lookup,
      symtab_type, hsym, hmem, hval, hid_u, Nat.cast_ofNat, hT, hlui]
    simp [RISCV_LUI, RISCV_JAL, RISCV_J, RISCV_BEQ, RISCV_BNE, RISCV_BLT, RISCV_BGE,
      RISCV_BLTU, RISCV_BGEU]
  have ho : calculate_offsets_entry symtab_head working_o
      = Except.ok { working_o with
          inst := some { inst_o with imm := 0x078 }
          status := status_t.ENTRY_COMPLETE } := by
    unfold calculate_offsets_entry
    simp only [htype_o, hstat_o, and_self, if_true, hinst_o, hname_o, symtab_lookup,
      symtab_type, hsym, hmem, hval, hid_o, Nat.cast_ofNat, hT, hori]
    simp [RISCV_ORI, RISCV_LUI, RISCV_JAL, RISCV_J, RISCV_BEQ, RISCV_BNE, RISCV_BLT,
      RISCV_BGE, RISCV_BLTU, RISCV_BGEU]
  refine ⟨?_, ?_, ?_⟩
  · simp only [calculate_offsets, calculate_offsets_block, hu, ho]
  · rw [encode_instruction_lui { inst_u with imm := 1 } hid_u]
    simp only [encode_u_type, hop_u, hrd_u]
    decide
  · rw [encode_instruction_ori { inst_o with imm := 0x078 } hid_o]
    simp only [encode_i_type, hop_o, hf3_o, hrd_o, hr1_o]
    decide

theorem scenario_E6_witness :
    calculate_offsets ex_symtab_abs
        [{ min_address := 0x2000, max_address := 0x2007,
           head := [ex_lui_entry "msg", ex_ori_entry "msg"] }]
      = Except.ok
        [{ min_address := 0x2000, max_address := 0x2007,
           head := [ { ex_lui_entry "msg" with
                       inst := some { ex_lui with imm := 1, target_name := some "msg" }
                       status := status_t.ENTRY_COMPLETE },
                     { ex_ori_entry "msg" with
                       inst := some { ex_ori with imm := 0x078, target_name := some "msg" }
                       status := status_t.ENTRY_COMPLETE } ] }] ∧
    encode_instruction { ex_lui with imm := 1, target_name := some "msg" } = 0x000012B7 ∧
    encode_instruction { ex_ori with imm := 0x078, target_name := some "msg" } = 0x0782E293 :=
  scenario_E6 ex_symtab_abs "msg"
    { name := "msg", type := symtab_type_t.SYMTAB_MEM, value := 0x1000 } 0x2000 0x2007
    (ex_lui_entry "msg") (ex_ori_entry "msg")
    { ex_lui with imm := 0, target_name := some "msg" }
    { ex_ori with target_name := some "msg" }
    rfl rfl rfl rfl rfl rfl rfl rfl rfl rfl rfl rfl rfl rfl rfl rfl rfl rfl rfl

/-! ## When the displacement pass ends in the error sink -/

theorem calculate_offsets_error_of_entry (symtab_head : List symtab_entry_t)
    (bl : List memblock_list_t) (i j : Nat) (list : memblock_list_t) (working : mem_entry_t)
    (f : failure) (hlist : bl[i]? = some list) (hworking : list.head[j]? = some working)
    (h : calculate_offsets_entry symtab_head working = Except.error f) :
    ∃ f', calculate_offsets symtab_head bl = Except.error f' := by
  cases hrun : calculate_offsets symtab_head bl with
  | error f' => exact ⟨f', rfl⟩
  | ok bl' =>
    obtain ⟨head', -, hblock⟩ := calculate_offsets_get symtab_head _ _ hrun i list hlist
    obtain ⟨w', -, hentry⟩ :=
      calculate_offsets_block_get symtab_head _ _ hblock j working hworking
    rw [h] at hentry
    cases hentry

theorem calculate_offsets_entry_dispatch (symtab_head : List symtab_entry_t)
    (working : mem_entry_t) (inst : instruction_t) (name : String) (sym : symtab_entry_t)
    (htype : working.type = type_t.ENTRY_INSTRUCTION)
    (hstat : working.status = status_t.ENTRY_INCOMPLETE)
    (hinst : working.inst = some inst) (hname : inst.target_name = some name)
    (hsym : symtab_find symtab_head name = some sym)
    (hmem : sym.type = symtab_type_t.SYMTAB_MEM) (hval : sym.value < 2 ^ 63) :
    (inst.inst_id ∉ [RISCV_JAL, RISCV_J, RISCV_BEQ, RISCV_BNE, RISCV_BLT, RISCV_BGE,
        RISCV_BLTU, RISCV_BGEU, RISCV_LUI, RISCV_ORI] →
      ∃ msg, calculate_offsets_entry symtab_head working
        = Except.error (failure.fatal msg)) ∧
    (inst.inst_id ∈ [RISCV_JAL, RISCV_J, RISCV_BEQ, RISCV_BNE, RISCV_BLT, RISCV_BGE,
        RISCV_BLTU, RISCV_BGEU, RISCV_LUI, RISCV_ORI] →
      ∃ working', calculate_offsets_entry symtab_head working = Except.ok working') := by
  have hT := toI64_eq (sym.value : Int)
  have hpos : ¬ toI64 (sym.value : Int) < 0 := by
    have h63 : (sym.value : Int) < 9223372036854775808 := by
      have : (2 : Nat) ^ 63 = 9223372036854775808 := by norm_num
      omega
    split at hT <;> omega
  unfold calculate_offsets_entry
  simp only [htype, hstat, and_self, if_true, hinst, hname, symtab_lookup, symtab_type, hsym,
    hmem, if_neg hpos, ne_eq, not_true_eq_false, if_false]
  simp only [List.mem_cons, List.mem_singleton, List.not_mem_nil, or_false, not_or]
  constructor
  · rintro ⟨h1, h2, h3, h4, h5, h6, h7, h8, h9, h10⟩
    simp only [h1, h2, h3, h4, h5, h6, h7, h8, h9, h10, or_self, if_false]
    exact ⟨_, rfl⟩
  · intro h
    repeat' split
    all_goals first
      | exact ⟨_, rfl⟩
      | (exfalso; simp_all)

theorem calculate_offsets_entry_skip (symtab_head : List symtab_entry_t)
    (working : mem_entry_t)
    (h : ¬ (working.type = type_t.ENTRY_INSTRUCTION ∧
      working.status = status_t.ENTRY_INCOMPLETE)) :
    calculate_offsets_entry symtab_head working = Except.ok working := by
  unfold calculate_offsets_entry
  rw [if_neg h]

theorem calculate_offsets_block_ok (symtab_head : List symtab_entry_t) :
    ∀ (l : List mem_entry_t),
      (∀ w ∈ l, ∃ w', calculate_offsets_entry symtab_head w = Except.ok w') →
      ∃ l', calculate_offsets_block symtab_head l = Except.ok l' := by
  intro l
  induction l with
  | nil => intro _; exact ⟨[], rfl⟩
  | cons w next ih =>
    intro hall
    obtain ⟨w', hw⟩ := hall w (List.mem_cons_self _ _)
    obtain ⟨next', hn⟩ := ih (fun x hx => hall x (List.mem_cons_of_mem _ hx))
    exact ⟨w' :: next', by simp only [calculate_offsets_block, hw, hn]⟩

theorem calculate_offsets_ok (symtab_head : List symtab_entry_t) :
    ∀ (bl : List memblock_list_t),
      (∀ list ∈ bl, ∀ w ∈ list.head,
        ∃ w', calculate_offsets_entry symtab_head w = Except.ok w') →
      ∃ bl', calculate_offsets symtab_head bl = Except.ok bl' := by
  intro bl
  induction bl with
  | nil => intro _; exact ⟨[], rfl⟩
  | cons b next ih =>
    intro hall
    obtain ⟨head', hb⟩ := calculate_offsets_block_ok symtab_head b.head
      (hall b (List.mem_cons_self _ _))
    obtain ⟨next', hn⟩ := ih (fun x hx => hall x (List.mem_cons_of_mem _ hx))
    exact ⟨{ b with head := head' } :: next', by simp only [calculate_offsets, hb, hn]⟩

/-- C14: for an incomplete instruction entry whose target resolves to a memory symbol (a
symbol of memory kind whose value `symtab_lookup` returns as a non-negative number, that
is a value below 2^63): when its inst_id is not one of JAL, J, BEQ, BNE, BLT, BGE, BLTU,
BGEU, LUI, ORI the step on it is a call of `yyerror` and the pass does not return; when
it is one of the ten the step is never fatal. A block list in which every incomplete
instruction entry is of the second kind passes. -/
theorem calculate_offsets_accepts_ten_ids (symtab_head : List symtab_entry_t)
    (block_list : List memblock_list_t) (i j : Nat) (list : memblock_list_t)
    (working : mem_entry_t) (inst : instruction_t) (name : String) (sym : symtab_entry_t)
    (hlist : block_list[i]? = some list) (hworking : list.head[j]? = some working)
    (htype : working.type = type_t.ENTRY_INSTRUCTION)
    (hstat : working.status = status_t.ENTRY_INCOMPLETE)
    (hinst : working.inst = some inst) (hname : inst.target_name = some name)
    (hsym : symtab_find symtab_head name = some sym)
    (hmem : sym.type = symtab_type_t.SYMTAB_MEM) (hval : sym.value < 2 ^ 63) :
    (inst.inst_id ∉ [RISCV_JAL, RISCV_J, RISCV_BEQ, RISCV_BNE, RISCV_BLT, RISCV_BGE,
        RISCV_BLTU, RISCV_BGEU, RISCV_LUI, RISCV_ORI] →
      (∃ msg, calculate_offsets_entry symtab_head working
        = Except.error (failure.fatal msg)) ∧
      ∃ f, calculate_offsets symtab_head block_list = Except.error f) ∧
    (inst.inst_id ∈ [RISCV_JAL, RISCV_J, RISCV_BEQ, RISCV_BNE, RISCV_BLT, RISCV_BGE,
        RISCV_BLTU, RISCV_BGEU, RISCV_LUI, RISCV_ORI] →
      ∃ working', calculate_offsets_entry symtab_head working = Except.ok working') ∧
    ((∀ list ∈ block_list, ∀ w ∈ list.head, w.type = type_t.ENTRY_INSTRUCTION →
        w.status = status_t.ENTRY_INCOMPLETE →
        ∃ inst name sym, w.inst = some inst ∧ inst.target_name = some name ∧
          symtab_find symtab_head name = some sym ∧
          sym.type = symtab_type_t.SYMTAB_MEM ∧ sym.value < 2 ^ 63 ∧
          inst.inst_id ∈ [RISCV_JAL, RISCV_J, RISCV_BEQ, RISCV_BNE, RISCV_BLT, RISCV_BGE,
            RISCV_BLTU, RISCV_BGEU, RISCV_LUI, RISCV_ORI]) →
      ∃ block_list', calculate_offsets symtab_head block_list = Except.ok block_list') := by
  obtain ⟨hno, hyes⟩ := calculate_offsets_entry_dispatch symtab_head working inst name sym
    htype hstat hinst hname hsym hmem hval
  refine ⟨?_, hyes, ?_⟩
  · intro hid
    obtain ⟨msg, hmsg⟩ := hno hid
    exact ⟨⟨msg, hmsg⟩, calculate_offsets_error_of_entry symtab_head block_list i j list
      working _ hlist hworking hmsg⟩
  · intro hall
    apply calculate_offsets_ok
    intro l hl w hw
    by_cases hc : w.type = type_t.ENTRY_INSTRUCTION ∧ w.status = status_t.ENTRY_INCOMPLETE
    · obtain ⟨inst', name', sym', h1, h2, h3, h4, h5, h6⟩ := hall l hl w hw hc.1 hc.2
      exact (calculate_offsets_entry_dispatch symtab_head w inst' name' sym'
        hc.1 hc.2 h1 h2 h3 h4 h5).2 h6
    · exact ⟨w, calculate_offsets_entry_skip symtab_head w hc⟩

theorem calculate_offsets_accepts_ten_ids_witness :
    (∃ msg, calculate_offsets_entry ex_symtab ex_addi_entry
      = Except.error (failure.fatal msg)) ∧
    ∃ f, calculate_offsets ex_symtab
      [{ min_address := 0x3000, max_address := 0x3003, head := [ex_addi_entry] }]
      = Except.error f :=
  (calculate_offsets_accepts_ten_ids ex_symtab
    [{ min_address := 0x3000, max_address := 0x3003, head := [ex_addi_entry] }] 0 0
    { min_address := 0x3000, max_address := 0x3003, head := [ex_addi_entry] }
    ex_addi_entry { ex_addi with target_name := some "done" } "done"
    { name := "done", type := symtab_type_t.SYMTAB_MEM, value := 0x1008 }
    (by decide) (by decide) (by decide) (by decide) (by decide) (by decide) (by decide)
    (by decide) (by decide)).1 (by decide)

/-! ## What the displacement pass leaves unchanged -/

/-- C15: when `calculate_offsets` succeeds, every entry that was not an instruction or
already had status complete is the same entry afterwards, at the same place of the same
block: status, type, name, address, size, payload and instruction record are unchanged,
whatever its target_name or inst_id. -/
theorem calculate_offsets_skips_entry (symtab_head : List symtab_entry_t)
    (block_list block_list' : List memblock_list_t) (i j : Nat) (list : memblock_list_t)
    (working : mem_entry_t)
    (hrun : calculate_offsets symtab_head block_list = Except.ok block_list')
    (hlist : block_list[i]? = some list) (hworking : list.head[j]? = some working)
    (hskip : working.type ≠ type_t.ENTRY_INSTRUCTION ∨
      working.status = status_t.ENTRY_COMPLETE) :
    ∃ list', block_list'[i]? = some list' ∧ list'.head[j]? = some working ∧
      list'.min_address = list.min_address ∧ list'.max_address = list.max_address := by
  obtain ⟨head', hl', hblock⟩ := calculate_offsets_get symtab_head _ _ hrun i list hlist
  obtain ⟨working', hw', hentry⟩ :=
    calculate_offsets_block_get symtab_head _ _ hblock j working hworking
  have hc : ¬ (working.type = type_t.ENTRY_INSTRUCTION ∧
      working.status = status_t.ENTRY_INCOMPLETE) := by
    rintro ⟨h1, h2⟩
    rcases hskip with h | h
    · exact h h1
    · rw [h2] at h
      cases h
  rw [calculate_offsets_entry_skip symtab_head working hc] at hentry
  cases hentry
  exact ⟨_, hl', hw', rfl, rfl⟩

theorem calculate_offsets_skips_entry_witness :
    ∃ list', ex_mixed_block_list_resolved[0]? = some list' ∧
      list'.head[1]? = some ex_complete_entry ∧
      list'.min_address = 0x0ff8 ∧ list'.max_address = 0x1003 :=
  calculate_offsets_skips_entry ex_symtab ex_mixed_block_list ex_mixed_block_list_resolved
    0 1
    { min_address := 0x0ff8, max_address := 0x1003,
      head := [ex_data_entry, ex_complete_entry, ex_branch_entry] }
    ex_complete_entry rfl (by decide) (by decide) (Or.inr (by decide))

/-- The step on an incomplete instruction entry, when it succeeds, writes `imm` in the
record and `status` in the entry and nothing else. -/
theorem calculate_offsets_entry_resolved (symtab_head : List symtab_entry_t)
    (working working' : mem_entry_t)
    (h : calculate_offsets_entry symtab_head working = Except.ok working')
    (htype : working.type = type_t.ENTRY_INSTRUCTION)
    (hstat : working.status = status_t.ENTRY_INCOMPLETE) :
    ∃ inst imm', working.inst = some inst ∧
      working' = { working with
        inst := some { inst with imm := imm' }
        status := status_t.ENTRY_COMPLETE } := by
  unfold calculate_offsets_entry at h
  simp only [htype, hstat, and_self, if_true] at h
  cases hi : working.inst with
  | none => rw [hi] at h; cases h
  | some inst =>
    rw [hi] at h
    cases hn : inst.target_name with
    | none => simp only [hn] at h; cases h
    | some name =>
      simp only [hn] at h
      repeat' split at h
      all_goals cases h
      all_goals exact ⟨inst, _, rfl, by rw [htype, hn]⟩

/-- C16, as amended: for every instruction entry that `calculate_offsets` resolves, the
only things changed are the record's imm and the entry's status, and with imm the low
32 bits of target_address, which is a member of the same union as imm. The record's
target_name, inst_id, opcode, funct3, funct7, rdst, rsrc1, rsrc2 and the upper 32 bits of
target_address keep the values they had before the pass, and so do the entry's type, name,
address, size and payload. -/
theorem calculate_offsets_writes_imm_and_status (symtab_head : List symtab_entry_t)
    (block_list block_list' : List memblock_list_t) (i j : Nat) (list : memblock_list_t)
    (working : mem_entry_t)
    (hrun : calculate_offsets symtab_head block_list = Except.ok block_list')
    (hlist : block_list[i]? = some list) (hworking : list.head[j]? = some working)
    (htype : working.type = type_t.ENTRY_INSTRUCTION)
    (hstat : working.status = status_t.ENTRY_INCOMPLETE) :
    ∃ list' working' inst inst', block_list'[i]? = some list' ∧
      list'.head[j]? = some working' ∧
      working.inst = some inst ∧ working'.inst = some inst' ∧
      working'.status = status_t.ENTRY_COMPLETE ∧
      working'.type = working.type ∧ working'.name = working.name ∧
      working'.address = working.address ∧ working'.size = working.size ∧
      working'.ivalue = working.ivalue ∧
      inst'.target_name = inst.target_name ∧ inst'.inst_id = inst.inst_id ∧
      inst'.opcode = inst.opcode ∧ inst'.funct3 = inst.funct3 ∧
      inst'.funct7 = inst.funct7 ∧ inst'.rdst = inst.rdst ∧
      inst'.rsrc1 = inst.rsrc1 ∧ inst'.rsrc2 = inst.rsrc2 ∧
      inst'.target_address_hi = inst.target_address_hi ∧
      inst'.target_address = inst.target_address_hi * 2 ^ 32 + toU32 inst'.imm := by
  obtain ⟨head', hl', hblock⟩ := calculate_offsets_get symtab_head _ _ hrun i list hlist
  obtain ⟨working', hw', hentry⟩ :=
    calculate_offsets_block_get symtab_head _ _ hblock j working hworking
  obtain ⟨inst, imm', hinst, hres⟩ :=
    calculate_offsets_entry_resolved symtab_head working working' hentry htype hstat
  refine ⟨_, working', inst, { inst with imm := imm' }, hl', hw', hinst, ?_⟩
  subst hres
  simp [instruction_t.target_address]

theorem calculate_offsets_writes_imm_and_status_witness :
    ∃ list' working' inst inst', ex_block_list_resolved[1]? = some list' ∧
      list'.head[0]? = some working' ∧
      ex_jump_entry.inst = some inst ∧ working'.inst = some inst' ∧
      working'.status = status_t.ENTRY_COMPLETE ∧
      working'.type = ex_jump_entry.type ∧ working'.name = ex_jump_entry.name ∧
      working'.address = ex_jump_entry.address ∧ working'.size = ex_jump_entry.size ∧
      working'.ivalue = ex_jump_entry.ivalue ∧
      inst'.target_name = inst.target_name ∧ inst'.inst_id = inst.inst_id ∧
      inst'.opcode = inst.opcode ∧ inst'.funct3 = inst.funct3 ∧
      inst'.funct7 = inst.funct7 ∧ inst'.rdst = inst.rdst ∧
      inst'.rsrc1 = inst.rsrc1 ∧ inst'.rsrc2 = inst.rsrc2 ∧
      inst'.target_address_hi = inst.target_address_hi ∧
      inst'.target_address = inst.target_address_hi * 2 ^ 32 + toU32 inst'.imm :=
  calculate_offsets_writes_imm_and_status ex_symtab ex_block_list ex_block_list_resolved 1 0
    { min_address := 0x2000, max_address := 0x2003, head := [ex_jump_entry] } ex_jump_entry
    rfl (by decide) (by decide) (by decide) (by decide)

/-- C16 fails as stated: the pass on the incomplete JAL entry at 0x2000 with label
`far` = 0x2100 succeeds and writes imm = 0x100; target_address, which was 0 before the
pass, is 0x100 after it. -/
theorem calculate_offsets_target_address_counterexample :
    ∃ list list' working working' inst inst',
      calculate_offsets ex_symtab ex_block_list = Except.ok ex_block_list_resolved ∧
      ex_block_list[1]? = some list ∧ list.head[0]? = some working ∧
      working.type = type_t.ENTRY_INSTRUCTION ∧
      working.status = status_t.ENTRY_INCOMPLETE ∧ working.inst = some inst ∧
      ex_block_list_resolved[1]? = some list' ∧ list'.head[0]? = some working' ∧
      working'.inst = some inst' ∧
      inst.target_address = 0 ∧ inst'.target_address = 0x100 ∧
      inst'.target_address ≠ inst.target_address :=
  ⟨_, _, _, _, _, _, rfl, rfl, rfl, rfl, rfl, rfl, rfl, rfl, rfl, by decide, by decide,
    by decide⟩

/-! ## The bounds recorded by `add_memblock` -/

theorem add_memblock_last_eq (first : mem_entry_t) (rest : List mem_entry_t) :
    add_memblock_last first rest = (first :: rest).getLast (List.cons_ne_nil first rest) := by
  induction rest generalizing first with
  | nil => rfl
  | cons next rest ih =>
    rw [add_memblock_last, ih next, List.getLast_cons (List.cons_ne_nil next rest)]

theorem u64_end (t s : Nat) (h : 0 < t) :
    u64_sub (u64_add t s) 1 = (t + s - 1) % 2 ^ 64 := by
  unfold u64_sub u64_add
  norm_num only
  omega

/-- C17: `add_memblock` records, for an empty list, min_address = max_address = 0; for a
non-empty list with head address h and last entry at address t with size s, min_address =
h and max_address = t + s - 1 (in `uint64_t` arithmetic, so t + s - 1 itself when the
entry ends within the 64-bit address space) if h < t, min_address = max_address = h if
h = t, and the call is fatal if t < h. The new block goes behind the existing ones. -/
theorem add_memblock_bounds (block_list : List memblock_list_t) (first last : mem_entry_t)
    (rest : List mem_entry_t)
    (hlast : last = (first :: rest).getLast (List.cons_ne_nil first rest)) :
    add_memblock block_list []
      = Except.ok (block_list ++ [{ min_address := 0, max_address := 0, head := [] }]) ∧
    (first.address < last.address →
      add_memblock block_list (first :: rest)
        = Except.ok (block_list ++
            [{ min_address := first.address,
               max_address := (last.address + last.size - 1) % 2 ^ 64,
               head := first :: rest }])) ∧
    (first.address < last.address → last.address + last.size ≤ 2 ^ 64 →
      add_memblock block_list (first :: rest)
        = Except.ok (block_list ++
            [{ min_address := first.address,
               max_address := last.address + last.size - 1,
               head := first :: rest }])) ∧
    (first.address = last.address →
      add_memblock block_list (first :: rest)
        = Except.ok (block_list ++
            [{ min_address := first.address, max_address := first.address,
               head := first :: rest }])) ∧
    (last.address < first.address →
      ∃ msg, add_memblock block_list (first :: rest)
        = Except.error (failure.fatal msg)) := by
  have hl : add_memblock_last first rest = last := by
    rw [hlast]; exact add_memblock_last_eq first rest
  refine ⟨rfl, ?_, ?_, ?_, ?_⟩
  · intro h
    simp only [add_memblock, hl, if_pos h, u64_end last.address last.size (by omega)]
  · intro h hfit
    have hmod : (last.address + last.size - 1) % 2 ^ 64 = last.address + last.size - 1 :=
      Nat.mod_eq_of_lt (by omega)
    simp only [add_memblock, hl, if_pos h, u64_end last.address last.size (by omega), hmod]
  · intro h
    simp only [add_memblock, hl, ← h, lt_self_iff_false, if_false, if_true]
  · intro h
    have hn : ¬ first.address < last.address := by omega
    have hne : ¬ first.address = last.address := by omega
    simp only [add_memblock, hl, if_neg hn, if_neg hne]
    exact ⟨_, rfl⟩

theorem add_memblock_bounds_witness :
    add_memblock [] []
      = Except.ok ([] ++ [{ min_address := 0, max_address := 0, head := [] }]) ∧
    add_memblock [] ex_code_list
      = Except.ok ([] ++ [{ min_address := 0x1000, max_address := 0x1004 + 4 - 1,
                            head := ex_code_list }]) :=
  ⟨(add_memblock_bounds [] ex_sub_entry ex_ret_entry [ex_ret_entry] rfl).1,
   (add_memblock_bounds [] ex_sub_entry ex_ret_entry [ex_ret_entry] rfl).2.2.1
     (by decide) (by decide)⟩

/-! ## What `check_mem_bounds` checks -/

theorem check_mem_bounds_pair_ok_iff (a b : memblock_list_t) (same : Bool) :
    check_mem_bounds_pair a b same = Except.ok () ↔
      ¬ (same = false ∧ a.min_address ≠ a.max_address ∧ b.min_address ≠ b.max_address ∧
        a.min_address ≤ b.min_address ∧ b.min_address ≤ a.max_address) := by
  unfold check_mem_bounds_pair
  split
  · rename_i h1
    split
    · rename_i h2
      split
      · rename_i h3
        simp only [reduceCtorEq, false_iff, not_not]
        exact ⟨h1.1, h1.2.1, h1.2.2, h2, h3⟩
      · rename_i h3
        simp only [true_iff]
        rintro ⟨-, -, -, -, h⟩
        exact h3 h
    · rename_i h2
      simp only [true_iff]
      rintro ⟨-, -, -, h, -⟩
      exact h2 h
  · rename_i h1
    simp only [true_iff]
    rintro ⟨h, h', h'', -, -⟩
    exact h1 ⟨h, h', h''⟩

theorem check_mem_bounds_inner_ok_iff (check : memblock_list_t) (check_pos : Nat) :
    ∀ (l : List memblock_list_t) (pos : Nat),
      check_mem_bounds_inner check check_pos l pos = Except.ok () ↔
        ∀ (k : Nat) (b : memblock_list_t), l[k]? = some b →
          check_mem_bounds_pair check b (check_pos == pos + k) = Except.ok () := by
  intro l
  induction l with
  | nil =>
    intro pos
    simp [check_mem_bounds_inner]
  | cons w next ih =>
    intro pos
    unfold check_mem_bounds_inner
    cases hp : check_mem_bounds_pair check w (check_pos == pos) with
    | error f =>
      simp only [reduceCtorEq, false_iff]
      intro hall
      have := hall 0 w (by simp)
      rw [Nat.add_zero, hp] at this
      cases this
    | ok u =>
      simp only
      rw [ih (pos + 1)]
      constructor
      · intro hall k b hk
        cases k with
        | zero =>
          simp only [List.getElem?_cons_zero, Option.some.injEq] at hk
          subst hk
          rw [Nat.add_zero, hp]
        | succ k =>
          simp only [List.getElem?_cons_succ] at hk
          have := hall k b hk
          rwa [Nat.add_assoc, Nat.add_comm 1 k] at this
      · intro hall k b hk
        have := hall (k + 1) b (by simpa using hk)
        rwa [Nat.add_assoc, Nat.add_comm 1 k]

theorem check_mem_bounds_outer_ok_iff (block_list : List memblock_list_t) :
    ∀ (l : List memblock_list_t) (pos : Nat),
      check_mem_bounds_outer block_list l pos = Except.ok () ↔
        ∀ (k : Nat) (a : memblock_list_t), l[k]? = some a →
          check_mem_bounds_inner a (pos + k) block_list 0 = Except.ok () := by
  intro l
  induction l with
  | nil =>
    intro pos
    simp [check_mem_bounds_outer]
  | cons c next ih =>
    intro pos
    unfold check_mem_bounds_outer
    cases hp : check_mem_bounds_inner c pos block_list 0 with
    | error f =>
      simp only [reduceCtorEq, false_iff]
      intro hall
      have := hall 0 c (by simp)
      rw [Nat.add_zero, hp] at this
      cases this
    | ok u =>
      simp only
      rw [ih (pos + 1)]
      constructor
      · intro hall k a hk
        cases k with
        | zero =>
          simp only [List.getElem?_cons_zero, Option.some.injEq] at hk
          subst hk
          rw [Nat.add_zero, hp]
        | succ k =>
          simp only [List.getElem?_cons_succ] at hk
          have := hall k a hk
          rwa [Nat.add_assoc, Nat.add_comm 1 k] at this
      · intro hall k a hk
        have := hall (k + 1) a (by simpa using hk)
        rwa [Nat.add_assoc, Nat.add_comm 1 k]

/-- `check_mem_bounds` passes exactly when no ordered pair of distinct nodes, both of
nonzero span, has the second block's min_address within the first block's bounds. -/
theorem check_mem_bounds_ok_iff (block_list : List memblock_list_t) :
    check_mem_bounds block_list = Except.ok () ↔
      ∀ (i j : Nat) (a b : memblock_list_t), block_list[i]? = some a →
        block_list[j]? = some b → i ≠ j →
        a.min_address ≠ a.max_address → b.min_address ≠ b.max_address →
        a.min_address ≤ b.min_address → ¬ b.min_address ≤ a.max_address := by
  unfold check_mem_bounds
  rw [check_mem_bounds_outer_ok_iff]
  constructor
  · intro hall i j a b hi hj hne ha hb hle hcon
    have h1 := hall i a hi
    rw [check_mem_bounds_inner_ok_iff] at h1
    have h2 := h1 j b hj
    rw [check_mem_bounds_pair_ok_iff] at h2
    apply h2
    refine ⟨?_, ha, hb, hle, hcon⟩
    simp only [Nat.zero_add, beq_eq_false_iff_ne, ne_eq]
    exact hne
  · intro hall i a hi
    rw [check_mem_bounds_inner_ok_iff]
    intro j b hj
    rw [check_mem_bounds_pair_ok_iff]
    rintro ⟨hs, ha, hb, hle, hcon⟩
    simp only [Nat.zero_add, beq_eq_false_iff_ne, ne_eq] at hs
    exact hall i j a b hi hj hs ha hb hle hcon

/-- C18: for a block list in which every block has min_address <= max_address,
`check_mem_bounds` passes if and only if every two distinct blocks that both have nonzero
span (min_address != max_address) have disjoint ranges [min_address, max_address]. -/
theorem check_mem_bounds_iff_disjoint (block_list : List memblock_list_t)
    (hwf : ∀ b ∈ block_list, b.min_address ≤ b.max_address) :
    check_mem_bounds block_list = Except.ok () ↔
      ∀ (i j : Nat) (a b : memblock_list_t), block_list[i]? = some a →
        block_list[j]? = some b → i ≠ j →
        a.min_address ≠ a.max_address → b.min_address ≠ b.max_address →
        ¬ ∃ x, a.min_address ≤ x ∧ x ≤ a.max_address ∧
          b.min_address ≤ x ∧ x ≤ b.max_address := by
  rw [check_mem_bounds_ok_iff]
  constructor
  · rintro hall i j a b hi hj hne ha hb ⟨x, h1, h2, h3, h4⟩
    by_cases hle : a.min_address ≤ b.min_address
    · exact hall i j a b hi hj hne ha hb hle (by omega)
    · exact hall j i b a hj hi (Ne.symm hne) hb ha (by omega) (by omega)
  · intro hall i j a b hi hj hne ha hb hle hcon
    have hbwf := hwf b (List.getElem?_mem hj)
    exact hall i j a b hi hj hne ha hb ⟨b.min_address, hle, hcon, le_refl _, hbwf⟩

theorem check_mem_bounds_iff_disjoint_witness :
    check_mem_bounds ex_two_blocks = Except.ok () ↔
      ∀ (i j : Nat) (a b : memblock_list_t), ex_two_blocks[i]? = some a →
        ex_two_blocks[j]? = some b → i ≠ j →
        a.min_address ≠ a.max_address → b.min_address ≠ b.max_address →
        ¬ ∃ x, a.min_address ≤ x ∧ x ≤ a.max_address ∧
          b.min_address ≤ x ∧ x ≤ b.max_address :=
  check_mem_bounds_iff_disjoint ex_two_blocks (by decide)

/-- C19, as amended: after `check_mem_bounds` passes on a block list (any block list, so
also one built by `add_memblock`), no two distinct blocks that both have nonzero span
(min_address != max_address) have intersecting ranges [min_address, max_address]. -/
theorem check_mem_bounds_nonzero_span_disjoint (block_list : List memblock_list_t)
    (i j : Nat) (a b : memblock_list_t)
    (hpass : check_mem_bounds block_list = Except.ok ())
    (hi : block_list[i]? = some a) (hj : block_list[j]? = some b) (hne : i ≠ j)
    (ha : a.min_address ≠ a.max_address) (hb : b.min_address ≠ b.max_address) :
    ¬ ∃ x, a.min_address ≤ x ∧ x ≤ a.max_address ∧
      b.min_address ≤ x ∧ x ≤ b.max_address := by
  rw [check_mem_bounds_ok_iff] at hpass
  rintro ⟨x, h1, h2, h3, h4⟩
  by_cases hle : a.min_address ≤ b.min_address
  · exact hpass i j a b hi hj hne ha hb hle (by omega)
  · exact hpass j i b a hj hi (Ne.symm hne) hb ha (by omega) (by omega)

theorem check_mem_bounds_nonzero_span_disjoint_witness :
    add_memblock [] ex_code_list
      = Except.ok [{ min_address := 0x1000, max_address := 0x1007, head := ex_code_list }] ∧
    add_memblock [{ min_address := 0x1000, max_address := 0x1007, head := ex_code_list }]
        [ex_lui_entry "msg", ex_ori_entry "msg"] = Except.ok ex_two_blocks ∧
    ¬ ∃ x, 0x1000 ≤ x ∧ x ≤ 0x1007 ∧ 0x2000 ≤ x ∧ x ≤ 0x2007 :=
  ⟨rfl, rfl,
   check_mem_bounds_nonzero_span_disjoint ex_two_blocks 0 1
    { min_address := 0x1000, max_address := 0x1007, head := ex_code_list }
    { min_address := 0x2000, max_address := 0x2007,
      head := [ex_lui_entry "msg", ex_ori_entry "msg"] }
    rfl (by decide) (by decide) (by decide) (by decide) (by decide)⟩

/-- C19 fails as stated: `add_memblock` builds the block [0x1000, 0x1007] from two
instructions and the block [0x1004, 0x1004] from a lone definition marker;
`check_mem_bounds` passes on the two, and both ranges contain 0x1004. -/
theorem check_mem_bounds_zero_span_counterexample :
    ∃ bl1 bl2 a b x,
      add_memblock [] ex_code_list = Except.ok bl1 ∧
      add_memblock bl1 [ex_def_entry] = Except.ok bl2 ∧
      check_mem_bounds bl2 = Except.ok () ∧
      bl2[0]? = some a ∧ bl2[1]? = some b ∧
      a.min_address = 0x1000 ∧ a.max_address = 0x1007 ∧
      b.min_address = 0x1004 ∧ b.max_address = 0x1004 ∧
      a.min_address ≤ x ∧ x ≤ a.max_address ∧ b.min_address ≤ x ∧ x ≤ b.max_address :=
  ⟨_, _, _, _, 0x1004, rfl, rfl, rfl, rfl, rfl, rfl, rfl, rfl, rfl,
    by decide, by decide, by decide, by decide⟩

/-! ## Declaring a symbol -/

theorem symtab_new_found_iff (name : String) :
    ∀ (l : List symtab_entry_t) (found : Bool),
      symtab_new_found l name found = true ↔ found = true ∨ ∃ e ∈ l, e.name = name := by
  intro l
  induction l with
  | nil => intro found; simp [symtab_new_found]
  | cons w next ih =>
    intro found
    rw [symtab_new_found, ih]
    by_cases hw : name = w.name
    · simp [hw]
    · have hw' : ¬ w.name = name := fun h => hw h.symm
      simp [hw, hw']

/-- C21 fails on the code: `symtab_new` on the empty table with the fresh name `x`
succeeds, and `symtab_lookup` then returns what the allocated memory held, here 7,
because `symtab_new` never assigns the new entry's `value`. -/
theorem symtab_new_value_unassigned :
    (symtab_new [] "x" symtab_type_t.SYMTAB_MEM 7).1 = Except.ok () ∧
    symtab_lookup (symtab_new [] "x" symtab_type_t.SYMTAB_MEM 7).2 "x" = 7 :=
  ⟨rfl, by decide⟩

theorem symtab_find_update_set (name : String) (value : Nat) (other : String) :
    ∀ (l : List symtab_entry_t),
      symtab_find (symtab_update_set l name value) other
        = if other = name then
            (symtab_find l name).map (fun e => { e with value := value })
          else symtab_find l other := by
  intro l
  induction l with
  | nil => simp [symtab_update_set, symtab_find]
  | cons w next ih =>
    unfold symtab_update_set
    by_cases hw : name = w.name
    · by_cases ho : other = name
      · simp [hw, ho, symtab_find]
      · have ho' : ¬ other = w.name := by rw [← hw]; exact ho
        simp [hw, ho, ho', symtab_find]
    · by_cases ho : other = name
      · subst ho
        simp [hw, symtab_find, ih]
      · simp only [hw, if_false, symtab_find, ih, ho]

/-- C22, as amended: for a declared name and a 64-bit value v, `symtab_update(name, v)`
succeeds and afterwards `symtab_lookup(name)` returns v converted to `int64_t`, which is
v itself when v < 2^63 and the negative number v - 2^64 otherwise (the 64-bit word is v
in both cases); `symtab_type(name)` returns the kind it returned before, and
`symtab_lookup` and `symtab_type` of every other name are unchanged. -/
theorem symtab_update_spec (symtab_head : List symtab_entry_t) (name : String) (v : Nat)
    (entry : symtab_entry_t) (hdecl : symtab_find symtab_head name = some entry)
    (hv : v < 2 ^ 64) :
    (symtab_update symtab_head name v).1 = Except.ok () ∧
    toU64 (symtab_lookup (symtab_update symtab_head name v).2 name) = v ∧
    (v < 2 ^ 63 → symtab_lookup (symtab_update symtab_head name v).2 name = v) ∧
    (2 ^ 63 ≤ v →
      symtab_lookup (symtab_update symtab_head name v).2 name = (v : Int) - 2 ^ 64) ∧
    symtab_type (symtab_update symtab_head name v).2 name = some entry.type ∧
    symtab_type symtab_head name = some entry.type ∧
    ∀ other, other ≠ name →
      symtab_lookup (symtab_update symtab_head name v).2 other
        = symtab_lookup symtab_head other ∧
      symtab_type (symtab_update symtab_head name v).2 other
        = symtab_type symtab_head other := by
  have hfst : (symtab_update symtab_head name v).1 = Except.ok () := by
    simp [symtab_update, hdecl]
  have hsnd : (symtab_update symtab_head name v).2 = symtab_update_set symtab_head name v := by
    simp [symtab_update, hdecl]
  have hself := symtab_find_update_set name v name symtab_head
  simp only [if_true, hdecl, Option.map_some'] at hself
  have h64 : (2 : Nat) ^ 64 = 18446744073709551616 := by norm_num
  have h63 : (2 : Nat) ^ 63 = 9223372036854775808 := by norm_num
  refine ⟨hfst, ?_, ?_, ?_, ?_, ?_, ?_⟩
  · rw [hsnd]
    simp only [symtab_lookup, hself]
    have h1 := toU64_cast (toI64 (v : Int))
    have h2 := toI64_eq (v : Int)
    split at h2 <;> omega
  · intro hsmall
    rw [hsnd]
    simp only [symtab_lookup, hself]
    have h2 := toI64_eq (v : Int)
    split at h2 <;> omega
  · intro hbig
    rw [hsnd]
    simp only [symtab_lookup, hself]
    have h2 := toI64_eq (v : Int)
    have h64' : (2 : Int) ^ 64 = 18446744073709551616 := by norm_num
    rw [h64']
    split at h2 <;> omega
  · rw [hsnd]
    simp only [symtab_type, hself]
  · simp only [symtab_type, hdecl]
  · intro other hne
    rw [hsnd]
    have ho := symtab_find_update_set name v other symtab_head
    rw [if_neg hne] at ho
    simp only [symtab_lookup, symtab_type, ho, and_self]

theorem symtab_update_spec_witness :
    (symtab_update ex_symtab "done" 0x2000).1 = Except.ok () ∧
    toU64 (symtab_lookup (symtab_update ex_symtab "done" 0x2000).2 "done") = 0x2000 ∧
    (0x2000 < 2 ^ 63 →
      symtab_lookup (symtab_update ex_symtab "done" 0x2000).2 "done" = (0x2000 : Nat)) ∧
    (2 ^ 63 ≤ 0x2000 →
      symtab_lookup (symtab_update ex_symtab "done" 0x2000).2 "done"
        = ((0x2000 : Nat) : Int) - 2 ^ 64) ∧
    symtab_type (symtab_update ex_symtab "done" 0x2000).2 "done"
      = some symtab_type_t.SYMTAB_MEM ∧
    symtab_type ex_symtab "done" = some symtab_type_t.SYMTAB_MEM ∧
    ∀ other, other ≠ "done" →
      symtab_lookup (symtab_update ex_symtab "done" 0x2000).2 other
        = symtab_lookup ex_symtab other ∧
      symtab_type (symtab_update ex_symtab "done" 0x2000).2 other
        = symtab_type ex_symtab other :=
  symtab_update_spec ex_symtab "done" 0x2000
    { name := "done", type := symtab_type_t.SYMTAB_MEM, value := 0x1008 }
    (by decide) (by decide)

/-- C22 fails as stated: `top` is declared, 2^63 is a 64-bit value, the update succeeds,
and `symtab_lookup` then returns -2^63, which is not the stored value 2^63. -/
theorem symtab_update_sign_counterexample :
    symtab_find ex_symtab_top "top"
      = some { name := "top", type := symtab_type_t.SYMTAB_MEM, value := 0 } ∧
    (2 : Nat) ^ 63 < 2 ^ 64 ∧
    (symtab_update ex_symtab_top "top" (2 ^ 63)).1 = Except.ok () ∧
    symtab_lookup (symtab_update ex_symtab_top "top" (2 ^ 63)).2 "top" = -2 ^ 63 ∧
    symtab_lookup (symtab_update ex_symtab_top "top" (2 ^ 63)).2 "top"
      ≠ (((2 : Nat) ^ 63 : Nat) : Int) :=
  ⟨by decide, by decide, rfl, by decide, by decide⟩

/-- C23 fails on the code: the table holds the name `top` with the stored value 2^63, yet
`symtab_lookup` returns a negative number for it, as it does for the absent name `x`. -/
theorem symtab_lookup_negative_present :
    symtab_find [{ name := "top", type := symtab_type_t.SYMTAB_MEM, value := 2 ^ 63 }] "top"
      = some { name := "top", type := symtab_type_t.SYMTAB_MEM, value := 2 ^ 63 } ∧
    symtab_lookup [{ name := "top", type := symtab_type_t.SYMTAB_MEM, value := 2 ^ 63 }] "top"
      = -2 ^ 63 ∧
    symtab_lookup [{ name := "top", type := symtab_type_t.SYMTAB_MEM, value := 2 ^ 63 }] "top"
      < 0 ∧
    symtab_lookup [{ name := "top", type := symtab_type_t.SYMTAB_MEM, value := 2 ^ 63 }] "x"
      = -1 := by
  decide

theorem symtab_update_set_names (name : String) (value : Nat) :
    ∀ (l : List symtab_entry_t),
      (symtab_update_set l name value).map (fun e => e.name) = l.map (fun e => e.name) := by
  intro l
  induction l with
  | nil => rfl
  | cons w next ih =>
    unfold symtab_update_set
    by_cases hw : name = w.name
    · simp [hw]
    · simp [hw, ih]

theorem symtab_call_run_nodup (symtab_head : List symtab_entry_t) (call : symtab_call)
    (h : (symtab_head.map (fun e => e.name)).Nodup) :
    ((symtab_call.run symtab_head call).map (fun e => e.name)).Nodup := by
  cases call with
  | new name entry_type uninit =>
    have hf := symtab_new_found_iff name symtab_head false
    simp only [Bool.false_eq_true, false_or] at hf
    simp only [symtab_call.run, symtab_new]
    cases hfound : symtab_new_found symtab_head name false with
    | true => simpa using h
    | false =>
      have hnot : ¬ ∃ e ∈ symtab_head, e.name = name := by
        intro hex
        rw [hf.mpr hex] at hfound
        cases hfound
      simp only [Bool.false_eq_true, if_false, List.map_cons, List.nodup_cons]
      refine ⟨?_, h⟩
      intro hmem
      rw [List.mem_map] at hmem
      exact hnot hmem
  | update name value =>
    simp only [symtab_call.run, symtab_update]
    cases symtab_find symtab_head name with
    | none => simpa using h
    | some e => simpa [symtab_update_set_names] using h

/-- C24: starting from the empty symbol table, after any sequence of `symtab_new` and
`symtab_update` calls, a fatal call leaving the table as it was, the names of the entries
in the table are pairwise distinct. -/
theorem symtab_names_distinct (calls : List symtab_call) :
    ((symtab_run calls []).map (fun e => e.name)).Nodup := by
  have key : ∀ (cs : List symtab_call) (tab : List symtab_entry_t),
      (tab.map (fun e => e.name)).Nodup →
      ((symtab_run cs tab).map (fun e => e.name)).Nodup := by
    intro cs
    induction cs with
    | nil => intro tab h; exact h
    | cons c rest ih =>
      intro tab h
      exact ih _ (symtab_call_run_nodup tab c h)
  exact key calls [] (by simp)

/-! ## `encode_instructions` -/

theorem encode_instructions_block_get :
    ∀ (l l' : List mem_entry_t), encode_instructions_block l = Except.ok l' →
      l'.length = l.length ∧
      ∀ (j : Nat) (working : mem_entry_t), l[j]? = some working →
        ∃ working', l'[j]? = some working' ∧
          encode_instructions_entry working = Except.ok working' := by
  intro l
  induction l with
  | nil =>
    intro l' h
    cases h
    exact ⟨rfl, fun j working hj => by simp at hj⟩
  | cons w next ih =>
    intro l' h
    unfold encode_instructions_block at h
    cases hw : encode_instructions_entry w with
    | error f => rw [hw] at h; cases h
    | ok w' =>
      rw [hw] at h
      cases hn : encode_instructions_block next with
      | error f => rw [hn] at h; cases h
      | ok next' =>
        rw [hn] at h
        cases h
        obtain ⟨hlen, hget⟩ := ih next' hn
        refine ⟨by simp [hlen], ?_⟩
        intro j working hj
        cases j with
        | zero =>
          simp only [List.getElem?_cons_zero, Option.some.injEq] at hj
          subst hj
          exact ⟨w', by simp, hw⟩
        | succ j =>
          simp only [List.getElem?_cons_succ] at hj
          obtain ⟨working', h1, h2⟩ := hget j working hj
          exact ⟨working', by simpa using h1, h2⟩

theorem encode_instructions_get :
    ∀ (bl bl' : List memblock_list_t), encode_instructions bl = Except.ok bl' →
      bl'.length = bl.length ∧
      ∀ (i : Nat) (list : memblock_list_t), bl[i]? = some list →
        ∃ head', bl'[i]? = some { list with head := head' } ∧
          encode_instructions_block list.head = Except.ok head' := by
  intro bl
  induction bl with
  | nil =>
    intro bl' h
    cases h
    exact ⟨rfl, fun i list hi => by simp at hi⟩
  | cons b next ih =>
    intro bl' h
    unfold encode_instructions at h
    cases hb : encode_instructions_block b.head with
    | error f => rw [hb] at h; cases h
    | ok head' =>
      rw [hb] at h
      cases hn : encode_instructions next with
      | error f => rw [hn] at h; cases h
      | ok next' =>
        rw [hn] at h
        cases h
        obtain ⟨hlen, hget⟩ := ih next' hn
        refine ⟨by simp [hlen], ?_⟩
        intro i list hi
        cases i with
        | zero =>
          simp only [List.getElem?_cons_zero, Option.some.injEq] at hi
          subst hi
          exact ⟨head', by simp, hb⟩
        | succ i =>
          simp only [List.getElem?_cons_succ] at hi
          obtain ⟨head'', h1, h2⟩ := hget i list hi
          exact ⟨head'', by simpa using h1, h2⟩

theorem encode_instructions_block_ok :
    ∀ (l : List mem_entry_t),
      (∀ w ∈ l, w.type = type_t.ENTRY_INSTRUCTION → w.inst ≠ none) →
      ∃ l', encode_instructions_block l = Except.ok l' := by
  intro l
  induction l with
  | nil => intro _; exact ⟨[], rfl⟩
  | cons w next ih =>
    intro hall
    obtain ⟨next', hn⟩ := ih (fun x hx => hall x (List.mem_cons_of_mem _ hx))
    have hw : ∃ w', encode_instructions_entry w = Except.ok w' := by
      unfold encode_instructions_entry
      split
      · rename_i ht
        have := hall w (List.mem_cons_self _ _) ht
        cases hi : w.inst with
        | none => exact absurd hi this
        | some inst => exact ⟨_, rfl⟩
      · exact ⟨_, rfl⟩
    obtain ⟨w', hw⟩ := hw
    exact ⟨w' :: next', by simp only [encode_instructions_block, hw, hn]⟩

theorem encode_instructions_ok :
    ∀ (bl : List memblock_list_t),
      (∀ list ∈ bl, ∀ w ∈ list.head, w.type = type_t.ENTRY_INSTRUCTION → w.inst ≠ none) →
      ∃ bl', encode_instructions bl = Except.ok bl' := by
  intro bl
  induction bl with
  | nil => intro _; exact ⟨[], rfl⟩
  | cons b next ih =>
    intro hall
    obtain ⟨head', hb⟩ := encode_instructions_block_ok b.head (hall b (List.mem_cons_self _ _))
    obtain ⟨next', hn⟩ := ih (fun x hx => hall x (List.mem_cons_of_mem _ hx))
    exact ⟨{ b with head := head' } :: next', by simp only [encode_instructions, hb, hn]⟩

theorem shl32_lt (a n : Nat) : shl32 a n < 2 ^ 32 :=
  Nat.mod_lt _ (by norm_num)

theorem shr_le (x n : Nat) : x >>> n ≤ x := by
  rw [Nat.shiftRight_eq_div_pow]
  exact Nat.div_le_self _ _

theorem lor_lt32 (x y : Nat) (hx : x < 2 ^ 32) (hy : y < 2 ^ 32) : x ||| y < 2 ^ 32 :=
  Nat.or_lt_two_pow hx hy

theorem ite_lt32 (c : Prop) [Decidable c] (a b : Nat) (ha : a < 2 ^ 32) (hb : b < 2 ^ 32) :
    (if c then a else b) < 2 ^ 32 := by
  split <;> assumption

/-- The word of `encode_instruction` fits the `uint32_t` it is returned in, the opcode
field being a `uint32_t`. -/
theorem encode_instruction_lt (inst : instruction_t) (h : inst.opcode < 2 ^ 32) :
    encode_instruction inst < 2 ^ 32 := by
  have hu := toU32_lt inst.imm
  have hr : encode_r_type inst < 2 ^ 32 := by
    unfold encode_r_type
    simp only [Nat.zero_or]
    exact lor_lt32 _ _ (lor_lt32 _ _ (lor_lt32 _ _ (lor_lt32 _ _ (lor_lt32 _ _ h
      (shl32_lt _ _)) (shl32_lt _ _)) (shl32_lt _ _)) (shl32_lt _ _)) (shl32_lt _ _)
  have hi : encode_i_type inst < 2 ^ 32 := by
    unfold encode_i_type
    simp only [Nat.zero_or]
    exact lor_lt32 _ _ (lor_lt32 _ _ (lor_lt32 _ _ (lor_lt32 _ _ h
      (shl32_lt _ _)) (shl32_lt _ _)) (shl32_lt _ _)) (shl32_lt _ _)
  have hs : encode_s_type inst < 2 ^ 32 := by
    unfold encode_s_type
    simp only [Nat.zero_or]
    exact lor_lt32 _ _ (lor_lt32 _ _ (lor_lt32 _ _ (lor_lt32 _ _ (lor_lt32 _ _ h
      (shl32_lt _ _)) (shl32_lt _ _)) (shl32_lt _ _)) (shl32_lt _ _)) (shl32_lt _ _)
  have hb : encode_b_type inst < 2 ^ 32 := by
    unfold encode_b_type
    simp only [Nat.zero_or]
    exact lor_lt32 _ _ (lor_lt32 _ _ (lor_lt32 _ _ (lor_lt32 _ _ (lor_lt32 _ _
      (lor_lt32 _ _ (lor_lt32 _ _
        (lt_of_le_of_lt (shr_le _ _) (Nat.and_lt_two_pow _ hu))
      (shl32_lt _ _)) (shl32_lt _ _)) (shl32_lt _ _)) h) (shl32_lt _ _)) (shl32_lt _ _))
      (shl32_lt _ _)
  have hU : encode_u_type inst < 2 ^ 32 := by
    unfold encode_u_type
    simp only [Nat.zero_or]
    exact lor_lt32 _ _ (lor_lt32 _ _ h (shl32_lt _ _)) (shl32_lt _ _)
  have hj : encode_j_type inst < 2 ^ 32 := by
    unfold encode_j_type
    simp only [Nat.zero_or]
    exact lor_lt32 _ _ (lor_lt32 _ _ (lor_lt32 _ _ (lor_lt32 _ _ (lor_lt32 _ _
      (Nat.and_lt_two_pow _ (by norm_num))
      (shl32_lt _ _)) (shl32_lt _ _)) (shl32_lt _ _)) h) (shl32_lt _ _)
  have hz : (0 : Nat) < 2 ^ 32 := by norm_num
  unfold encode_instruction
  generalize encode_r_type inst = r at *
  generalize encode_i_type inst = i at *
  generalize encode_s_type inst = s at *
  generalize encode_b_type inst = b at *
  generalize encode_u_type inst = u at *
  generalize encode_j_type inst = j at *
  repeat (first | assumption | refine ite_lt32 _ _ _ ?_ ?_)

theorem encode_instructions_entry_spec (working working' : mem_entry_t)
    (h : encode_instructions_entry working = Except.ok working') :
    working'.status = working.status ∧ working'.type = working.type ∧
    working'.name = working.name ∧ working'.address = working.address ∧
    working'.size = working.size ∧ working'.inst = working.inst ∧
    (working.type ≠ type_t.ENTRY_INSTRUCTION → working' = working) ∧
    (working.type = type_t.ENTRY_INSTRUCTION →
      ∃ inst, working.inst = some inst ∧
        working'.encoding = encode_instruction inst % 2 ^ 32 ∧
        (inst.opcode < 2 ^ 32 → working'.encoding = encode_instruction inst)) := by
  unfold encode_instructions_entry at h
  by_cases ht : working.type = type_t.ENTRY_INSTRUCTION
  · rw [if_pos ht] at h
    cases hi : working.inst with
    | none => rw [hi] at h; cases h
    | some inst =>
      rw [hi] at h
      cases h
      refine ⟨rfl, rfl, rfl, rfl, rfl, by simp [mem_entry_t.set_encoding, hi],
        fun hne => absurd ht hne, fun _ => ⟨inst, rfl, ?_, ?_⟩⟩
      · simp only [mem_entry_t.encoding, mem_entry_t.set_encoding]
        norm_num only
        omega
      · intro hop
        have hlt := encode_instruction_lt inst hop
        simp only [mem_entry_t.encoding, mem_entry_t.set_encoding]
        norm_num only at hlt ⊢
        omega
  · rw [if_neg ht] at h
    cases h
    exact ⟨rfl, rfl, rfl, rfl, rfl, rfl, fun _ => rfl, fun h => absurd h ht⟩

/-- C25: `encode_instructions` returns whenever every entry of type instruction has a
record, and then, block by block and entry by entry at the same place, it has set the
encoding of every instruction entry to `encode_instruction` of its record (the word as
the 32-bit member holds it, which is the word itself for a `uint32_t` opcode), and has
left every non-instruction entry, its integer value included, every status, type, name,
address, size and instruction record, and the bounds of every block unchanged. -/
theorem encode_instructions_spec (block_list : List memblock_list_t) :
    ((∀ list ∈ block_list, ∀ w ∈ list.head,
        w.type = type_t.ENTRY_INSTRUCTION → w.inst ≠ none) →
      ∃ block_list', encode_instructions block_list = Except.ok block_list') ∧
    ∀ block_list', encode_instructions block_list = Except.ok block_list' →
      block_list'.length = block_list.length ∧
      ∀ (i : Nat) (list : memblock_list_t), block_list[i]? = some list →
        ∃ list', block_list'[i]? = some list' ∧
          list'.min_address = list.min_address ∧ list'.max_address = list.max_address ∧
          list'.head.length = list.head.length ∧
          ∀ (j : Nat) (working : mem_entry_t), list.head[j]? = some working →
            ∃ working', list'.head[j]? = some working' ∧
              working'.status = working.status ∧ working'.type = working.type ∧
              working'.name = working.name ∧ working'.address = working.address ∧
              working'.size = working.size ∧ working'.inst = working.inst ∧
              (working.type ≠ type_t.ENTRY_INSTRUCTION → working' = working) ∧
              (working.type = type_t.ENTRY_INSTRUCTION →
                ∃ inst, working.inst = some inst ∧
                  working'.encoding = encode_instruction inst % 2 ^ 32 ∧
                  (inst.opcode < 2 ^ 32 →
                    working'.encoding = encode_instruction inst)) := by
  refine ⟨encode_instructions_ok block_list, ?_⟩
  intro block_list' hrun
  obtain ⟨hlen, hget⟩ := encode_instructions_get block_list block_list' hrun
  refine ⟨hlen, ?_⟩
  intro i list hi
  obtain ⟨head', hl', hblock⟩ := hget i list hi
  obtain ⟨hlen', hget'⟩ := encode_instructions_block_get list.head head' hblock
  refine ⟨_, hl', rfl, rfl, hlen', ?_⟩
  intro j working hj
  obtain ⟨working', hw', hentry⟩ := hget' j working hj
  exact ⟨working', hw', encode_instructions_entry_spec working working' hentry⟩

theorem encode_instructions_spec_witness :
    ∃ block_list', encode_instructions ex_block_list_resolved = Except.ok block_list' :=
  (encode_instructions_spec ex_block_list_resolved).1 (by decide)

/-! ## The pseudo-instruction `RET` -/

/-- C26, as amended: `encode_instruction` encodes a record whose inst_id is RET with
`encode_i_type`, from the record's own fields; when these are the fields of
JALR x0, x1, 0 (opcode 0x67, funct3 0, rdst 0, rsrc1 1, imm 0) the returned word is
0x00008067. -/
theorem encode_instruction_ret (inst : instruction_t) (hid : inst.inst_id = RISCV_RET) :
    encode_instruction inst = encode_i_type inst ∧
    (inst.opcode = 0x67 → inst.funct3 = 0 → inst.rdst = 0 → inst.rsrc1 = 1 →
      inst.imm = 0 → encode_instruction inst = 0x00008067) := by
  have h : encode_instruction inst = encode_i_type inst := by
    unfold encode_instruction
    rw [hid]
    simp [RISCV_LUI, RISCV_AUIPC, RISCV_JAL, RISCV_JALR, RISCV_BEQ, RISCV_BNE, RISCV_BLT,
      RISCV_BGE, RISCV_BLTU, RISCV_BGEU, RISCV_LB, RISCV_LH, RISCV_LW, RISCV_LBU, RISCV_LHU,
      RISCV_SB, RISCV_SH, RISCV_SW, RISCV_ADDI, RISCV_SLTI, RISCV_SLTIU, RISCV_XORI,
      RISCV_ORI, RISCV_ANDI, RISCV_SLLI, RISCV_SRLI, RISCV_SRAI, RISCV_ADD, RISCV_SUB,
      RISCV_SLL, RISCV_SLT, RISCV_SLTU, RISCV_XOR, RISCV_SRL, RISCV_SRA, RISCV_OR, RISCV_AND,
      RISCV_ECALL, RISCV_EBREAK, RISCV_J, RISCV_JR, RISCV_RET, RISCV_MUL, RISCV_DIV]
  refine ⟨h, ?_⟩
  intro hop hf3 hrd hr1 himm
  rw [h]
  simp only [encode_i_type, hop, hf3, hrd, hr1, himm]
  decide

theorem encode_instruction_ret_witness :
    encode_instruction ex_ret = encode_i_type ex_ret ∧
    (ex_ret.opcode = 0x67 → ex_ret.funct3 = 0 → ex_ret.rdst = 0 → ex_ret.rsrc1 = 1 →
      ex_ret.imm = 0 → encode_instruction ex_ret = 0x00008067) :=
  encode_instruction_ret ex_ret (by decide)

/-- C26 fails as stated: the record with inst_id RET and opcode 0x67 whose other fields
are 0, as `new_instruction` leaves them, is encoded as 0x00000067. -/
theorem encode_instruction_ret_counterexample :
    ex_ret_bare.inst_id = RISCV_RET ∧ encode_instruction ex_ret_bare = 0x00000067 ∧
    encode_instruction ex_ret_bare ≠ 0x00008067 := by
  decide

/-! ## The two writers build the same buffer -/

theorem write_bin_entry_typed_eq (type adj : Nat) (buff : List Nat) (working : mem_entry_t) :
    write_bin_entry_typed type adj buff working
      = write_text_entry_typed type adj buff working := by
  unfold write_bin_entry_typed write_text_entry_typed
  rfl

theorem write_bin_entries_eq (adj : Nat) (entries : List mem_entry_t) :
    ∀ buff : List Nat,
      write_bin_entries adj buff entries = write_text_entries adj buff entries := by
  induction entries with
  | nil => intro buff; rfl
  | cons working rest ih =>
    intro buff
    simp only [write_bin_entries, write_text_entries, write_bin_entry, write_text_entry,
      write_bin_entry_typed_eq]
    cases write_text_entry_typed working.type.toNat adj buff working with
    | error e => rfl
    | ok buff' => exact ih buff'

theorem u64_bytes_length (v : Nat) : (u64_bytes v).length = 8 := by
  simp [u64_bytes]

/-- C27: for every block, `write_bin` builds the same buffer as `write_text`, or ends in
the same way; the bytes it writes to the block's file are the eight bytes of
`adj_start_addr` followed by that buffer, so that dropping the first eight bytes of the
file leaves exactly the buffer that `write_text` builds and then dumps. -/
theorem write_bin_buffer_eq_write_text_buffer (list : memblock_list_t) :
    write_bin_buffer list = write_text_buffer list ∧
    Except.map (List.drop 8) (write_bin_block list) = write_text_buffer list ∧
    Except.map (List.take 8) (write_bin_block list)
      = Except.map (fun _ => u64_bytes (adj_start_addr list)) (write_text_buffer list) ∧
    write_text_block list
      = (write_text_buffer list).bind (write_text_dump (adj_start_addr list)) := by
  have h : write_bin_buffer list = write_text_buffer list :=
    write_bin_entries_eq _ _ _
  refine ⟨h, ?_, ?_, rfl⟩
  · unfold write_bin_block
    rw [h]
    cases write_text_buffer list with
    | error e => rfl
    | ok buff =>
      show Except.ok (List.drop 8 (u64_bytes (adj_start_addr list) ++ buff)) = Except.ok buff
      rw [List.drop_append_of_le_length (by rw [u64_bytes_length])]
      simp [u64_bytes]
  · unfold write_bin_block
    rw [h]
    cases write_text_buffer list with
    | error e => rfl
    | ok buff =>
      show Except.ok (List.take 8 (u64_bytes (adj_start_addr list) ++ buff))
        = Except.ok (u64_bytes (adj_start_addr list))
      rw [List.take_append_of_le_length (by rw [u64_bytes_length])]
      simp [u64_bytes]

/-! ## When the writers call `yyerror` -/

theorem buff_store_not_fatal (buff : List Nat) (idx : Int) (k value : Nat) (msg : String) :
    buff_store buff idx k value ≠ Except.error (emit_failure.fatal msg) := by
  unfold buff_store
  split
  · intro h; cases h
  · intro h; cases h

theorem bind_not_fatal (r : Except emit_failure (List Nat))
    (f : List Nat → Except emit_failure (List Nat))
    (hr : ∀ msg, r ≠ Except.error (emit_failure.fatal msg))
    (hf : ∀ b msg, f b ≠ Except.error (emit_failure.fatal msg)) :
    ∀ msg, r.bind f ≠ Except.error (emit_failure.fatal msg) := by
  intro msg
  cases r with
  | error e => exact hr msg
  | ok b => exact hf b msg

theorem store4_not_fatal (buff : List Nat) (idx : Int) (v0 v1 v2 v3 : Nat) (msg : String) :
    ((buff_store buff idx 0 v0).bind fun buff =>
      (buff_store buff idx 1 v1).bind fun buff =>
      (buff_store buff idx 2 v2).bind fun buff =>
      buff_store buff idx 3 v3) ≠ Except.error (emit_failure.fatal msg) := by
  refine bind_not_fatal _ _ (buff_store_not_fatal _ _ _ _) ?_ msg
  intro b
  refine bind_not_fatal _ _ (buff_store_not_fatal _ _ _ _) ?_
  intro b
  refine bind_not_fatal _ _ (buff_store_not_fatal _ _ _ _) ?_
  intro b msg
  exact buff_store_not_fatal _ _ _ _ _

theorem store2_not_fatal (buff : List Nat) (idx : Int) (v0 v1 : Nat) (msg : String) :
    ((buff_store buff idx 0 v0).bind fun buff =>
      buff_store buff idx 1 v1) ≠ Except.error (emit_failure.fatal msg) := by
  refine bind_not_fatal _ _ (buff_store_not_fatal _ _ _ _) ?_ msg
  intro b msg
  exact buff_store_not_fatal _ _ _ _ _

theorem and_3_eq (a : Nat) : a &&& 3 = a % 4 := Nat.and_pow_two_sub_one_eq_mod a 2

theorem and_1_eq (a : Nat) : a &&& 1 = a % 2 := Nat.and_pow_two_sub_one_eq_mod a 1

theorem write_text_entry_fatal_iff (adj : Nat) (buff : List Nat) (working : mem_entry_t) :
    (∃ msg, write_text_entry adj buff working = Except.error (emit_failure.fatal msg))
      ↔ writer_rejects working := by
  unfold write_text_entry write_text_entry_typed writer_rejects
  cases ht : working.type
  case ENTRY_INSTRUCTION =>
    simp only [type_t.toNat, if_true, and_3_eq, reduceCtorEq, or_false, false_or, true_and,
      false_and, true_or]
    by_cases ha : working.address % 4 = 0
    · simp only [ha, ne_eq, not_true_eq_false, if_false, iff_false, not_exists]
      intro msg
      exact store4_not_fatal _ _ _ _ _ _ msg
    · simp only [ha, ne_eq, not_false_eq_true, if_true, iff_true]
      exact ⟨_, rfl⟩
  case ENTRY_WDATA =>
    simp only [type_t.toNat, if_true, and_3_eq, reduceCtorEq, or_false, false_or, true_and,
      false_and, or_true, Nat.reduceEqDiff, if_false]
    by_cases ha : working.address % 4 = 0
    · simp only [ha, ne_eq, not_true_eq_false, if_false, iff_false, not_exists]
      intro msg
      exact store4_not_fatal _ _ _ _ _ _ msg
    · simp only [ha, ne_eq, not_false_eq_true, if_true, iff_true]
      exact ⟨_, rfl⟩
  case ENTRY_HDATA =>
    simp only [type_t.toNat, if_true, and_1_eq, reduceCtorEq, or_false, false_or, true_and,
      false_and, or_true, Nat.reduceEqDiff, if_false]
    by_cases ha : working.address % 2 = 0
    · simp only [ha, ne_eq, not_true_eq_false, if_false, iff_false, not_exists]
      intro msg
      exact store2_not_fatal _ _ _ _ msg
    · simp only [ha, ne_eq, not_false_eq_true, if_true, iff_true]
      exact ⟨_, rfl⟩
  case ENTRY_BDATA =>
    simp only [type_t.toNat, if_true, reduceCtorEq, or_false, false_or,
      false_and, Nat.reduceEqDiff, if_false, iff_false, not_exists]
    intro msg
    exact buff_store_not_fatal _ _ _ _ msg
  all_goals simp [type_t.toNat]

theorem write_text_dump_loop_acc (adj : Nat) (bytes : List Nat) :
    ∀ (i : Nat) (out : String),
      write_text_dump_loop adj i bytes out = out ++ write_text_dump_loop adj i bytes "" := by
  induction bytes with
  | nil => intro i out; simp [write_text_dump_loop]
  | cons b rest ih =>
    intro i out
    have hk : ∀ T : String, write_text_dump_loop adj (i + 1) rest (out ++ T)
        = out ++ write_text_dump_loop adj (i + 1) rest T := by
      intro T
      rw [ih (i + 1) (out ++ T), ih (i + 1) T, String.append_assoc]
    simp only [write_text_dump_loop]
    split_ifs <;> simp only [String.append_assoc, String.empty_append, hk]

theorem and_15_eq (a : Nat) : a &&& 15 = a % 16 := Nat.and_pow_two_sub_one_eq_mod a 4

theorem string_join_cons (x : String) (xs : List String) :
    String.join (x :: xs) = x ++ String.join xs := by
  have h : ∀ (l : List String) (a : String),
      List.foldl (fun r s => r ++ s) a l = a ++ List.foldl (fun r s => r ++ s) "" l := by
    intro l
    induction l with
    | nil => intro a; simp
    | cons y ys ih =>
      intro a
      simp only [List.foldl_cons]
      rw [ih (a ++ y), ih ("" ++ y), String.empty_append, String.append_assoc]
  unfold String.join
  simp only [List.foldl_cons]
  rw [h xs ("" ++ x), String.empty_append]

theorem write_text_dump_loop_line (adj m : Nat)
    (b0 b1 b2 b3 b4 b5 b6 b7 b8 b9 b10 b11 b12 b13 b14 b15 : Nat) (rest : List Nat) :
    write_text_dump_loop adj (16 * m)
        (b0 :: b1 :: b2 :: b3 :: b4 :: b5 :: b6 :: b7 :: b8 :: b9 :: b10 :: b11 :: b12 ::
          b13 :: b14 :: b15 :: rest) ""
      = text_line (u64_add adj (16 * m))
          [b0, b1, b2, b3, b4, b5, b6, b7, b8, b9, b10, b11, b12, b13, b14, b15]
        ++ write_text_dump_loop adj (16 * (m + 1)) rest "" := by
  have e1 : ∀ k, k < 16 → (16 * m + k) % 16 = k := by intro k hk; omega
  have e0 : (16 * m) % 16 = 0 := by omega
  simp only [write_text_dump_loop, and_15_eq, Nat.add_assoc, Nat.reduceAdd, e0,
    e1 1 (by omega), e1 2 (by omega), e1 3 (by omega), e1 4 (by omega), e1 5 (by omega),
    e1 6 (by omega), e1 7 (by omega), e1 8 (by omega), e1 9 (by omega), e1 10 (by omega),
    e1 11 (by omega), e1 12 (by omega), e1 13 (by omega), e1 14 (by omega),
    e1 15 (by omega), Nat.reduceEqDiff, if_true, if_false, text_line, List.map_cons, List.map_nil, string_join_cons,
    String.append_assoc, String.empty_append]
  conv_lhs => rw [write_text_dump_loop_acc]
  simp only [String.join, List.foldl_nil, String.append_assoc, String.empty_append,
    Nat.mul_add, Nat.mul_one]

theorem list_cons_of_length {l : List Nat} {n : Nat} (h : l.length = n + 1) :
    ∃ b t, l = b :: t ∧ t.length = n := by
  cases l with
  | nil => cases h
  | cons b t => exact ⟨b, t, rfl, by simpa using h⟩

theorem drop_16_cons (k : Nat)
    (b0 b1 b2 b3 b4 b5 b6 b7 b8 b9 b10 b11 b12 b13 b14 b15 : Nat) (rest : List Nat) :
    List.drop (16 * (k + 1))
        (b0 :: b1 :: b2 :: b3 :: b4 :: b5 :: b6 :: b7 :: b8 :: b9 :: b10 :: b11 :: b12 ::
          b13 :: b14 :: b15 :: rest)
      = List.drop (16 * k) rest := by
  have h : 16 * (k + 1) = 16 * k + 1 + 1 + 1 + 1 + 1 + 1 + 1 + 1 + 1 + 1 + 1 + 1 + 1 + 1
      + 1 + 1 := by omega
  rw [h]
  simp only [List.drop_succ_cons]

theorem write_text_dump_loop_lines (adj : Nat) (n : Nat) :
    ∀ (m : Nat) (buff : List Nat), buff.length = 16 * n →
      write_text_dump_loop adj (16 * m) buff ""
        = String.join ((List.range n).map fun k =>
            text_line (u64_add adj (16 * (m + k))) ((buff.drop (16 * k)).take 16)) := by
  induction n with
  | zero =>
    intro m buff h
    have hnil : buff = [] := List.length_eq_zero.1 (by simpa using h)
    subst hnil
    rfl
  | succ n ih =>
    intro m buff h
    obtain ⟨b0, t, rfl, h0⟩ := list_cons_of_length (show buff.length = (16 * n + 15) + 1 by omega)
    obtain ⟨b1, t, rfl, h1⟩ := list_cons_of_length (show t.length = (16 * n + 14) + 1 from h0)
    obtain ⟨b2, t, rfl, h2⟩ := list_cons_of_length (show t.length = (16 * n + 13) + 1 from h1)
    obtain ⟨b3, t, rfl, h3⟩ := list_cons_of_length (show t.length = (16 * n + 12) + 1 from h2)
    obtain ⟨b4, t, rfl, h4⟩ := list_cons_of_length (show t.length = (16 * n + 11) + 1 from h3)
    obtain ⟨b5, t, rfl, h5⟩ := list_cons_of_length (show t.length = (16 * n + 10) + 1 from h4)
    obtain ⟨b6, t, rfl, h6⟩ := list_cons_of_length (show t.length = (16 * n + 9) + 1 from h5)
    obtain ⟨b7, t, rfl, h7⟩ := list_cons_of_length (show t.length = (16 * n + 8) + 1 from h6)
    obtain ⟨b8, t, rfl, h8⟩ := list_cons_of_length (show t.length = (16 * n + 7) + 1 from h7)
    obtain ⟨b9, t, rfl, h9⟩ := list_cons_of_length (show t.length = (16 * n + 6) + 1 from h8)
    obtain ⟨b10, t, rfl, h10⟩ := list_cons_of_length (show t.length = (16 * n + 5) + 1 from h9)
    obtain ⟨b11, t, rfl, h11⟩ := list_cons_of_length (show t.length = (16 * n + 4) + 1 from h10)
    obtain ⟨b12, t, rfl, h12⟩ := list_cons_of_length (show t.length = (16 * n + 3) + 1 from h11)
    obtain ⟨b13, t, rfl, h13⟩ := list_cons_of_length (show t.length = (16 * n + 2) + 1 from h12)
    obtain ⟨b14, t, rfl, h14⟩ := list_cons_of_length (show t.length = (16 * n + 1) + 1 from h13)
    obtain ⟨b15, rest, rfl, h15⟩ := list_cons_of_length (show t.length = (16 * n + 0) + 1 from h14)
    rw [write_text_dump_loop_line, ih (m + 1) rest h15, List.range_succ_eq_map, List.map_cons,
      string_join_cons, List.map_map]
    have hfun : (fun k => text_line (u64_add adj (16 * (m + 1 + k)))
          (List.take 16 (List.drop (16 * k) rest)))
        = ((fun k => text_line (u64_add adj (16 * (m + k)))
            (List.take 16 (List.drop (16 * k)
              (b0 :: b1 :: b2 :: b3 :: b4 :: b5 :: b6 :: b7 :: b8 :: b9 :: b10 :: b11 ::
                b12 :: b13 :: b14 :: b15 :: rest)))) ∘ Nat.succ) := by
      funext k
      simp only [Function.comp, Nat.succ_eq_add_one, drop_16_cons]
      rw [show m + 1 + k = m + (k + 1) by omega]
    rw [hfun]
    rfl

/-! ## The buffer of a block -/

theorem buff_store_length (buff buff' : List Nat) (idx : Int) (k value : Nat)
    (h : buff_store buff idx k value = Except.ok buff') : buff'.length = buff.length := by
  unfold buff_store at h
  split at h
  · cases h
    exact List.length_set _ _ _
  · cases h

theorem bind_store_length (r : Except emit_failure (List Nat))
    (f : List Nat → Except emit_failure (List Nat)) (n : Nat) (buff' : List Nat)
    (hr : ∀ b, r = Except.ok b → b.length = n)
    (hf : ∀ b b', b.length = n → f b = Except.ok b' → b'.length = n)
    (h : r.bind f = Except.ok buff') : buff'.length = n := by
  cases r with
  | error e => cases h
  | ok b => exact hf b buff' (hr b rfl) h

theorem store4_length (buff buff' : List Nat) (idx : Int) (v0 v1 v2 v3 : Nat)
    (h : ((buff_store buff idx 0 v0).bind fun buff =>
      (buff_store buff idx 1 v1).bind fun buff =>
      (buff_store buff idx 2 v2).bind fun buff =>
      buff_store buff idx 3 v3) = Except.ok buff') : buff'.length = buff.length := by
  refine bind_store_length _ _ _ _ (fun b hb => buff_store_length _ _ _ _ _ hb) ?_ h
  intro b b' hb h
  refine bind_store_length _ _ _ _ (fun c hc => (buff_store_length _ _ _ _ _ hc).trans hb)
    ?_ h
  intro b b' hb h
  refine bind_store_length _ _ _ _ (fun c hc => (buff_store_length _ _ _ _ _ hc).trans hb)
    ?_ h
  intro b b' hb h
  exact (buff_store_length _ _ _ _ _ h).trans hb

theorem store2_length (buff buff' : List Nat) (idx : Int) (v0 v1 : Nat)
    (h : ((buff_store buff idx 0 v0).bind fun buff =>
      buff_store buff idx 1 v1) = Except.ok buff') : buff'.length = buff.length := by
  refine bind_store_length _ _ _ _ (fun b hb => buff_store_length _ _ _ _ _ hb) ?_ h
  intro b b' hb h
  exact (buff_store_length _ _ _ _ _ h).trans hb

theorem write_text_entry_length (adj : Nat) (buff buff' : List Nat) (working : mem_entry_t)
    (h : write_text_entry adj buff working = Except.ok buff') :
    buff'.length = buff.length := by
  unfold write_text_entry write_text_entry_typed at h
  cases ht : working.type <;> rw [ht] at h <;> simp only [type_t.toNat, if_true,
    Nat.reduceEqDiff, if_false, or_false, or_true, true_or] at h
  case ENTRY_DEFINITION => cases h; rfl
  case ENTRY_JOIN_NODE => cases h; rfl
  case ENTRY_INSTRUCTION =>
    split at h
    · cases h
    · exact store4_length _ _ _ _ _ _ _ h
  case ENTRY_BDATA => exact buff_store_length _ _ _ _ _ h
  case ENTRY_HDATA =>
    split at h
    · cases h
    · exact store2_length _ _ _ _ _ h
  case ENTRY_WDATA =>
    split at h
    · cases h
    · exact store4_length _ _ _ _ _ _ _ h
  all_goals cases h

theorem write_text_entries_length (adj : Nat) (entries : List mem_entry_t) :
    ∀ buff buff' : List Nat, write_text_entries adj buff entries = Except.ok buff' →
      buff'.length = buff.length := by
  induction entries with
  | nil => intro buff buff' h; cases h; rfl
  | cons working rest ih =>
    intro buff buff' h
    unfold write_text_entries at h
    cases hstep : write_text_entry adj buff working with
    | error e => rw [hstep] at h; cases h
    | ok buff1 =>
      rw [hstep] at h
      exact (ih buff1 buff' h).trans (write_text_entry_length adj buff buff1 working hstep)

theorem and_align16 (x : Nat) : x &&& 0xFFFFFFFFFFFFFFF0 = x / 16 % 2 ^ 60 * 16 := by
  have h := and_mask_eq x 4 60
  norm_num only at h ⊢
  exact h

theorem adj_span_dvd (list : memblock_list_t) :
    16 ∣ u64_sub (adj_end_addr list) (adj_start_addr list) := by
  unfold adj_end_addr adj_start_addr u64_sub
  rw [and_align16, and_align16]
  generalize u64_add list.max_address 16 / 16 % 2 ^ 60 = a
  generalize list.min_address / 16 % 2 ^ 60 = b
  norm_num only
  omega

theorem write_text_buffer_length (list : memblock_list_t) (buff : List Nat)
    (h : write_text_buffer list = Except.ok buff) :
    buff.length = u64_sub (adj_end_addr list) (adj_start_addr list) := by
  unfold write_text_buffer at h
  rw [write_text_entries_length _ _ _ _ h, List.length_replicate]

theorem store_bytes_length (buff : List Nat) (p v n : Nat) :
    (store_bytes buff p v n).length = buff.length := by
  induction n with
  | zero => rfl
  | succ n ih => simp only [store_bytes, List.length_set, ih]

theorem store_bytes_get (buff : List Nat) (p v n q : Nat) :
    (store_bytes buff p v n)[q]?
      = if p ≤ q ∧ q < p + n ∧ q < buff.length then some (v / 256 ^ (q - p) % 256)
        else buff[q]? := by
  induction n with
  | zero =>
    have h : ¬ (p ≤ q ∧ q < p + 0 ∧ q < buff.length) := by omega
    simp only [store_bytes, if_neg h]
  | succ n ih =>
    simp only [store_bytes, List.getElem?_set, store_bytes_length, ih]
    by_cases h1 : p + n = q
    · subst h1
      by_cases h2 : p + n < buff.length
      · have h3 : p ≤ p + n ∧ p + n < p + (n + 1) ∧ p + n < buff.length := by omega
        simp only [if_true, if_pos h2, if_pos h3, Nat.add_sub_cancel_left]
      · have h3 : ¬ (p ≤ p + n ∧ p + n < p + (n + 1) ∧ p + n < buff.length) := by omega
        have h4 : buff[p + n]? = none := List.getElem?_eq_none (by omega)
        simp only [if_true, if_neg h2, if_neg h3, h4]
    · rw [if_neg h1]
      by_cases h2 : p ≤ q ∧ q < p + n ∧ q < buff.length
      · have h3 : p ≤ q ∧ q < p + (n + 1) ∧ q < buff.length := by omega
        rw [if_pos h2, if_pos h3]
      · have h3 : ¬ (p ≤ q ∧ q < p + (n + 1) ∧ q < buff.length) := by omega
        rw [if_neg h2, if_neg h3]

theorem buff_store_ok (buff : List Nat) (p k value : Nat) (h : p + k < buff.length)
    (hlen : buff.length < 2 ^ 31) :
    buff_store buff (p : Int) k value = Except.ok (buff.set (p + k) (value % 256)) := by
  unfold buff_store
  have hc : 0 ≤ (p : Int) + (k : Int) ∧ (p : Int) + (k : Int) < 2 ^ 31 ∧
      (p : Int) + (k : Int) < (buff.length : Int) := by
    norm_num only at hlen ⊢
    omega
  rw [if_pos hc]
  have ht : ((p : Int) + (k : Int)).toNat = p + k := by omega
  rw [ht]

theorem byte_0 (v : Nat) : ((v >>> 0) &&& 0xff) % 256 = v / 256 ^ 0 % 256 := by
  have h := Nat.and_pow_two_sub_one_eq_mod (v >>> 0) 8
  norm_num only [Nat.shiftRight_eq_div_pow] at h ⊢
  rw [h]
  omega

theorem byte_1 (v : Nat) : ((v >>> 8) &&& 0xff) % 256 = v / 256 ^ 1 % 256 := by
  have h := Nat.and_pow_two_sub_one_eq_mod (v >>> 8) 8
  norm_num only [Nat.shiftRight_eq_div_pow] at h ⊢
  rw [h]
  omega

theorem byte_2 (v : Nat) : ((v >>> 16) &&& 0xff) % 256 = v / 256 ^ 2 % 256 := by
  have h := Nat.and_pow_two_sub_one_eq_mod (v >>> 16) 8
  norm_num only [Nat.shiftRight_eq_div_pow] at h ⊢
  rw [h]
  omega

theorem byte_3 (v : Nat) : ((v >>> 24) &&& 0xff) % 256 = v / 256 ^ 3 % 256 := by
  have h := Nat.and_pow_two_sub_one_eq_mod (v >>> 24) 8
  norm_num only [Nat.shiftRight_eq_div_pow] at h ⊢
  rw [h]
  omega

theorem bind_ok_eq (b : List Nat) (f : List Nat → Except emit_failure (List Nat)) :
    (Except.ok b : Except emit_failure (List Nat)).bind f = f b := rfl

theorem store1_ok (buff : List Nat) (p v : Nat) (h : p + 1 ≤ buff.length)
    (hlen : buff.length < 2 ^ 31) :
    buff_store buff (p : Int) 0 ((v >>> 0) &&& 0xff) = Except.ok (store_bytes buff p v 1) := by
  rw [buff_store_ok buff p 0 _ (by omega) hlen, byte_0]
  rfl

theorem store2_ok (buff : List Nat) (p v : Nat) (h : p + 2 ≤ buff.length)
    (hlen : buff.length < 2 ^ 31) :
    ((buff_store buff (p : Int) 0 ((v >>> 0) &&& 0xff)).bind fun buff =>
      buff_store buff (p : Int) 1 ((v >>> 8) &&& 0xff))
      = Except.ok (store_bytes buff p v 2) := by
  rw [buff_store_ok buff p 0 _ (by omega) hlen, byte_0]
  rw [bind_ok_eq]
  rw [buff_store_ok _ p 1 _ (by rw [List.length_set]; omega)
    (by rw [List.length_set]; exact hlen), byte_1]
  rfl

theorem store4_ok (buff : List Nat) (p v : Nat) (h : p + 4 ≤ buff.length)
    (hlen : buff.length < 2 ^ 31) :
    ((buff_store buff (p : Int) 0 ((v >>> 0) &&& 0xff)).bind fun buff =>
      (buff_store buff (p : Int) 1 ((v >>> 8) &&& 0xff)).bind fun buff =>
      (buff_store buff (p : Int) 2 ((v >>> 16) &&& 0xff)).bind fun buff =>
      buff_store buff (p : Int) 3 ((v >>> 24) &&& 0xff))
      = Except.ok (store_bytes buff p v 4) := by
  rw [buff_store_ok buff p 0 _ (by omega) hlen, byte_0]
  rw [bind_ok_eq]
  rw [buff_store_ok _ p 1 _ (by rw [List.length_set]; omega)
    (by rw [List.length_set]; exact hlen), byte_1]
  rw [bind_ok_eq]
  rw [buff_store_ok _ p 2 _ (by simp only [List.length_set]; omega)
    (by simp only [List.length_set]; exact hlen), byte_2]
  rw [bind_ok_eq]
  rw [buff_store_ok _ p 3 _ (by simp only [List.length_set]; omega)
    (by simp only [List.length_set]; exact hlen), byte_3]
  rfl

theorem idx_eq (a adj : Nat) (hle : adj ≤ a) (ha : a < 2 ^ 64) (hd : a - adj < 2 ^ 31) :
    toI32 ((u64_sub a adj : Nat) : Int) = ((a - adj : Nat) : Int) := by
  have hs : u64_sub a adj = a - adj := by
    unfold u64_sub
    norm_num only at ha ⊢
    omega
  rw [hs, toI32_eq]
  norm_num only at hd
  omega

theorem write_text_entry_ok (adj : Nat) (buff : List Nat) (working : mem_entry_t)
    (hrej : ¬ writer_rejects working) (hlen : buff.length < 2 ^ 31)
    (hin : written_width working.type ≠ 0 →
      adj ≤ working.address ∧ working.address < 2 ^ 64 ∧
      working.address - adj + written_width working.type ≤ buff.length) :
    write_text_entry adj buff working
      = Except.ok (store_bytes buff (working.address - adj) (written_value working)
          (written_width working.type)) := by
  unfold writer_rejects at hrej
  unfold write_text_entry write_text_entry_typed written_value
  cases ht : working.type <;> rw [ht] at hrej hin <;>
    simp only [type_t.toNat, if_true, Nat.reduceEqDiff, if_false, or_false, or_true,
      true_or, reduceCtorEq, written_width, store_bytes, and_3_eq, and_1_eq]
  case ENTRY_INSTRUCTION =>
    obtain ⟨h1, h2, h3⟩ := hin (by decide)
    simp only [written_width] at h3
    have ha : working.address % 4 = 0 := by
      by_contra hne
      exact hrej (Or.inl ⟨Or.inl rfl, hne⟩)
    rw [if_neg (by rw [ha]; decide), idx_eq _ _ h1 h2 (by omega)]
    exact store4_ok buff _ _ h3 hlen
  case ENTRY_BDATA =>
    obtain ⟨h1, h2, h3⟩ := hin (by decide)
    simp only [written_width] at h3
    rw [idx_eq _ _ h1 h2 (by omega)]
    exact store1_ok buff _ _ h3 hlen
  case ENTRY_HDATA =>
    obtain ⟨h1, h2, h3⟩ := hin (by decide)
    simp only [written_width] at h3
    have ha : working.address % 2 = 0 := by
      by_contra hne
      exact hrej (Or.inr (Or.inl ⟨rfl, hne⟩))
    rw [if_neg (by rw [ha]; decide), idx_eq _ _ h1 h2 (by omega)]
    exact store2_ok buff _ _ h3 hlen
  case ENTRY_WDATA =>
    obtain ⟨h1, h2, h3⟩ := hin (by decide)
    simp only [written_width] at h3
    have ha : working.address % 4 = 0 := by
      by_contra hne
      exact hrej (Or.inl ⟨Or.inr rfl, hne⟩)
    rw [if_neg (by rw [ha]; decide), idx_eq _ _ h1 h2 (by omega)]
    exact store4_ok buff _ _ h3 hlen
  all_goals exact absurd (by simp) hrej

theorem write_text_entries_spec (adj : Nat) (entries : List mem_entry_t) :
    ∀ buff : List Nat, buff.length < 2 ^ 31 →
      (∀ w ∈ entries, ¬ writer_rejects w) →
      (∀ w ∈ entries, written_width w.type ≠ 0 →
        adj ≤ w.address ∧ w.address < 2 ^ 64 ∧
        w.address - adj + written_width w.type ≤ buff.length) →
      ∃ buff', write_text_entries adj buff entries = Except.ok buff' ∧
        buff'.length = buff.length ∧
        (∀ q, (∀ w ∈ entries,
            ¬ (w.address - adj ≤ q ∧ q < w.address - adj + written_width w.type)) →
          buff'[q]? = buff[q]?) ∧
        (entries.Pairwise (fun a b => ∀ q,
            ¬ ((a.address - adj ≤ q ∧ q < a.address - adj + written_width a.type) ∧
               (b.address - adj ≤ q ∧ q < b.address - adj + written_width b.type))) →
          ∀ w ∈ entries, ∀ q,
            w.address - adj ≤ q ∧ q < w.address - adj + written_width w.type →
            buff'[q]? = some (written_value w / 256 ^ (q - (w.address - adj)) % 256)) := by
  induction entries with
  | nil =>
    intro buff _ _ _
    exact ⟨buff, rfl, rfl, fun _ _ => rfl, fun _ w hw => absurd hw (List.not_mem_nil w)⟩
  | cons working rest ih =>
    intro buff hlen hrej hin
    have hstep := write_text_entry_ok adj buff working
      (hrej working (List.mem_cons_self _ _)) hlen (hin working (List.mem_cons_self _ _))
    have hlen1 := store_bytes_length buff (working.address - adj) (written_value working)
      (written_width working.type)
    obtain ⟨buff', hrun, hl', hframe, hbytes⟩ := ih
      (store_bytes buff (working.address - adj) (written_value working)
        (written_width working.type))
      (by rw [hlen1]; exact hlen)
      (fun w hw => hrej w (List.mem_cons_of_mem _ hw))
      (fun w hw hne => by rw [hlen1]; exact hin w (List.mem_cons_of_mem _ hw) hne)
    refine ⟨buff', ?_, hl'.trans hlen1, ?_, ?_⟩
    · unfold write_text_entries
      rw [hstep]
      exact hrun
    · intro q hq
      rw [hframe q (fun w hw => hq w (List.mem_cons_of_mem _ hw)), store_bytes_get]
      have hn := hq working (List.mem_cons_self _ _)
      rw [if_neg (by omega)]
    · intro hpw w hw q hcov
      rw [List.pairwise_cons] at hpw
      rcases List.mem_cons.1 hw with rfl | hmem
      · rw [hframe q (fun w' hw' hc => hpw.1 w' hw' q ⟨hcov, hc⟩), store_bytes_get]
        have hne : written_width w.type ≠ 0 := by omega
        have hb := (hin w (List.mem_cons_self _ _) hne).2.2
        rw [if_pos (by omega)]
      · exact hbytes hpw.2 w hmem q hcov

theorem adj_end_addr_lt (list : memblock_list_t) : adj_end_addr list < 2 ^ 64 := by
  unfold adj_end_addr
  rw [and_align16]
  generalize u64_add list.max_address 16 / 16 = a
  norm_num only
  omega

theorem writer_stores_iff (working : mem_entry_t) :
    writer_stores working ↔ written_width working.type ≠ 0 := by
  unfold writer_stores
  cases working.type <;> simp [written_width]

/-- C28, as amended: for every block whose buffer spans less than 2^31 bytes, whose entries
pass the writers' checks, and whose instruction, B-, H- and W-data entries have the sizes
4, 1, 2 and 4, lie inside `[adj_start_addr, adj_end_addr)` and occupy pairwise disjoint
address ranges, `write_text` builds a buffer of `adj_end_addr - adj_start_addr` bytes, a
multiple of 16, in which byte k of such an entry, at offset `address - adj_start_addr + k`
for k below its size, is byte k, lowest first, of its encoding (instruction) or of its
integer value (data), and every byte no such entry covers is zero. -/
theorem write_text_buffer_spec (list : memblock_list_t)
    (hspan : adj_start_addr list ≤ adj_end_addr list)
    (hsmall : adj_end_addr list - adj_start_addr list < 2 ^ 31)
    (hchk : ∀ w ∈ list.head, ¬ writer_rejects w)
    (hsize : ∀ w ∈ list.head,
      (w.type = type_t.ENTRY_INSTRUCTION → w.size = 4) ∧
      (w.type = type_t.ENTRY_BDATA → w.size = 1) ∧
      (w.type = type_t.ENTRY_HDATA → w.size = 2) ∧
      (w.type = type_t.ENTRY_WDATA → w.size = 4))
    (hin : ∀ w ∈ list.head, writer_stores w →
      adj_start_addr list ≤ w.address ∧ w.address + w.size ≤ adj_end_addr list)
    (hdisj : list.head.Pairwise fun a b => writer_stores a → writer_stores b →
      a.address + a.size ≤ b.address ∨ b.address + b.size ≤ a.address) :
    ∃ buff, write_text_buffer list = Except.ok buff ∧
      buff.length = adj_end_addr list - adj_start_addr list ∧
      16 ∣ buff.length ∧
      (∀ w ∈ list.head, w.type = type_t.ENTRY_INSTRUCTION → ∀ k, k < w.size →
        buff[w.address - adj_start_addr list + k]? = some (w.encoding / 256 ^ k % 256)) ∧
      (∀ w ∈ list.head,
        w.type = type_t.ENTRY_BDATA ∨ w.type = type_t.ENTRY_HDATA ∨
          w.type = type_t.ENTRY_WDATA →
        ∀ k, k < w.size →
          buff[w.address - adj_start_addr list + k]? = some (w.ivalue / 256 ^ k % 256)) ∧
      (∀ q, q < buff.length →
        (∀ w ∈ list.head, writer_stores w →
          ¬ (w.address - adj_start_addr list ≤ q ∧
             q < w.address - adj_start_addr list + w.size)) →
        buff[q]? = some 0) := by
  have hE := adj_end_addr_lt list
  have hN : u64_sub (adj_end_addr list) (adj_start_addr list)
      = adj_end_addr list - adj_start_addr list := by
    unfold u64_sub
    norm_num only at hE ⊢
    omega
  have hw : ∀ w ∈ list.head, writer_stores w → w.size = written_width w.type := by
    intro w hmem hs
    obtain ⟨h1, h2, h3, h4⟩ := hsize w hmem
    rcases hs with h | h | h | h
    · rw [h1 h, h]; rfl
    · rw [h2 h, h]; rfl
    · rw [h3 h, h]; rfl
    · rw [h4 h, h]; rfl
  obtain ⟨buff, hrun, hlen, hframe, hbytes⟩ :=
    write_text_entries_spec (adj_start_addr list) list.head
      (List.replicate (u64_sub (adj_end_addr list) (adj_start_addr list)) 0)
      (by rw [List.length_replicate, hN]; exact hsmall) hchk
      (by
        intro w hmem hne
        have hs := (writer_stores_iff w).2 hne
        obtain ⟨h1, h2⟩ := hin w hmem hs
        rw [List.length_replicate, hN, ← hw w hmem hs]
        norm_num only at hE ⊢
        omega)
  rw [List.length_replicate, hN] at hlen
  have hpw : list.head.Pairwise (fun a b => ∀ q,
      ¬ ((a.address - adj_start_addr list ≤ q ∧
            q < a.address - adj_start_addr list + written_width a.type) ∧
         (b.address - adj_start_addr list ≤ q ∧
            q < b.address - adj_start_addr list + written_width b.type))) := by
    have hmemd : list.head.Pairwise (fun a b => (a ∈ list.head ∧ b ∈ list.head) ∧
        (writer_stores a → writer_stores b →
          a.address + a.size ≤ b.address ∨ b.address + b.size ≤ a.address)) :=
      List.Pairwise.and_mem.1 hdisj |>.imp (fun h => ⟨⟨h.1, h.2.1⟩, h.2.2⟩)
    refine hmemd.imp ?_
    rintro a b ⟨⟨ha, hb⟩, hab⟩ q ⟨hqa, hqb⟩
    have hsa : writer_stores a := (writer_stores_iff a).2 (by omega)
    have hsb : writer_stores b := (writer_stores_iff b).2 (by omega)
    have h1 := hw a ha hsa
    have h2 := hw b hb hsb
    have h3 := hin a ha hsa
    have h4 := hin b hb hsb
    have h5 := hab hsa hsb
    omega
  have hcell : ∀ w ∈ list.head, writer_stores w → ∀ k, k < w.size →
      buff[w.address - adj_start_addr list + k]? = some (written_value w / 256 ^ k % 256) := by
    intro w hmem hs k hk
    have h1 := hw w hmem hs
    have h := hbytes hpw w hmem (w.address - adj_start_addr list + k) (by omega)
    rw [Nat.add_sub_cancel_left] at h
    exact h
  refine ⟨buff, hrun, hlen, ?_, ?_, ?_, ?_⟩
  · rw [hlen, ← hN]
    exact adj_span_dvd list
  · intro w hmem ht k hk
    rw [hcell w hmem (Or.inl ht) k hk, written_value, if_pos ht]
  · intro w hmem ht k hk
    have hs : writer_stores w := Or.inr ht
    have hne : w.type ≠ type_t.ENTRY_INSTRUCTION := by
      rcases ht with h | h | h <;> rw [h] <;> decide
    rw [hcell w hmem hs k hk, written_value, if_neg hne]
  · intro q hq hfree
    rw [hframe q ?_, List.getElem?_replicate, if_pos (by rw [hN, ← hlen]; exact hq)]
    intro w hmem hc
    have hs : writer_stores w := (writer_stores_iff w).2 (by omega)
    have h1 := hw w hmem hs
    exact hfree w hmem hs (by omega)

theorem write_text_buffer_spec_witness :
    ∃ buff, write_text_buffer ex_image_block = Except.ok buff ∧
      buff.length = adj_end_addr ex_image_block - adj_start_addr ex_image_block ∧
      16 ∣ buff.length ∧
      (∀ w ∈ ex_image_block.head, w.type = type_t.ENTRY_INSTRUCTION → ∀ k, k < w.size →
        buff[w.address - adj_start_addr ex_image_block + k]?
          = some (w.encoding / 256 ^ k % 256)) ∧
      (∀ w ∈ ex_image_block.head,
        w.type = type_t.ENTRY_BDATA ∨ w.type = type_t.ENTRY_HDATA ∨
          w.type = type_t.ENTRY_WDATA →
        ∀ k, k < w.size →
          buff[w.address - adj_start_addr ex_image_block + k]?
            = some (w.ivalue / 256 ^ k % 256)) ∧
      (∀ q, q < buff.length →
        (∀ w ∈ ex_image_block.head, writer_stores w →
          ¬ (w.address - adj_start_addr ex_image_block ≤ q ∧
             q < w.address - adj_start_addr ex_image_block + w.size)) →
        buff[q]? = some 0) :=
  write_text_buffer_spec ex_image_block (by decide) (by decide) (by decide) (by decide)
    (by decide) (by decide)

theorem write_text_entries_pair_undefined (adj : Nat) (buff : List Nat)
    (e1 e2 : mem_entry_t) (h1 : ¬ writer_rejects e1)
    (h2 : ∀ b, write_text_entry adj b e2 = Except.error emit_failure.undefined) :
    write_text_entries adj buff [e1, e2] = Except.error emit_failure.undefined := by
  simp only [write_text_entries]
  cases hs : write_text_entry adj buff e1 with
  | error e =>
    cases e with
    | fatal msg => exact absurd ((write_text_entry_fatal_iff adj buff e1).1 ⟨msg, hs⟩) h1
    | undefined => rfl
  | ok b => simp only [h2 b]

/-- C28 fails as stated. The three instructions of `ex_scattered_list` pass the checks and
occupy disjoint ranges, `add_memblock` makes of them a block with the bounds 0x1000 and
0x1007, and in its buffer of 16 bytes the instruction at 0x3000 is stored at index
0x2000, outside the array. The two instructions of `ex_wide_list`, in the order of their
addresses, give a block of 2 GiB, in which `int idx` of the second one is -2^31. -/
theorem write_text_buffer_counterexample :
    (add_memblock [] ex_scattered_list = Except.ok [ex_scattered_block] ∧
      (∀ w ∈ ex_scattered_block.head, ¬ writer_rejects w) ∧
      (ex_scattered_block.head.Pairwise fun a b => writer_stores a → writer_stores b →
        a.address + a.size ≤ b.address ∨ b.address + b.size ≤ a.address) ∧
      u64_sub (adj_end_addr ex_scattered_block) (adj_start_addr ex_scattered_block) = 16 ∧
      write_text_buffer ex_scattered_block = Except.error emit_failure.undefined) ∧
    (add_memblock [] ex_wide_list = Except.ok [ex_wide_block] ∧
      (∀ w ∈ ex_wide_block.head, ¬ writer_rejects w) ∧
      (ex_wide_block.head.Pairwise fun a b => writer_stores a → writer_stores b →
        a.address + a.size ≤ b.address ∨ b.address + b.size ≤ a.address) ∧
      toI32 ((u64_sub 0x80000000 (adj_start_addr ex_wide_block) : Nat) : Int) = -2 ^ 31 ∧
      write_text_buffer ex_wide_block = Except.error emit_failure.undefined) := by
  refine ⟨⟨rfl, by decide, by decide, by decide, rfl⟩, rfl, by decide, by decide, by decide,
    ?_⟩
  exact write_text_entries_pair_undefined _ _ _ _ (by decide) (fun b => rfl)

/-! ## The text of a block -/

/-- C30, as amended: for every block whose buffer is built and is shorter than 2^31
bytes, the text `write_text` prints for the block is `(adj_end_addr - adj_start_addr) / 16`
lines, each over the next 16 bytes of the buffer, followed by one newline; a line is the
address of its first byte in lowercase hexadecimal, zero-padded to at least 12 digits, two
spaces, and every one of the 16 bytes as two hexadecimal digits followed by one space, so
that a space stands between the sixteenth byte and the newline that ends the line. -/
theorem write_text_block_lines (list : memblock_list_t) (buff : List Nat)
    (hbuff : write_text_buffer list = Except.ok buff) (hsmall : buff.length < 2 ^ 31) :
    write_text_block list
      = Except.ok (String.join
          ((List.range (u64_sub (adj_end_addr list) (adj_start_addr list) / 16)).map fun k =>
            text_line (u64_add (adj_start_addr list) (16 * k))
              ((buff.drop (16 * k)).take 16)) ++ "\n") ∧
    (∀ k, k < u64_sub (adj_end_addr list) (adj_start_addr list) / 16 →
      ((buff.drop (16 * k)).take 16).length = 16) ∧
    (∀ (addr : Nat) (bytes : List Nat), text_line addr bytes
      = fmt_hex '0' 12 addr ++ "  " ++ String.join (bytes.map fun b => fmt_hex '0' 2 b ++ " ")
          ++ "\n") := by
  have hlen := write_text_buffer_length list buff hbuff
  obtain ⟨n, hn⟩ := adj_span_dvd list
  have hdiv : u64_sub (adj_end_addr list) (adj_start_addr list) / 16 = n := by omega
  refine ⟨?_, ?_, fun _ _ => rfl⟩
  · unfold write_text_block
    rw [hbuff]
    show write_text_dump (adj_start_addr list) buff = _
    unfold write_text_dump
    rw [if_pos hsmall, hdiv]
    have h := write_text_dump_loop_lines (adj_start_addr list) n 0 buff (by omega)
    simp only [Nat.mul_zero, Nat.zero_add] at h
    rw [h]
  · intro k hk
    rw [List.length_take, List.length_drop]
    omega

theorem write_text_block_lines_witness :
    write_text_block ex_image_block
      = Except.ok (String.join
          ((List.range
              (u64_sub (adj_end_addr ex_image_block) (adj_start_addr ex_image_block) / 16)).map
            fun k =>
              text_line (u64_add (adj_start_addr ex_image_block) (16 * k))
                ((List.drop (16 * k)
                  [0xb3, 0x00, 0x31, 0x40, 0xef, 0xbe, 0xad, 0xde, 0x34, 0x12, 0x56, 0, 0, 0, 0,
                    0]).take 16)) ++ "\n") ∧
    String.join
        ((List.range
            (u64_sub (adj_end_addr ex_image_block) (adj_start_addr ex_image_block) / 16)).map
          fun k =>
            text_line (u64_add (adj_start_addr ex_image_block) (16 * k))
              ((List.drop (16 * k)
                [0xb3, 0x00, 0x31, 0x40, 0xef, 0xbe, 0xad, 0xde, 0x34, 0x12, 0x56, 0, 0, 0, 0,
                  0]).take 16)) ++ "\n"
      = "000000001000  b3 00 31 40 ef be ad de 34 12 56 00 00 00 00 00 \n\n" :=
  ⟨(write_text_block_lines ex_image_block
      [0xb3, 0x00, 0x31, 0x40, 0xef, 0xbe, 0xad, 0xde, 0x34, 0x12, 0x56, 0, 0, 0, 0, 0]
      rfl (by decide)).1, by decide⟩

/-- C30 fails as stated: for the block of the empty entry list the text is one line of
sixteen zero bytes and a blank line, and in that line a space follows the sixteenth byte,
where the claim puts the newline. -/
theorem write_text_block_counterexample :
    write_text_block ex_empty_block
      = Except.ok "000000000000  00 00 00 00 00 00 00 00 00 00 00 00 00 00 00 00 \n\n" ∧
    text_line_claimed 0 (List.replicate 16 0) ++ "\n"
      = "000000000000  00 00 00 00 00 00 00 00 00 00 00 00 00 00 00 00\n\n" ∧
    write_text_block ex_empty_block
      ≠ Except.ok (text_line_claimed 0 (List.replicate 16 0) ++ "\n") := by
  refine ⟨rfl, by decide, ?_⟩
  intro h
  have h' : "000000000000  00 00 00 00 00 00 00 00 00 00 00 00 00 00 00 00 \n\n"
      = text_line_claimed 0 (List.replicate 16 0) ++ "\n" := Except.ok.inj h
  exact absurd h' (by decide)

/-! ## Appending to an entry list -/

theorem append_inst_loop_eq (inst : List mem_entry_t) :
    ∀ (working : mem_entry_t) (rest : List mem_entry_t),
      append_inst_loop inst (working :: rest) = working :: rest ++ inst := by
  intro working rest
  induction rest generalizing working with
  | nil => rfl
  | cons next rest ih =>
    simp only [append_inst_loop, ih next, List.cons_append]

/-- C33: for every entry list `list` and every entry `e` whose `next` is `NULL`,
`append_inst` returns the list whose entries are those of `list`, each as it was, followed
by `e`; the entry at its head is the head of `list` when `list` is not empty, and `e` when
it is. -/
theorem append_inst_spec (list : List mem_entry_t) (e : mem_entry_t) :
    append_inst list [e] = list ++ [e] ∧
    (append_inst list [e]).length = list.length + 1 ∧
    (∀ (i : Nat) (w : mem_entry_t), list[i]? = some w → (append_inst list [e])[i]? = some w) ∧
    (append_inst list [e])[list.length]? = some e ∧
    (list ≠ [] → (append_inst list [e]).head? = list.head?) ∧
    (list = [] → (append_inst list [e]).head? = some e) := by
  have h : append_inst list [e] = list ++ [e] := by
    cases list with
    | nil => rfl
    | cons first rest => exact append_inst_loop_eq [e] first rest
  rw [h]
  refine ⟨rfl, by simp, ?_, by simp, ?_, ?_⟩
  · intro i w hi
    have hlt : i < list.length := by
      by_contra hn
      rw [List.getElem?_eq_none (by omega)] at hi
      cases hi
    rw [List.getElem?_append_left hlt]
    exact hi
  · intro hne
    cases list with
    | nil => exact absurd rfl hne
    | cons first rest => rfl
  · intro hnil
    subst hnil
    rfl

theorem append_inst_spec_witness :
    (append_inst ex_code_list [ex_def_entry]).head? = ex_code_list.head? :=
  (append_inst_spec ex_code_list ex_def_entry).2.2.2.2.1 (by decide)

/-! ## Ids without a case in the dispatch -/

/-- C37: for every instruction record whose inst_id has no `case` in the `switch` of
`encode_instruction`, that is every id other than 0..36, 39, 40, 47, 48, 50, 51 and 52,
the function returns 0, whatever the other fields are; among these ids are -1, which
`new_instruction` leaves in the record, FENCE, FENCE_I, the six CSR ids and 49. -/
theorem encode_instruction_unhandled (inst : instruction_t) :
    (inst.inst_id < 0 ∨ inst.inst_id = RISCV_FENCE ∨ inst.inst_id = RISCV_FENCE_I ∨
        (RISCV_CSRRW ≤ inst.inst_id ∧ inst.inst_id ≤ RISCV_CSRRCI) ∨ inst.inst_id = 49 ∨
        52 < inst.inst_id →
      encode_instruction inst = 0) ∧
    (∀ (opcode uninit : Nat) (record : instruction_t),
      (new_instruction opcode uninit).inst = some record →
      record.inst_id = -1 ∧ record.opcode = opcode ∧ encode_instruction record = 0) := by
  have key : ∀ i : instruction_t,
      (i.inst_id < 0 ∨ i.inst_id = RISCV_FENCE ∨ i.inst_id = RISCV_FENCE_I ∨
        (RISCV_CSRRW ≤ i.inst_id ∧ i.inst_id ≤ RISCV_CSRRCI) ∨ i.inst_id = 49 ∨
        52 < i.inst_id) → encode_instruction i = 0 := by
    intro i h
    have hne : ∀ id : Int, 0 ≤ id → id ≤ 52 → id ≠ 37 → id ≠ 38 → (id < 41 ∨ 46 < id) →
        id ≠ 49 → (i.inst_id = id) = False := by
      intro id h0 h1 h2 h3 h4 h5
      simp only [RISCV_FENCE, RISCV_FENCE_I, RISCV_CSRRW, RISCV_CSRRCI] at h
      exact eq_false (by omega)
    unfold encode_instruction
    generalize encode_r_type i = r
    generalize encode_i_type i = it
    generalize encode_s_type i = s
    generalize encode_b_type i = b
    generalize encode_u_type i = u
    generalize encode_j_type i = j
    simp only [RISCV_LUI, RISCV_AUIPC, RISCV_JAL, RISCV_JALR, RISCV_BEQ, RISCV_BNE, RISCV_BLT,
      RISCV_BGE, RISCV_BLTU, RISCV_BGEU, RISCV_LB, RISCV_LH, RISCV_LW, RISCV_LBU, RISCV_LHU,
      RISCV_SB, RISCV_SH, RISCV_SW, RISCV_ADDI, RISCV_SLTI, RISCV_SLTIU, RISCV_XORI,
      RISCV_ORI, RISCV_ANDI, RISCV_SLLI, RISCV_SRLI, RISCV_SRAI, RISCV_ADD, RISCV_SUB,
      RISCV_SLL, RISCV_SLT, RISCV_SLTU, RISCV_XOR, RISCV_SRL, RISCV_SRA, RISCV_OR, RISCV_AND,
      RISCV_ECALL, RISCV_EBREAK, RISCV_J, RISCV_JR, RISCV_RET, RISCV_MUL, RISCV_DIV]
    simp (disch := omega) only [hne, if_false]
  refine ⟨key inst, ?_⟩
  intro opcode uninit record hrec
  simp only [new_instruction, Option.some.injEq] at hrec
  subst hrec
  exact ⟨rfl, rfl, key _ (Or.inl (show (-1 : Int) < 0 by decide))⟩

theorem encode_instruction_unhandled_witness :
    encode_instruction { ex_sub with inst_id := RISCV_FENCE } = 0 :=
  (encode_instruction_unhandled { ex_sub with inst_id := RISCV_FENCE }).1
    (Or.inr (Or.inl rfl))

/-! ## Running the displacement pass twice -/

theorem calculate_offsets_entry_settled (symtab_head symtab_head' : List symtab_entry_t)
    (working working' : mem_entry_t)
    (h : calculate_offsets_entry symtab_head working = Except.ok working') :
    (working'.type = type_t.ENTRY_INSTRUCTION → working'.status = status_t.ENTRY_COMPLETE) ∧
    calculate_offsets_entry symtab_head' working' = Except.ok working' := by
  by_cases hc : working.type = type_t.ENTRY_INSTRUCTION ∧
      working.status = status_t.ENTRY_INCOMPLETE
  · obtain ⟨inst, imm', _, hw⟩ :=
      calculate_offsets_entry_resolved symtab_head working working' h hc.1 hc.2
    have hs : working'.status = status_t.ENTRY_COMPLETE := by rw [hw]
    refine ⟨fun _ => hs, calculate_offsets_entry_skip symtab_head' working' ?_⟩
    rintro ⟨_, h2⟩
    rw [hs] at h2
    cases h2
  · rw [calculate_offsets_entry_skip symtab_head working hc] at h
    cases h
    refine ⟨?_, calculate_offsets_entry_skip symtab_head' working hc⟩
    intro ht
    cases hs : working.status with
    | ENTRY_INCOMPLETE => exact absurd ⟨ht, hs⟩ hc
    | ENTRY_COMPLETE => rfl

theorem calculate_offsets_block_settled (symtab_head symtab_head' : List symtab_entry_t) :
    ∀ (l l' : List mem_entry_t), calculate_offsets_block symtab_head l = Except.ok l' →
      (∀ w ∈ l', w.type = type_t.ENTRY_INSTRUCTION → w.status = status_t.ENTRY_COMPLETE) ∧
      calculate_offsets_block symtab_head' l' = Except.ok l' := by
  intro l
  induction l with
  | nil =>
    intro l' h
    cases h
    exact ⟨fun w hw => absurd hw (List.not_mem_nil w), rfl⟩
  | cons working next ih =>
    intro l' h
    unfold calculate_offsets_block at h
    cases hstep : calculate_offsets_entry symtab_head working with
    | error f => rw [hstep] at h; cases h
    | ok working' =>
      rw [hstep] at h
      cases hrest : calculate_offsets_block symtab_head next with
      | error f => rw [hrest] at h; cases h
      | ok next' =>
        rw [hrest] at h
        cases h
        obtain ⟨h1, h2⟩ :=
          calculate_offsets_entry_settled symtab_head symtab_head' working working' hstep
        obtain ⟨h3, h4⟩ := ih next' hrest
        refine ⟨?_, ?_⟩
        · intro w hw
          rcases List.mem_cons.1 hw with rfl | hmem
          · exact h1
          · exact h3 w hmem
        · simp only [calculate_offsets_block, h2, h4]

theorem calculate_offsets_settled (symtab_head symtab_head' : List symtab_entry_t) :
    ∀ (bl bl' : List memblock_list_t), calculate_offsets symtab_head bl = Except.ok bl' →
      (∀ list ∈ bl', ∀ w ∈ list.head,
        w.type = type_t.ENTRY_INSTRUCTION → w.status = status_t.ENTRY_COMPLETE) ∧
      calculate_offsets symtab_head' bl' = Except.ok bl' := by
  intro bl
  induction bl with
  | nil =>
    intro bl' h
    cases h
    exact ⟨fun list hl => absurd hl (List.not_mem_nil list), rfl⟩
  | cons list next ih =>
    intro bl' h
    unfold calculate_offsets at h
    cases hblock : calculate_offsets_block symtab_head list.head with
    | error f => rw [hblock] at h; cases h
    | ok head' =>
      rw [hblock] at h
      cases hrest : calculate_offsets symtab_head next with
      | error f => rw [hrest] at h; cases h
      | ok next' =>
        rw [hrest] at h
        cases h
        obtain ⟨h1, h2⟩ :=
          calculate_offsets_block_settled symtab_head symtab_head' list.head head' hblock
        obtain ⟨h3, h4⟩ := ih next' hrest
        refine ⟨?_, ?_⟩
        · intro l hl
          rcases List.mem_cons.1 hl with rfl | hmem
          · exact h1
          · exact h3 l hmem
        · simp only [calculate_offsets, h2, h4]

/-- C38: on every symbol table and block list on which `calculate_offsets` succeeds, every
entry of type instruction has status complete afterwards, and a second run on the result
succeeds and returns it unchanged, entry by entry and record by record; the pass only
reads the symbol table, and the second run does not even depend on it. -/
theorem calculate_offsets_idempotent (symtab_head : List symtab_entry_t)
    (bl bl' : List memblock_list_t)
    (h : calculate_offsets symtab_head bl = Except.ok bl') :
    (∀ list ∈ bl', ∀ w ∈ list.head,
      w.type = type_t.ENTRY_INSTRUCTION → w.status = status_t.ENTRY_COMPLETE) ∧
    calculate_offsets symtab_head bl' = Except.ok bl' ∧
    (∀ symtab_head', calculate_offsets symtab_head' bl' = Except.ok bl') :=
  ⟨(calculate_offsets_settled symtab_head symtab_head bl bl' h).1,
   (calculate_offsets_settled symtab_head symtab_head bl bl' h).2,
   fun s => (calculate_offsets_settled symtab_head s bl bl' h).2⟩

theorem calculate_offsets_idempotent_witness :
    (∀ list ∈ ex_block_list_resolved, ∀ w ∈ list.head,
      w.type = type_t.ENTRY_INSTRUCTION → w.status = status_t.ENTRY_COMPLETE) ∧
    calculate_offsets ex_symtab ex_block_list_resolved = Except.ok ex_block_list_resolved ∧
    (∀ symtab_head',
      calculate_offsets symtab_head' ex_block_list_resolved
        = Except.ok ex_block_list_resolved) :=
  calculate_offsets_idempotent ex_symtab ex_block_list ex_block_list_resolved rfl

/-! ## The order of the blocks does not matter to `check_mem_bounds` -/

theorem check_mem_bounds_ok_iff_pairwise (block_list : List memblock_list_t) :
    check_mem_bounds block_list = Except.ok () ↔
      block_list.Pairwise (fun a b =>
        (a.min_address ≠ a.max_address → b.min_address ≠ b.max_address →
          a.min_address ≤ b.min_address → ¬ b.min_address ≤ a.max_address) ∧
        (b.min_address ≠ b.max_address → a.min_address ≠ a.max_address →
          b.min_address ≤ a.min_address → ¬ a.min_address ≤ b.max_address)) := by
  rw [check_mem_bounds_ok_iff, List.pairwise_iff_getElem]
  constructor
  · intro hall i j hi hj hij
    exact ⟨hall i j _ _ (List.getElem?_eq_getElem hi) (List.getElem?_eq_getElem hj)
        (by omega),
      hall j i _ _ (List.getElem?_eq_getElem hj) (List.getElem?_eq_getElem hi) (by omega)⟩
  · intro hpw i j a b hi hj hne
    obtain ⟨hi', rfl⟩ := List.getElem?_eq_some_iff.1 hi
    obtain ⟨hj', rfl⟩ := List.getElem?_eq_some_iff.1 hj
    rcases Nat.lt_or_gt_of_ne hne with hlt | hgt
    · exact (hpw i j hi' hj' hlt).1
    · exact (hpw j i hj' hi' hgt).2

theorem check_mem_bounds_pair_fatal (a b : memblock_list_t) (same : Bool) (f : failure)
    (h : check_mem_bounds_pair a b same = Except.error f) : ∃ msg, f = failure.fatal msg := by
  unfold check_mem_bounds_pair at h
  split at h
  · split at h
    · split at h
      · cases h
        exact ⟨_, rfl⟩
      · cases h
    · cases h
  · cases h

theorem check_mem_bounds_inner_fatal (check : memblock_list_t) (check_pos : Nat) (f : failure) :
    ∀ (l : List memblock_list_t) (pos : Nat),
      check_mem_bounds_inner check check_pos l pos = Except.error f →
      ∃ msg, f = failure.fatal msg := by
  intro l
  induction l with
  | nil => intro pos h; cases h
  | cons w next ih =>
    intro pos h
    unfold check_mem_bounds_inner at h
    cases hp : check_mem_bounds_pair check w (check_pos == pos) with
    | error e =>
      rw [hp] at h
      cases h
      exact check_mem_bounds_pair_fatal _ _ _ _ hp
    | ok u =>
      rw [hp] at h
      exact ih (pos + 1) h

theorem check_mem_bounds_outer_fatal (block_list : List memblock_list_t) (f : failure) :
    ∀ (l : List memblock_list_t) (pos : Nat),
      check_mem_bounds_outer block_list l pos = Except.error f →
      ∃ msg, f = failure.fatal msg := by
  intro l
  induction l with
  | nil => intro pos h; cases h
  | cons c next ih =>
    intro pos h
    unfold check_mem_bounds_outer at h
    cases hp : check_mem_bounds_inner c pos block_list 0 with
    | error e =>
      rw [hp] at h
      cases h
      exact check_mem_bounds_inner_fatal _ _ _ _ _ hp
    | ok u =>
      rw [hp] at h
      exact ih (pos + 1) h

theorem check_mem_bounds_fatal_iff (block_list : List memblock_list_t) :
    (∃ msg, check_mem_bounds block_list = Except.error (failure.fatal msg))
      ↔ ¬ check_mem_bounds block_list = Except.ok () := by
  constructor
  · rintro ⟨msg, h⟩ hok
    rw [h] at hok
    cases hok
  · intro hn
    cases hr : check_mem_bounds block_list with
    | ok u => exact absurd hr hn
    | error f =>
      obtain ⟨msg, rfl⟩ := check_mem_bounds_outer_fatal block_list f block_list 0 hr
      exact ⟨msg, rfl⟩

/-- C39: for every block list and every permutation of it, `check_mem_bounds` passes on
the one exactly when it passes on the other, and ends in `yyerror` on the one exactly when
it does on the other. -/
theorem check_mem_bounds_perm (block_list block_list' : List memblock_list_t)
    (hperm : block_list.Perm block_list') :
    (check_mem_bounds block_list = Except.ok () ↔
      check_mem_bounds block_list' = Except.ok ()) ∧
    ((∃ msg, check_mem_bounds block_list = Except.error (failure.fatal msg)) ↔
      (∃ msg, check_mem_bounds block_list' = Except.error (failure.fatal msg))) := by
  have hok : check_mem_bounds block_list = Except.ok () ↔
      check_mem_bounds block_list' = Except.ok () := by
    rw [check_mem_bounds_ok_iff_pairwise, check_mem_bounds_ok_iff_pairwise]
    exact List.Perm.pairwise_iff (fun h => ⟨h.2, h.1⟩) hperm
  refine ⟨hok, ?_⟩
  rw [check_mem_bounds_fatal_iff, check_mem_bounds_fatal_iff, hok]

theorem check_mem_bounds_perm_witness :
    (check_mem_bounds ex_two_blocks = Except.ok () ↔
      check_mem_bounds ex_two_blocks.reverse = Except.ok ()) ∧
    ((∃ msg, check_mem_bounds ex_two_blocks = Except.error (failure.fatal msg)) ↔
      (∃ msg, check_mem_bounds ex_two_blocks.reverse = Except.error (failure.fatal msg))) :=
  check_mem_bounds_perm ex_two_blocks ex_two_blocks.reverse
    (List.reverse_perm ex_two_blocks).symm

/-! ## Branch displacements are not range-checked -/

theorem unescape_cons_other (c : Nat) (t : List Nat) (h : c ≠ 92) :
    unescape (c :: t) = c :: unescape t := by
  cases t with
  | nil => rfl
  | cons d rest => simp only [unescape, if_neg h]

theorem unescape_escape (d x : Nat) (t : List Nat) (h : escape_code d = some x) :
    unescape (92 :: d :: t) = x :: unescape t := by
  simp only [unescape, if_true, h]

theorem unescape_no_escape (d : Nat) (t : List Nat) (h : escape_code d = none) :
    unescape (92 :: d :: t) = 92 :: unescape (d :: t) := by
  simp only [unescape, if_true, h]

theorem unescape_length (n : Nat) :
    ∀ l : List Nat, l.length ≤ n → (unescape l).length ≤ l.length := by
  induction n with
  | zero =>
    intro l hl
    have : l = [] := List.length_eq_zero.1 (by omega)
    subst this
    simp [unescape]
  | succ n ih =>
    intro l hl
    match l with
    | [] => simp [unescape]
    | [c] => simp [unescape]
    | c :: d :: rest =>
      simp only [List.length_cons] at hl
      have h1 := ih rest (by omega)
      have h2 := ih (d :: rest) (by simp only [List.length_cons]; omega)
      simp only [unescape]
      split
      · simp only [List.length_cons]; omega
      · simp only [List.length_cons] at h2 ⊢; omega

theorem unescape_nonzero (n : Nat) :
    ∀ l : List Nat, l.length ≤ n → (∀ c ∈ l, c ≠ 0) → ∀ c ∈ unescape l, c ≠ 0 := by
  induction n with
  | zero =>
    intro l hl _ c hc
    have : l = [] := List.length_eq_zero.1 (by omega)
    subst this
    simp [unescape] at hc
  | succ n ih =>
    intro l hl hnz
    match l with
    | [] => intro c hc; simp [unescape] at hc
    | [c] => intro x hx; simp only [unescape] at hx; exact hnz x hx
    | c :: d :: rest =>
      simp only [List.length_cons] at hl
      have h1 := ih rest (by omega) (fun x hx => hnz x (by simp [hx]))
      have h2 := ih (d :: rest) (by simp only [List.length_cons]; omega)
        (fun x hx => hnz x (List.mem_cons_of_mem _ hx))
      simp only [unescape]
      split
      · rename_i x hx
        intro y hy
        rcases List.mem_cons.1 hy with rfl | hmem
        · by_cases hc : c = 92
          · rw [if_pos hc] at hx
            unfold escape_code at hx
            split_ifs at hx <;> cases hx <;> decide
          · rw [if_neg hc] at hx
            cases hx
        · exact h1 y hmem
      · intro y hy
        rcases List.mem_cons.1 hy with rfl | hmem
        · exact hnz y (List.mem_cons_self _ _)
        · exact h2 y hmem

theorem unescape_id (n : Nat) :
    ∀ l : List Nat, l.length ≤ n → 92 ∉ l → unescape l = l := by
  induction n with
  | zero =>
    intro l hl _
    have : l = [] := List.length_eq_zero.1 (by omega)
    subst this
    rfl
  | succ n ih =>
    intro l hl hno
    cases l with
    | nil => rfl
    | cons c t =>
      simp only [List.length_cons] at hl
      have hc : c ≠ 92 := fun h => hno (by simp [h])
      rw [unescape_cons_other c t hc, ih t (by omega) (fun h => hno (List.mem_cons_of_mem _ h))]

theorem buff_set_next (out : List Nat) (n x : Nat) :
    (out ++ List.replicate (n + 1) 0).set out.length x = (out ++ [x]) ++ List.replicate n 0 := by
  induction out with
  | nil => simp [List.replicate_succ]
  | cons a t ih =>
    simp only [List.cons_append, List.length_cons, List.set_cons_succ, ih]

theorem str_at_lt (str : List Nat) (i : Nat) (h : i < str.length) :
    str.drop i = str_at str i :: str.drop (i + 1) := by
  unfold str_at
  rw [List.getD_eq_getElem _ _ h]
  exact List.drop_eq_getElem_cons h

theorem str_at_ge (str : List Nat) (i : Nat) (h : str.length ≤ i) : str_at str i = 0 := by
  unfold str_at
  rw [List.getD_eq_default _ _ h]

theorem parse_string_loop_spec (str : List Nat) :
    ∀ (fuel i : Nat) (out : List Nat) (pad : Nat), i ≤ str.length →
      str.length - i ≤ fuel → str.length - i < pad →
      parse_string_loop str fuel i out.length (out ++ List.replicate pad 0)
        = out ++ unescape (str.drop i)
            ++ List.replicate (pad - (unescape (str.drop i)).length) 0 := by
  intro fuel
  induction fuel with
  | zero =>
    intro i out pad hi hf _
    have hdrop : str.drop i = [] := List.drop_eq_nil_of_le (by omega)
    simp [parse_string_loop, hdrop, unescape]
  | succ fuel ih =>
    intro i out pad hi hf hp
    by_cases hlt : i < str.length
    · have hwrite : ∀ (i' x : Nat), i' ≤ str.length → str.length - i' ≤ fuel →
          str.length - i' < pad - 1 →
          parse_string_loop str fuel i' (out.length + 1)
              ((out ++ List.replicate pad 0).set out.length x)
            = out ++ (x :: unescape (str.drop i'))
                ++ List.replicate (pad - (x :: unescape (str.drop i')).length) 0 := by
        intro i' x h1 h2 h3
        obtain ⟨n, rfl⟩ : ∃ n, pad = n + 1 := ⟨pad - 1, by omega⟩
        rw [buff_set_next]
        have h := ih i' (out ++ [x]) n h1 h2 (by omega)
        simp only [List.length_append, List.length_singleton] at h
        rw [h]
        simp only [List.append_assoc, List.singleton_append, Nat.add_sub_add_right,
          List.length_cons]
      have hdrop := str_at_lt str i hlt
      unfold parse_string_loop
      rw [if_pos hlt]
      by_cases hc : str_at str i = 92
      · rw [if_pos ⟨hc, hlt⟩]
        by_cases hnext : i + 1 < str.length
        · have hdrop1 := str_at_lt str (i + 1) hnext
          rw [hdrop, hdrop1, hc]
          by_cases h110 : str_at str (i + 1) = 110
          · rw [if_pos h110, hwrite _ _ (by omega) (by omega) (by omega),
              unescape_escape _ 10 _ (by rw [h110]; rfl)]
          · rw [if_neg h110]
            by_cases h116 : str_at str (i + 1) = 116
            · rw [if_pos h116, hwrite _ _ (by omega) (by omega) (by omega),
                unescape_escape _ 9 _ (by rw [h116]; rfl)]
            · rw [if_neg h116]
              by_cases h92 : str_at str (i + 1) = 92
              · rw [if_pos h92, hwrite _ _ (by omega) (by omega) (by omega),
                  unescape_escape _ 92 _ (by rw [h92]; rfl)]
              · rw [if_neg h92]
                by_cases h34 : str_at str (i + 1) = 34
                · rw [if_pos h34, hwrite _ _ (by omega) (by omega) (by omega),
                    unescape_escape _ 34 _ (by rw [h34]; rfl)]
                · rw [if_neg h34]
                  by_cases h39 : str_at str (i + 1) = 39
                  · rw [if_pos h39, hwrite _ _ (by omega) (by omega) (by omega),
                      unescape_escape _ 39 _ (by rw [h39]; rfl)]
                  · rw [if_neg h39, hwrite _ _ (by omega) (by omega) (by omega),
                      unescape_no_escape _ _
                        (by simp only [escape_code, h110, h116, h92, h34, h39, if_false]),
                      hdrop1]
        · have hz := str_at_ge str (i + 1) (by omega)
          have hnil : str.drop (i + 1) = [] := List.drop_eq_nil_of_le (by omega)
          rw [hz, hdrop, hnil, hc]
          simp only [Nat.reduceEqDiff, if_false]
          rw [hwrite _ _ (by omega) (by omega) (by omega), hnil]
          rfl
      · rw [if_neg (fun h => hc h.1), hwrite _ _ (by omega) (by omega) (by omega), hdrop,
          unescape_cons_other _ _ hc]
    · have hdrop : str.drop i = [] := List.drop_eq_nil_of_le (by omega)
      unfold parse_string_loop
      rw [if_neg hlt, hdrop]
      simp [unescape]

theorem c_string_append_zero (l : List Nat) (n : Nat) (h : ∀ c ∈ l, c ≠ 0) :
    c_string (l ++ List.replicate (n + 1) 0) = l := by
  unfold c_string
  induction l with
  | nil => simp [List.replicate_succ]
  | cons a t ih =>
    have ha : a ≠ 0 := h a (List.mem_cons_self _ _)
    simp only [List.cons_append, List.takeWhile_cons, ha, ne_eq, not_false_eq_true,
      decide_True, if_true]
    rw [ih (fun c hc => h c (List.mem_cons_of_mem _ hc))]

/-- C40: for every NUL-free string of fewer than 2^31 characters, `parse_string` returns
the left-to-right scan in which a backslash immediately followed by n, t, a backslash, a
double or a single quote is replaced, with that character, by the newline, the tab, the
backslash, the double or the single quote, and every other character is copied, a
backslash before any other character or at the end included; a string without a backslash
is returned as it is, and the result is never longer than the string. -/
theorem parse_string_spec (str : List Nat) (hnul : ∀ c ∈ str, c ≠ 0)
    (hlen : str.length < 2 ^ 31) :
    parse_string str = some (unescape str) ∧
    (92 ∉ str → parse_string str = some str) ∧
    (unescape str).length ≤ str.length ∧
    (∀ (d x : Nat) (rest : List Nat), escape_code d = some x →
      unescape (92 :: d :: rest) = x :: unescape rest) ∧
    (∀ (d : Nat) (rest : List Nat), escape_code d = none →
      unescape (92 :: d :: rest) = 92 :: unescape (d :: rest)) ∧
    (∀ (c : Nat) (rest : List Nat), c ≠ 92 → unescape (c :: rest) = c :: unescape rest) ∧
    unescape [92] = [92] ∧ unescape [] = [] ∧
    (∀ d, escape_code d
      = if d = 110 then some 10 else if d = 116 then some 9 else if d = 92 then some 92
        else if d = 34 then some 34 else if d = 39 then some 39 else none) := by
  have hU := unescape_length str.length str (le_refl _)
  have hrun : parse_string str = some (unescape str) := by
    unfold parse_string
    rw [if_pos hlen]
    have h := parse_string_loop_spec str str.length 0 [] (str.length + 1) (by omega)
      (by omega) (by omega)
    simp only [List.length_nil, List.nil_append, List.drop_zero] at h
    rw [h]
    obtain ⟨n, hn⟩ : ∃ n, str.length + 1 - (unescape str).length = n + 1 :=
      ⟨str.length - (unescape str).length, by omega⟩
    rw [hn, c_string_append_zero _ _ (unescape_nonzero str.length str (le_refl _) hnul)]
  refine ⟨hrun, ?_, hU, unescape_escape, unescape_no_escape, unescape_cons_other, rfl, rfl,
    fun _ => rfl⟩
  intro hno
  rw [hrun, unescape_id str.length str (le_refl _) hno]

theorem parse_string_spec_witness :
    parse_string [97, 92, 110, 98, 92, 120, 92] = some (unescape [97, 92, 110, 98, 92, 120, 92]) ∧
    unescape [97, 92, 110, 98, 92, 120, 92] = [97, 10, 98, 92, 120, 92] :=
  ⟨(parse_string_spec [97, 92, 110, 98, 92, 120, 92] (by decide) (by decide)).1, by decide⟩

/-! ## The bounds `add_memblock` records and the entries of the block -/

/-- C35 does not hold of the code: for the list of the single instruction at 0x1000, of
size 4, `add_memblock` records min_address = max_address = 0x1000, so that the last byte
of the instruction, at 0x1003, lies above max_address; `check_mem_bounds` takes such a
block for one without extent and passes two of them at the same address. -/
theorem add_memblock_single_not_covered :
    add_memblock [] [ex_sub_entry] = Except.ok [ex_single_block] ∧
    ex_sub_entry.size = 4 ∧ ex_single_block.min_address ≤ ex_sub_entry.address ∧
    ¬ (ex_sub_entry.address + ex_sub_entry.size - 1 ≤ ex_single_block.max_address) ∧
    check_mem_bounds [ex_single_block, ex_single_block] = Except.ok () := by
  refine ⟨rfl, rfl, by decide, by decide, rfl⟩

theorem add_memblock_last_mem (rest : List mem_entry_t) :
    ∀ first : mem_entry_t, add_memblock_last first rest ∈ first :: rest := by
  induction rest with
  | nil => intro first; exact List.mem_cons_self _ _
  | cons b l ih => intro first; exact List.mem_cons_of_mem _ (ih b)

theorem chain_bounds (rest : List mem_entry_t) :
    ∀ first : mem_entry_t,
      List.Chain' (fun a b : mem_entry_t => a.address + a.size ≤ b.address) (first :: rest) →
      first.address ≤ (add_memblock_last first rest).address ∧
      ∀ w ∈ first :: rest, first.address ≤ w.address ∧
        (w.address + w.size ≤ (add_memblock_last first rest).address ∨
          (w.address = (add_memblock_last first rest).address ∧
            w.size = (add_memblock_last first rest).size)) := by
  induction rest with
  | nil =>
    intro first _
    refine ⟨le_refl _, ?_⟩
    intro w hw
    rw [List.mem_singleton] at hw
    subst hw
    exact ⟨le_refl _, Or.inr ⟨rfl, rfl⟩⟩
  | cons b l ih =>
    intro first hchain
    rw [List.chain'_cons] at hchain
    obtain ⟨hab, hrest⟩ := hchain
    obtain ⟨hlast, hall⟩ := ih b hrest
    simp only [add_memblock_last]
    refine ⟨by omega, ?_⟩
    intro w hw
    rcases List.mem_cons.1 hw with rfl | hmem
    · exact ⟨le_refl _, Or.inl (by omega)⟩
    · obtain ⟨h1, h2⟩ := hall w hmem
      exact ⟨by omega, h2⟩

/-! ## The indices the writers store at -/

theorem write_text_entries_defined (adj : Nat) (entries : List mem_entry_t) :
    ∀ buff : List Nat, buff.length < 2 ^ 31 →
      (∀ w ∈ entries, written_width w.type ≠ 0 →
        adj ≤ w.address ∧ w.address < 2 ^ 64 ∧
        w.address - adj + written_width w.type ≤ buff.length) →
      write_text_entries adj buff entries ≠ Except.error emit_failure.undefined := by
  induction entries with
  | nil => intro buff _ _ h; cases h
  | cons working rest ih =>
    intro buff hlen hin h
    unfold write_text_entries at h
    by_cases hrej : writer_rejects working
    · obtain ⟨msg, hmsg⟩ := (write_text_entry_fatal_iff adj buff working).2 hrej
      rw [hmsg] at h
      cases h
    · rw [write_text_entry_ok adj buff working hrej hlen
        (hin working (List.mem_cons_self _ _))] at h
      refine ih _ (by rw [store_bytes_length]; exact hlen) ?_ h
      intro w hw hne
      rw [store_bytes_length]
      exact hin w (List.mem_cons_of_mem _ hw) hne

theorem writers_defined_of_inbounds (block : memblock_list_t)
    (hAE : adj_start_addr block ≤ adj_end_addr block)
    (hsmall : adj_end_addr block - adj_start_addr block < 2 ^ 31)
    (hin : ∀ w ∈ block.head, writer_stores w →
      adj_start_addr block ≤ w.address ∧
      w.address + written_width w.type ≤ adj_end_addr block) :
    (∀ w ∈ block.head, writer_stores w → ∀ k, k < written_width w.type →
      0 ≤ writer_idx (adj_start_addr block) w + (k : Int) ∧
      writer_idx (adj_start_addr block) w + (k : Int)
        < ((u64_sub (adj_end_addr block) (adj_start_addr block) : Nat) : Int)) ∧
    write_text_buffer block ≠ Except.error emit_failure.undefined ∧
    write_bin_buffer block ≠ Except.error emit_failure.undefined := by
  have hE := adj_end_addr_lt block
  have hN : u64_sub (adj_end_addr block) (adj_start_addr block)
      = adj_end_addr block - adj_start_addr block := by
    unfold u64_sub
    norm_num only at hE ⊢
    omega
  have htext : write_text_buffer block ≠ Except.error emit_failure.undefined := by
    unfold write_text_buffer
    refine write_text_entries_defined _ _ _ (by rw [List.length_replicate, hN]; exact hsmall) ?_
    intro w hw hne
    obtain ⟨h1, h2⟩ := hin w hw ((writer_stores_iff w).2 hne)
    rw [List.length_replicate, hN]
    norm_num only at hE ⊢
    omega
  refine ⟨?_, htext, ?_⟩
  · intro w hw hs k hk
    obtain ⟨h1, h2⟩ := hin w hw hs
    unfold writer_idx
    rw [idx_eq w.address (adj_start_addr block) h1 (by omega) (by omega), hN]
    omega
  · have hbin : write_bin_buffer block = write_text_buffer block :=
      write_bin_entries_eq _ _ _
    rw [hbin]
    exact htext

theorem align_le (x : Nat) : x &&& 0xFFFFFFFFFFFFFFF0 ≤ x := by
  rw [and_align16]
  have h : x / 16 % 2 ^ 60 ≤ x / 16 := Nat.mod_le _ _
  omega

theorem align_end (m y : Nat) (hm : m + 16 < 2 ^ 64) (hy : y ≤ m + 1) :
    y ≤ u64_add m 16 &&& 0xFFFFFFFFFFFFFFF0 := by
  rw [and_align16]
  unfold u64_add
  rw [Nat.mod_eq_of_lt hm, Nat.mod_eq_of_lt (by norm_num only at hm ⊢; omega)]
  omega

theorem align_end_aligned (a w : Nat) (ha : a + 16 < 2 ^ 64)
    (hw : (w = 1 ∨ w = 2 ∨ w = 4) ∧ a % w = 0) :
    a + w ≤ u64_add a 16 &&& 0xFFFFFFFFFFFFFFF0 := by
  rw [and_align16]
  unfold u64_add
  rw [Nat.mod_eq_of_lt ha, Nat.mod_eq_of_lt (by norm_num only at ha ⊢; omega)]
  obtain ⟨h1 | h1 | h1, h2⟩ := hw <;> subst h1 <;> omega

/-- C36, as amended: for every non-empty entry list below the top of the address space in
which each entry starts at or after the end of the one before it, whose instruction and
W-data entries have size 4 and an address that is a multiple of 4, whose H-data entries
have size 2 and an even address and whose B-data entries have size 1, the block that
`add_memblock` makes of it, if its buffer spans less than 2^31 bytes, has every index
`idx + k` that `write_text` and `write_bin` store at within 0 .. (adj_end - adj_start) - 1,
and neither writer leaves the buffer. -/
theorem writers_indices_in_buffer (block_list : List memblock_list_t) (first : mem_entry_t)
    (rest : List mem_entry_t)
    (hchain : List.Chain' (fun a b : mem_entry_t => a.address + a.size ≤ b.address)
      (first :: rest))
    (hsize : ∀ w ∈ first :: rest,
      (w.type = type_t.ENTRY_INSTRUCTION → w.size = 4 ∧ w.address % 4 = 0) ∧
      (w.type = type_t.ENTRY_BDATA → w.size = 1) ∧
      (w.type = type_t.ENTRY_HDATA → w.size = 2 ∧ w.address % 2 = 0) ∧
      (w.type = type_t.ENTRY_WDATA → w.size = 4 ∧ w.address % 4 = 0))
    (hfit : ∀ w ∈ first :: rest, w.address + w.size + 16 < 2 ^ 64) :
    ∃ block, add_memblock block_list (first :: rest) = Except.ok (block_list ++ [block]) ∧
      block.head = first :: rest ∧
      (adj_end_addr block - adj_start_addr block < 2 ^ 31 →
        (∀ w ∈ first :: rest, writer_stores w → ∀ k, k < w.size →
          0 ≤ writer_idx (adj_start_addr block) w + (k : Int) ∧
          writer_idx (adj_start_addr block) w + (k : Int)
            < ((u64_sub (adj_end_addr block) (adj_start_addr block) : Nat) : Int)) ∧
        write_text_buffer block ≠ Except.error emit_failure.undefined ∧
        write_bin_buffer block ≠ Except.error emit_failure.undefined) := by
  obtain ⟨hfl, hall⟩ := chain_bounds rest first hchain
  have hlmem := add_memblock_last_mem rest first
  have hlfit := hfit _ hlmem
  have hw : ∀ w ∈ first :: rest, writer_stores w →
      w.size = written_width w.type ∧
      ((w.size = 1 ∨ w.size = 2 ∨ w.size = 4) ∧ w.address % w.size = 0) := by
    intro w hmem hs
    obtain ⟨h1, h2, h3, h4⟩ := hsize w hmem
    rcases hs with h | h | h | h
    · obtain ⟨e1, e2⟩ := h1 h
      rw [e1, h]
      exact ⟨rfl, Or.inr (Or.inr rfl), e2⟩
    · rw [h2 h, h]
      exact ⟨rfl, Or.inl rfl, Nat.mod_one _⟩
    · obtain ⟨e1, e2⟩ := h3 h
      rw [e1, h]
      exact ⟨rfl, Or.inr (Or.inl rfl), e2⟩
    · obtain ⟨e1, e2⟩ := h4 h
      rw [e1, h]
      exact ⟨rfl, Or.inr (Or.inr rfl), e2⟩
  have finish : ∀ block : memblock_list_t, block.head = first :: rest →
      adj_start_addr block ≤ adj_end_addr block →
      (∀ w ∈ first :: rest, writer_stores w →
        adj_start_addr block ≤ w.address ∧ w.address + w.size ≤ adj_end_addr block) →
      adj_end_addr block - adj_start_addr block < 2 ^ 31 →
      (∀ w ∈ first :: rest, writer_stores w → ∀ k, k < w.size →
        0 ≤ writer_idx (adj_start_addr block) w + (k : Int) ∧
        writer_idx (adj_start_addr block) w + (k : Int)
          < ((u64_sub (adj_end_addr block) (adj_start_addr block) : Nat) : Int)) ∧
      write_text_buffer block ≠ Except.error emit_failure.undefined ∧
      write_bin_buffer block ≠ Except.error emit_failure.undefined := by
    intro block hhead hAE hin hsmall
    obtain ⟨g1, g2, g3⟩ := writers_defined_of_inbounds block hAE hsmall (by
      intro w hmem hs
      rw [hhead] at hmem
      rw [← (hw w hmem hs).1]
      exact hin w hmem hs)
    refine ⟨?_, g2, g3⟩
    intro w hmem hs k hk
    exact g1 w (by rw [hhead]; exact hmem) hs k (by rw [← (hw w hmem hs).1]; exact hk)
  by_cases hlt : first.address < (add_memblock_last first rest).address
  · refine ⟨{ min_address := first.address,
              max_address := u64_sub (u64_add (add_memblock_last first rest).address
                (add_memblock_last first rest).size) 1,
              head := first :: rest }, ?_, rfl, ?_⟩
    · simp only [add_memblock, if_pos hlt]
    · have hmax : u64_sub (u64_add (add_memblock_last first rest).address
          (add_memblock_last first rest).size) 1
          = (add_memblock_last first rest).address + (add_memblock_last first rest).size - 1 := by
        rw [u64_end _ _ (by omega)]
        exact Nat.mod_eq_of_lt (by omega)
      have hstart : first.address &&& 0xFFFFFFFFFFFFFFF0 ≤ first.address := align_le _
      have hend : ∀ y, y ≤ (add_memblock_last first rest).address
            + (add_memblock_last first rest).size →
          y ≤ u64_add ((add_memblock_last first rest).address
            + (add_memblock_last first rest).size - 1) 16 &&& 0xFFFFFFFFFFFFFFF0 := by
        intro y hy
        exact align_end _ y (by omega) (by omega)
      refine finish _ rfl ?_ ?_
      · simp only [adj_start_addr, adj_end_addr, hmax]
        exact le_trans hstart (hend _ (by omega))
      · intro w hmem hs
        obtain ⟨h1, h2⟩ := hall w hmem
        simp only [adj_start_addr, adj_end_addr, hmax]
        exact ⟨le_trans hstart h1, hend _ (by omega)⟩
  · have heq : first.address = (add_memblock_last first rest).address := by omega
    refine ⟨{ min_address := first.address,
              max_address := (add_memblock_last first rest).address,
              head := first :: rest }, ?_, rfl, ?_⟩
    · simp only [add_memblock, if_neg hlt, if_pos heq]
    · have hstart : first.address &&& 0xFFFFFFFFFFFFFFF0 ≤ first.address := align_le _
      have hffit := hfit first (List.mem_cons_self _ _)
      refine finish _ rfl ?_ ?_
      · simp only [adj_start_addr, adj_end_addr, ← heq]
        exact le_trans hstart (align_end _ _ (by omega) (by omega))
      · intro w hmem hs
        obtain ⟨h1, h2⟩ := hall w hmem
        obtain ⟨_, h3, h4⟩ := hw w hmem hs
        have hwa : w.address = first.address := by omega
        simp only [adj_start_addr, adj_end_addr, ← heq]
        rw [hwa] at h4 ⊢
        exact ⟨hstart, align_end_aligned _ _ (by omega) ⟨h3, h4⟩⟩

theorem writers_indices_in_buffer_witness :
    ∃ block, add_memblock [] (ex_sub_entry :: [ex_def_entry, ex_ret_entry])
        = Except.ok ([] ++ [block]) ∧
      block.head = ex_sub_entry :: [ex_def_entry, ex_ret_entry] ∧
      (adj_end_addr block - adj_start_addr block < 2 ^ 31 →
        (∀ w ∈ ex_sub_entry :: [ex_def_entry, ex_ret_entry], writer_stores w →
          ∀ k, k < w.size →
            0 ≤ writer_idx (adj_start_addr block) w + (k : Int) ∧
            writer_idx (adj_start_addr block) w + (k : Int)
              < ((u64_sub (adj_end_addr block) (adj_start_addr block) : Nat) : Int)) ∧
        write_text_buffer block ≠ Except.error emit_failure.undefined ∧
        write_bin_buffer block ≠ Except.error emit_failure.undefined) :=
  writers_indices_in_buffer [] ex_sub_entry [ex_def_entry, ex_ret_entry]
    (by simp only [List.chain'_cons, List.chain'_singleton]; decide) (by decide) (by decide)

/-- C36 fails as stated: the two instructions of `ex_wide_list`, 2 GiB apart and in the
order of their addresses, have the sizes of their type and aligned addresses;
`add_memblock` makes `ex_wide_block` of them, and for the second one both writers compute
the index -2^31, below the buffer. -/
theorem writers_indices_counterexample :
    add_memblock [] ex_wide_list = Except.ok [ex_wide_block] ∧
    List.Chain' (fun a b : mem_entry_t => a.address + a.size ≤ b.address) ex_wide_list ∧
    (∀ w ∈ ex_wide_list, w.type = type_t.ENTRY_INSTRUCTION ∧ w.size = 4 ∧
      w.address % 4 = 0) ∧
    (∃ w ∈ ex_wide_list, writer_idx (adj_start_addr ex_wide_block) w = -2 ^ 31) ∧
    write_text_buffer ex_wide_block = Except.error emit_failure.undefined ∧
    write_bin_buffer ex_wide_block = Except.error emit_failure.undefined := by
  have h : write_text_buffer ex_wide_block = Except.error emit_failure.undefined :=
    write_text_entries_pair_undefined _ _ _ _ (by decide) (fun b => rfl)
  have hch : List.Chain' (fun a b : mem_entry_t => a.address + a.size ≤ b.address)
      ex_wide_list := by
    unfold ex_wide_list
    simp only [List.chain'_cons, List.chain'_singleton]
    decide
  refine ⟨rfl, hch, by decide, ⟨_, List.mem_cons_of_mem _ (List.mem_cons_self _ _), ?_⟩,
    h, ?_⟩
  · decide
  · have hbin : write_bin_buffer ex_wide_block = write_text_buffer ex_wide_block :=
      write_bin_entries_eq _ _ _
    rw [hbin]
    exact h

/-! ## The program headers of the ELF file -/

theorem elf_alignment_loop_eq (limit : Nat) (hl : limit < 2 ^ 64) :
    ∀ (fuel addr : Nat), fuel = limit - addr →
      elf_alignment_loop limit fuel addr = List.replicate fuel 0 := by
  intro fuel
  induction fuel with
  | zero => intro addr _; rfl
  | succ fuel ih =>
    intro addr hf
    have hlt : addr < limit := by omega
    have hnext : u64_add addr 1 = addr + 1 := by
      unfold u64_add
      exact Nat.mod_eq_of_lt (by omega)
    simp only [elf_alignment_loop, if_pos hlt, hnext, List.replicate_succ]
    rw [ih (addr + 1) (by omega)]

theorem elf_alignment_eq (working next : mem_entry_t)
    (hle : working.address + working.size ≤ next.address) (hn : next.address < 2 ^ 64) :
    elf_alignment working (some next)
      = List.replicate (next.address - (working.address + working.size)) 0 := by
  have hsum : u64_add working.address working.size = working.address + working.size := by
    unfold u64_add
    exact Nat.mod_eq_of_lt (by omega)
  simp only [elf_alignment, hsum]
  by_cases heq : working.address + working.size = next.address
  · rw [if_neg (by simpa using heq), heq, Nat.sub_self]
    rfl
  · rw [if_pos heq]
    exact elf_alignment_loop_eq _ hn _ _ rfl

theorem le_bytes_length (n v : Nat) : (le_bytes n v).length = n := by
  simp [le_bytes]

theorem write_elf_entry_eq (env : elf_platform) (working : mem_entry_t)
    (next : Option mem_entry_t) (hsz : elf_size_ok env working) :
    (elf_emits working →
      write_elf_entry env working next
        = Except.ok (elf_bytes env working ++ elf_alignment working next) ∧
      (elf_bytes env working).length = working.size) ∧
    (¬ elf_emits working →
      write_elf_entry env working next = Except.ok [] ∧ elf_bytes env working = []) := by
  obtain ⟨h1, h2, h3, h4, h5, h6, h7, h8⟩ := hsz
  unfold write_elf_entry elf_bytes elf_emits
  cases ht : working.type <;> rw [ht] at h1 h2 h3 h4 h5 h6 h7 h8 <;>
    simp only [reduceCtorEq, if_false, if_true, ne_eq, not_true_eq_false, not_false_eq_true,
      and_self, and_true, and_false, true_and, false_and, or_false, or_true, true_or,
      false_implies, true_implies, forall_const, IsEmpty.forall_iff, le_bytes_length]
  case ENTRY_INSTRUCTION => rw [h1 rfl]; simp
  case ENTRY_BDATA => rw [h2 rfl]; simp
  case ENTRY_HDATA => rw [h3 rfl]; simp
  case ENTRY_WDATA => rw [h4 rfl]; simp
  case ENTRY_LDATA => rw [h5 rfl]; simp
  case ENTRY_FDATA => rw [h6 rfl]; simp
  case ENTRY_DDATA => rw [h7 rfl]; simp
  case ENTRY_SDATA =>
    have h := h8 rfl
    cases hs : env.string_at working.ivalue with
    | none => rw [hs] at h; cases h
    | some s =>
      rw [hs] at h
      simp only [Option.map_some', Option.some.injEq] at h
      simp [h]

theorem write_elf_entry_chunk (env : elf_platform) (working next : mem_entry_t)
    (hsz : elf_size_ok env working) (hf : elf_follows working next)
    (hn : next.address < 2 ^ 64) :
    ∃ pad, write_elf_entry env working (some next)
        = Except.ok (elf_bytes env working ++ List.replicate pad 0) ∧
      (elf_bytes env working).length + pad + working.address = next.address ∧
      (elf_emits working → (elf_bytes env working).length = working.size) ∧
      (¬ elf_emits working → elf_bytes env working = []) := by
  obtain ⟨he, hd⟩ := write_elf_entry_eq env working (some next) hsz
  obtain ⟨hle, hsame⟩ := hf
  by_cases hem : elf_emits working
  · obtain ⟨hrun, hlen⟩ := he hem
    refine ⟨next.address - (working.address + working.size), ?_, ?_, fun _ => hlen,
      fun h => absurd hem h⟩
    · rw [hrun, elf_alignment_eq working next hle hn]
    · rw [hlen]
      omega
  · obtain ⟨hrun, hnil⟩ := hd hem
    refine ⟨0, ?_, ?_, fun h => absurd h hem, fun _ => hnil⟩
    · rw [hrun, hnil]
      rfl
    · rw [hnil, hsame hem]
      simp

theorem elf_chunk_zero (B image : List Nat) (pad q : Nat) (hlo : B.length ≤ q)
    (hhi : q < B.length + pad) : ((B ++ List.replicate pad 0) ++ image)[q]? = some 0 := by
  rw [List.getElem?_append_left (by rw [List.length_append, List.length_replicate]; exact hhi),
    List.getElem?_append_right hlo, List.getElem?_replicate, if_pos (by omega)]

theorem elf_chunk_rest (B image : List Nat) (pad q : Nat) (h : B.length + pad ≤ q) :
    ((B ++ List.replicate pad 0) ++ image)[q]? = image[q - (B.length + pad)]? := by
  rw [List.getElem?_append_right
    (by rw [List.length_append, List.length_replicate]; exact h),
    List.length_append, List.length_replicate]

theorem write_elf_entries_layout_aux (env : elf_platform) (rest : List mem_entry_t) :
    ∀ first : mem_entry_t, List.Chain' elf_follows (first :: rest) →
      (∀ w ∈ first :: rest, elf_size_ok env w) →
      (∀ w ∈ first :: rest, w.address + w.size < 2 ^ 64) →
      ∃ image, write_elf_entries env (first :: rest) = Except.ok image ∧
        image.length + first.address = elf_end first rest ∧
        (∀ w ∈ first :: rest, elf_emits w →
          ∃ P S, image = P ++ elf_bytes env w ++ S ∧ P.length + first.address = w.address ∧
            (elf_bytes env w).length = w.size) ∧
        (∀ q, q < image.length →
          (∀ w ∈ first :: rest, elf_emits w →
            ¬ (w.address ≤ first.address + q ∧ first.address + q < w.address + w.size)) →
          image[q]? = some 0) := by
  induction rest with
  | nil =>
    intro first _ hsize _
    obtain ⟨he, hd⟩ := write_elf_entry_eq env first none (hsize first (List.mem_cons_self _ _))
    by_cases hem : elf_emits first
    · obtain ⟨hrun, hlen⟩ := he hem
      refine ⟨elf_bytes env first, ?_, ?_, ?_, ?_⟩
      · simp only [write_elf_entries, List.head?_nil, hrun, elf_alignment, List.append_nil]
      · simp only [elf_end, add_memblock_last, if_pos hem, hlen]
        omega
      · intro w hw _
        rw [List.mem_singleton] at hw
        subst hw
        exact ⟨[], [], by simp, by simp, hlen⟩
      · intro q hq hfree
        exact absurd ⟨le_add_right (le_refl _), by omega⟩
          (hfree first (List.mem_cons_self _ _) hem)
    · obtain ⟨hrun, hnil⟩ := hd hem
      refine ⟨[], ?_, ?_, ?_, ?_⟩
      · simp only [write_elf_entries, List.head?_nil, hrun, List.append_nil]
      · simp only [elf_end, add_memblock_last, if_neg hem, List.length_nil]
        omega
      · intro w hw hwe
        rw [List.mem_singleton] at hw
        subst hw
        exact absurd hwe hem
      · intro q hq
        simp only [List.length_nil] at hq
        omega
  | cons b l ih =>
    intro first hchain hsize hfit
    rw [List.chain'_cons] at hchain
    obtain ⟨hf, hrest⟩ := hchain
    obtain ⟨image_r, hrun_r, hlen_r, hpos_r, hzero_r⟩ := ih b hrest
      (fun w hw => hsize w (List.mem_cons_of_mem _ hw))
      (fun w hw => hfit w (List.mem_cons_of_mem _ hw))
    have hb := hfit b (List.mem_cons_of_mem _ (List.mem_cons_self _ _))
    obtain ⟨pad, hstep, hchunk, hBe, hBd⟩ := write_elf_entry_chunk env first b
      (hsize first (List.mem_cons_self _ _)) hf (by omega)
    refine ⟨(elf_bytes env first ++ List.replicate pad 0) ++ image_r, ?_, ?_, ?_, ?_⟩
    · simp only [write_elf_entries, List.head?_cons, hstep] at hrun_r ⊢
      rw [hrun_r]
    · simp only [List.length_append, List.length_replicate]
      have he : elf_end first (b :: l) = elf_end b l := rfl
      rw [he]
      omega
    · intro w hw hwe
      rcases List.mem_cons.1 hw with rfl | hmem
      · exact ⟨[], List.replicate pad 0 ++ image_r, by simp, by simp, hBe hwe⟩
      · obtain ⟨P, S, himg, hP, hl⟩ := hpos_r w hmem hwe
        refine ⟨(elf_bytes env first ++ List.replicate pad 0) ++ P, S, ?_, ?_, hl⟩
        · rw [himg]
          simp only [List.append_assoc]
        · simp only [List.length_append, List.length_replicate]
          omega
    · intro q hq hfree
      simp only [List.length_append, List.length_replicate] at hq
      by_cases h1 : q < (elf_bytes env first).length
      · have hem : elf_emits first := by
          by_contra hne
          rw [hBd hne] at h1
          simp only [List.length_nil] at h1
          omega
        have hsz := hBe hem
        exact absurd ⟨le_add_right (le_refl _), by omega⟩
          (hfree first (List.mem_cons_self _ _) hem)
      · by_cases h2 : q < (elf_bytes env first).length + pad
        · exact elf_chunk_zero _ _ _ _ (by omega) h2
        · rw [elf_chunk_rest _ _ _ _ (by omega)]
          refine hzero_r _ (by omega) ?_
          intro w hmem hwe hcov
          exact hfree w (List.mem_cons_of_mem _ hmem) hwe (by omega)

theorem elf_leading_markers :
    ∀ (pre l : List mem_entry_t) (w : mem_entry_t) (post : List mem_entry_t),
      List.Chain' elf_follows l → l = pre ++ w :: post → (∀ p ∈ pre, ¬ elf_emits p) →
      ∀ h ∈ l.head?, w.address = h.address := by
  intro pre
  induction pre with
  | nil =>
    intro l w post _ hl _ h hh
    subst hl
    simp only [List.nil_append, List.head?_cons, Option.mem_def, Option.some.injEq] at hh
    rw [hh]
  | cons p pre ih =>
    intro l w post hchain hl hpre h hh
    subst hl
    simp only [List.cons_append, List.head?_cons, Option.mem_def, Option.some.injEq] at hh
    subst hh
    obtain ⟨h', t', ht⟩ : ∃ h' t', pre ++ w :: post = h' :: t' := by
      cases pre with
      | nil => exact ⟨w, post, rfl⟩
      | cons x xs => exact ⟨x, xs ++ w :: post, rfl⟩
    rw [List.cons_append, ht, List.chain'_cons] at hchain
    obtain ⟨hf, hrest⟩ := hchain
    have hw := ih (h' :: t') w post hrest ht.symm
      (fun q hq => hpre q (List.mem_cons_of_mem _ hq)) h' rfl
    rw [hw, hf.2 (hpre p (List.mem_cons_self _ _))]

/-- C31, as amended: for every non-empty entry list of a block below the top of the
address space in which each entry starts at or after the end of the one before it, every
definition or join-node entry has the address of the entry behind it, and every other
entry has the size of what is written for its type, the entry loop of `write_elf` yields
an image in which the bytes of every entry other than a definition or a join node start
at offset `address - a0`, where a0 is the address of the first entry of the list and so of
its first such entry, and in which every byte that no such entry covers is zero; the image
ends at the end of the last entry. -/
theorem write_elf_entries_layout (env : elf_platform) (first : mem_entry_t)
    (rest : List mem_entry_t) (hchain : List.Chain' elf_follows (first :: rest))
    (hsize : ∀ w ∈ first :: rest, elf_size_ok env w)
    (hfit : ∀ w ∈ first :: rest, w.address + w.size < 2 ^ 64) :
    ∃ image, write_elf_entries env (first :: rest) = Except.ok image ∧
      image.length + first.address = elf_end first rest ∧
      (∀ w ∈ first :: rest, elf_emits w → first.address ≤ w.address ∧
        (image.drop (w.address - first.address)).take w.size = elf_bytes env w) ∧
      (∀ q, q < image.length →
        (∀ w ∈ first :: rest, elf_emits w →
          ¬ (w.address - first.address ≤ q ∧ q < w.address - first.address + w.size)) →
        image[q]? = some 0) ∧
      (∀ (pre : List mem_entry_t) (w : mem_entry_t) (post : List mem_entry_t),
        first :: rest = pre ++ w :: post → (∀ p ∈ pre, ¬ elf_emits p) →
        w.address = first.address) := by
  obtain ⟨image, hrun, hlen, hpos, hzero⟩ :=
    write_elf_entries_layout_aux env rest first hchain hsize hfit
  refine ⟨image, hrun, hlen, ?_, ?_, ?_⟩
  · intro w hw hwe
    obtain ⟨P, S, himg, hP, hl⟩ := hpos w hw hwe
    refine ⟨by omega, ?_⟩
    have hoff : w.address - first.address = P.length := by omega
    rw [hoff, himg, List.append_assoc, List.drop_left, ← hl, List.take_left]
  · intro q hq hfree
    refine hzero q hq ?_
    intro w hw hwe hcov
    obtain ⟨P, S, _, hP, _⟩ := hpos w hw hwe
    exact hfree w hw hwe (by omega)
  · intro pre w post hl hpre
    exact elf_leading_markers pre (first :: rest) w post hchain hl hpre first rfl

theorem write_elf_entries_layout_witness :
    ∃ image, write_elf_entries ex_platform ex_padded_list = Except.ok image ∧
      image.length + 0x1000 = 0x100c ∧
      (∀ w ∈ ex_padded_list, elf_emits w → 0x1000 ≤ w.address ∧
        (image.drop (w.address - 0x1000)).take w.size = elf_bytes ex_platform w) ∧
      (∀ q, q < image.length →
        (∀ w ∈ ex_padded_list, elf_emits w →
          ¬ (w.address - 0x1000 ≤ q ∧ q < w.address - 0x1000 + w.size)) →
        image[q]? = some 0) ∧
      (∀ (pre : List mem_entry_t) (w : mem_entry_t) (post : List mem_entry_t),
        ex_padded_list = pre ++ w :: post → (∀ p ∈ pre, ¬ elf_emits p) →
        w.address = 0x1000) :=
  write_elf_entries_layout ex_platform { ex_sub_entry with ivalue := 0x403100b3 }
    [{ ex_def_entry with address := 0x1008 },
     { status := status_t.ENTRY_COMPLETE, type := type_t.ENTRY_WDATA, address := 0x1008,
       size := 4, inst := none, ivalue := 0xdeadbeef }]
    (by simp only [List.chain'_cons, List.chain'_singleton]; decide) (by decide) (by decide)

/-- C31 fails as stated: in `ex_gap_list` the addresses do not decrease and each entry
starts at or after the end of the one before it, but the marker at 0x1004 is skipped
without padding, so the image has 8 bytes and the bytes of the instruction at 0x1010 start
at offset 4, not at offset 0x1010 - 0x1000 = 16. -/
theorem write_elf_entries_gap_counterexample :
    List.Chain' (fun a b : mem_entry_t => a.address + a.size ≤ b.address) ex_gap_list ∧
    write_elf_entries ex_platform ex_gap_list
      = Except.ok [0xb3, 0x00, 0x31, 0x40, 0x67, 0x80, 0x00, 0x00] ∧
    (∃ e ∈ ex_gap_list, elf_emits e ∧ e.address - 0x1000 = 16 ∧
      elf_bytes ex_platform e = [0x67, 0x80, 0x00, 0x00] ∧
      ([0xb3, 0x00, 0x31, 0x40, 0x67, 0x80, 0x00, 0x00].drop (e.address - 0x1000)).take e.size
        ≠ elf_bytes ex_platform e ∧
      ([0xb3, 0x00, 0x31, 0x40, 0x67, 0x80, 0x00, 0x00].drop 4).take e.size
        = elf_bytes ex_platform e) := by
  refine ⟨?_, rfl, ?_⟩
  · unfold ex_gap_list
    simp only [List.chain'_cons, List.chain'_singleton]
    decide
  · exact ⟨_, List.mem_cons_of_mem _ (List.mem_cons_of_mem _ (List.mem_cons_self _ _)),
      by decide⟩

end DT
